import Mathlib

/-!
Explorer++ shell tree view: a shallow embedding of `ShellTreeView.cpp`.

The tree view wraps a Win32 tree-view control.  The control itself, the
shell namespace and the clipboard are services of the operating system; they
appear here as explicit data (`TreeCtrl`) or as arguments supplied by the environment
(`Shell`, the handle a fresh node receives, the outcome of a query).  Every
member function of `ShellTreeView` that is embedded keeps its name and takes
the object state `State` explicitly.  A function of the source that can throw
(`std::unordered_map::at` on a missing key) returns `Option`.
-/

namespace ShellTreeView

/-! ## Scalars and constants of the platform headers -/

abbrev HRESULT := Int

def S_OK : HRESULT := 0
def S_FALSE : HRESULT := 1
def E_FAIL : HRESULT := -2147467259

def FAILED (hr : HRESULT) : Bool := decide (hr < 0)
def SUCCEEDED (hr : HRESULT) : Bool := decide (0 ≤ hr)

/-- Value of a tree item handle; a null handle is `none : Option HTREEITEM`. -/
abbrev HTREEITEM := Nat

/-- An absolute item id list: the child ids on the way down from the desktop. -/
abbrev PIDL := List Nat

def ILCombine (pidl : PIDL) (child : Nat) : PIDL := pidl ++ [child]

def ILCloneFull (pidl : PIDL) : PIDL := pidl

/-- Wrap of a C++ `int` (32 bit, two's complement). -/
def toInt32 (x : Int) : Int := (x + 2147483648) % 4294967296 - 2147483648

def I_IMAGECALLBACK : Int := -1
def I_CHILDRENCALLBACK : Int := -1

def TVIF_IMAGE : Nat := 0x0002
def TVIF_CHILDREN : Nat := 0x0040
def TVIF_DI_SETITEM : Nat := 0x1000

def TVIS_CUT : Nat := 0x0004
def TVIS_OVERLAYMASK : Nat := 0x0F00

def TVE_COLLAPSE : Nat := 0x0001
def TVE_EXPAND : Nat := 0x0002
def TVE_COLLAPSERESET : Nat := 0x8000

def SFGAO_HASSUBFOLDER : Nat := 0x80000000
def SFGAO_SYSTEM : Nat := 0x00001000

def SHCONTF_FOLDERS : Nat := 0x0020
def SHCONTF_INCLUDEHIDDEN : Nat := 0x0080
def SHCONTF_INCLUDESUPERHIDDEN : Nat := 0x10000

def INDEXTOOVERLAYMASK (i : Nat) : Nat := i <<< 8

def WI_IsFlagSet (value flag : Nat) : Bool := (value &&& flag) == flag

/-- Flags of `GetDisplayName` (`SHGDN_*`). -/
inductive SHGDN where
  | NORMAL
  | INFOLDER
  | FORPARSING
deriving DecidableEq, Repr

/-! ## `std::unordered_map<int, V>` -/

abbrev StdMap (V : Type) := List (Int × V)

namespace StdMap

variable {V : Type}

def find (m : StdMap V) (k : Int) : Option V := List.lookup k m

/-- The member `at`: throws (here `none`) when the key is missing. -/
def at_ (m : StdMap V) (k : Int) : Option V := List.lookup k m

def contains (m : StdMap V) (k : Int) : Bool := (List.lookup k m).isSome

def erase (m : StdMap V) (k : Int) : StdMap V := m.filter (fun e => e.1 != k)

/-- The member `insert`: an existing key keeps its value. -/
def insert (m : StdMap V) (k : Int) (v : V) : StdMap V :=
  if contains m k then m else m ++ [(k, v)]

/-- Assignment through `operator[]`: `m[k] = v`. -/
def assign (m : StdMap V) (k : Int) (v : V) : StdMap V :=
  if contains m k then m.map (fun e => if e.1 == k then (k, v) else e) else m ++ [(k, v)]

def keys (m : StdMap V) : List Int := m.map Prod.fst

def size (m : StdMap V) : Nat := m.length

end StdMap

/-! ## The tree-view control -/

/-- The fields of `TVITEMEX` the tree view reads or writes. -/
structure TVITEMEX where
  hItem : HTREEITEM
  pszText : String
  iImage : Int
  iSelectedImage : Int
  cChildren : Int
  lParam : Int
  state : Nat
deriving DecidableEq, Repr

/-- Content of the control in the shape its navigation messages expose: every
node has a first child (`TreeView_GetChild`) and a next sibling
(`TreeView_GetNextSibling`). -/
inductive TreeCtrl where
  | nil : TreeCtrl
  | node (item : TVITEMEX) (child : TreeCtrl) (next : TreeCtrl) : TreeCtrl
deriving DecidableEq, Repr

namespace TreeCtrl

/-- All nodes, parents before children, siblings in order. -/
def items : TreeCtrl → List TVITEMEX
  | nil => []
  | node it c n => it :: (items c ++ items n)

def handles (t : TreeCtrl) : List HTREEITEM := t.items.map (fun it => it.hItem)

def head? : TreeCtrl → Option HTREEITEM
  | nil => none
  | node it _ _ => some it.hItem

/-- The node with handle `h`, with its children and later siblings. -/
def findNode (h : HTREEITEM) : TreeCtrl → Option TreeCtrl
  | nil => none
  | node it c n =>
    if it.hItem = h then some (node it c n)
    else match findNode h c with
      | some r => some r
      | none => findNode h n

def childOf : TreeCtrl → TreeCtrl
  | nil => nil
  | node _ c _ => c

def nextOf : TreeCtrl → TreeCtrl
  | nil => nil
  | node _ _ n => n

def itemOf : TreeCtrl → Option TVITEMEX
  | nil => none
  | node it _ _ => some it

/-- Result `some p` when `h` is in the tree, `p` being its parent if it has one. -/
def parentOf (h : HTREEITEM) (parent : Option HTREEITEM) : TreeCtrl → Option (Option HTREEITEM)
  | nil => none
  | node it c n =>
    if it.hItem = h then some parent
    else match parentOf h (some it.hItem) c with
      | some r => some r
      | none => parentOf h parent n

/-- Apply `f` to the node with handle `h`. -/
def mapItem (h : HTREEITEM) (f : TVITEMEX → TVITEMEX) : TreeCtrl → TreeCtrl
  | nil => nil
  | node it c n => node (if it.hItem = h then f it else it) (mapItem h f c) (mapItem h f n)

/-- Append a node at the end of a chain of siblings (`TVI_LAST`). -/
def append (new : TVITEMEX) : TreeCtrl → TreeCtrl
  | nil => node new nil nil
  | node it c n => node it c (append new n)

def insertUnder (h : HTREEITEM) (new : TVITEMEX) : TreeCtrl → TreeCtrl
  | nil => nil
  | node it c n =>
    if it.hItem = h then node it (append new c) n
    else node it (insertUnder h new c) (insertUnder h new n)

/-- Remove every child of the node `h` (`TVE_COLLAPSE | TVE_COLLAPSERESET`). -/
def deleteChildren (h : HTREEITEM) : TreeCtrl → TreeCtrl
  | nil => nil
  | node it c n =>
    if it.hItem = h then node it nil (deleteChildren h n)
    else node it (deleteChildren h c) (deleteChildren h n)

/-- A chain of siblings as a list of nodes with their subtrees. -/
def toSiblings : TreeCtrl → List (TVITEMEX × TreeCtrl)
  | nil => []
  | node it c n => (it, c) :: toSiblings n

def ofSiblings : List (TVITEMEX × TreeCtrl) → TreeCtrl
  | [] => nil
  | (it, c) :: rest => node it c (ofSiblings rest)

/-- Replace the children of the node `h` by `f` of them. -/
def mapChildren (h : HTREEITEM) (f : TreeCtrl → TreeCtrl) : TreeCtrl → TreeCtrl
  | nil => nil
  | node it c n =>
    if it.hItem = h then node it (f c) (mapChildren h f n)
    else node it (mapChildren h f c) (mapChildren h f n)

end TreeCtrl

def TreeView_GetItem (t : TreeCtrl) (h : HTREEITEM) : Option TVITEMEX :=
  (t.findNode h).bind TreeCtrl.itemOf

def TreeView_GetRoot (t : TreeCtrl) : Option HTREEITEM := t.head?

def TreeView_GetChild (t : TreeCtrl) (h : HTREEITEM) : Option HTREEITEM :=
  (t.findNode h).bind (fun r => r.childOf.head?)

def TreeView_GetNextSibling (t : TreeCtrl) (h : HTREEITEM) : Option HTREEITEM :=
  (t.findNode h).bind (fun r => r.nextOf.head?)

def TreeView_GetParent (t : TreeCtrl) (h : HTREEITEM) : Option HTREEITEM :=
  (t.parentOf h none).join

/-- Insertion with `hInsertAfter = TVI_LAST`; `new.hItem` is the handle the
control gives the node. -/
def TreeView_InsertItem (t : TreeCtrl) (hParent : Option HTREEITEM) (new : TVITEMEX) : TreeCtrl :=
  match hParent with
  | none => t.append new
  | some h => t.insertUnder h new

/-- Effect of `TreeView_SetItem` with `TVIF_STATE` on one item: the bits under
`stateMask` are taken from `state`, the others are kept (`UINT` is 32 bit). -/
def setItemState (stateMask state : Nat) (it : TVITEMEX) : TVITEMEX :=
  { it with state := (it.state &&& (0xFFFFFFFF ^^^ stateMask)) ||| (state &&& stateMask) }


/-! ## Services of the environment -/

/-- The shell namespace and the string routines of the platform, as the tree
view sees them at one moment.  `none` stands for a failed call. -/
structure Shell where
  GetRootPidl : Option PIDL
  GetDisplayName : PIDL → SHGDN → Option String
  PathIsRoot : String → Bool
  SHGetPathFromIDList : PIDL → Option String
  lstrcmpi : String → String → Int
  StrCmpLogicalW : String → String → Int
  StrCmpIW : String → String → Int
  BindToIdl : PIDL → HRESULT
  EnumObjects : PIDL → Nat → HRESULT × Option (List Nat)
  IsPinnedToNameSpaceTree : PIDL → Bool
  GetAttributesOf : PIDL → Nat → HRESULT × Nat
  SHGetFileInfo : PIDL → Option Nat
  SHBindToParent : PIDL → HRESULT
  GetDefaultFolderIconIndex : Int

/-- The fields of `Config` the tree view reads. -/
structure Config where
  useNaturalSortOrder : Bool
  hideSystemFiles : Bool
  checkPinnedToNamespaceTreeProperty : Bool

/-- Everything outside the object a member function consults: the shell, the
configuration, and the handle the control gives a node inserted into a tree. -/
structure Env where
  shell : Shell
  config : Config
  newItem : TreeCtrl → HTREEITEM

/-- `GetDisplayName(pidl, flags, output)`: on failure `output` keeps its value. -/
def GetDisplayName (sh : Shell) (pidl : PIDL) (flags : SHGDN) (output : String) :
    HRESULT × String :=
  match sh.GetDisplayName pidl flags with
  | some name => (S_OK, name)
  | none => (E_FAIL, output)

/-- Modelled from the spec: the icon cache of `Helper/CachedIcons.h`, which is
not among the sources; a map from parsing path to icon index. -/
abbrev CachedIcons := List (String × Nat)

def CachedIcons.findByPath (c : CachedIcons) (filePath : String) : Option Nat :=
  List.lookup filePath c

def CachedIcons.addOrUpdateFileIcon (c : CachedIcons) (filePath : String) (iconIndex : Nat) :
    CachedIcons :=
  (filePath, iconIndex) :: c.filter (fun e => e.1 != filePath)

/-! ## The object state -/

structure ItemInfo where
  pidl : PIDL
deriving DecidableEq, Repr

structure IconResult where
  item : HTREEITEM
  internalIndex : Int
  iconIndex : Nat
deriving DecidableEq, Repr

structure SubfoldersResult where
  item : HTREEITEM
  hasSubfolder : Bool
deriving DecidableEq, Repr

/-- The members of `ShellTreeView`, together with the content and the selection
of the control it wraps.  A result store holds for each id the value its future
yields. -/
structure State where
  tree : TreeCtrl
  selection : Option HTREEITEM
  m_itemInfoMap : StdMap ItemInfo
  m_itemIDCounter : Int
  m_iconResults : StdMap (Option IconResult)
  m_iconResultIDCounter : Int
  m_subfoldersResults : StdMap (Option SubfoldersResult)
  m_subfoldersResultIDCounter : Int
  m_cutItem : Option HTREEITEM
  m_clipboardDataObject : Option Nat
  m_cachedIcons : CachedIcons
  m_bShowHidden : Bool
  m_iFolderIcon : Int
deriving DecidableEq, Repr

def GenerateUniqueItemId (s : State) : Int × State :=
  (s.m_itemIDCounter, { s with m_itemIDCounter := toInt32 (s.m_itemIDCounter + 1) })

def GetItemInternalIndex (s : State) (item : HTREEITEM) : Option Int :=
  (TreeView_GetItem s.tree item).map (fun tvItemEx => tvItemEx.lParam)

def GetItemByHandle (s : State) (item : HTREEITEM) : Option ItemInfo :=
  (GetItemInternalIndex s item).bind (fun internalIndex => s.m_itemInfoMap.at_ internalIndex)

def GetItemPidl (s : State) (hTreeItem : HTREEITEM) : Option PIDL :=
  (GetItemByHandle s hTreeItem).map (fun itemInfo => ILCloneFull itemInfo.pidl)

def UpdateItemState (s : State) (item : HTREEITEM) (stateMask state : Nat) : State :=
  { s with tree := s.tree.mapItem item (setItemState stateMask state) }

/-! ## Ordering of siblings -/

def CompareItems (env : Env) (s : State) (lParam1 lParam2 : Int) : Option Int :=
  match s.m_itemInfoMap.at_ lParam1, s.m_itemInfoMap.at_ lParam2 with
  | some itemInfo1, some itemInfo2 =>
    let displayName1 := (GetDisplayName env.shell itemInfo1.pidl SHGDN.FORPARSING "").2
    let displayName2 := (GetDisplayName env.shell itemInfo2.pidl SHGDN.FORPARSING "").2
    if env.shell.PathIsRoot displayName1 && !env.shell.PathIsRoot displayName2 then
      some (-1)
    else if !env.shell.PathIsRoot displayName1 && env.shell.PathIsRoot displayName2 then
      some 1
    else if env.shell.PathIsRoot displayName1 && env.shell.PathIsRoot displayName2 then
      some (env.shell.lstrcmpi displayName1 displayName2)
    else
      if !(env.shell.SHGetPathFromIDList itemInfo1.pidl).isSome
          && (env.shell.SHGetPathFromIDList itemInfo2.pidl).isSome then
        some (-1)
      else if (env.shell.SHGetPathFromIDList itemInfo1.pidl).isSome
          && !(env.shell.SHGetPathFromIDList itemInfo2.pidl).isSome then
        some 1
      else
        let inFolderName1 := (GetDisplayName env.shell itemInfo1.pidl SHGDN.INFOLDER displayName1).2
        let inFolderName2 := (GetDisplayName env.shell itemInfo2.pidl SHGDN.INFOLDER displayName2).2
        if env.config.useNaturalSortOrder then
          some (env.shell.StrCmpLogicalW inFolderName1 inFolderName2)
        else
          some (env.shell.StrCmpIW inFolderName1 inFolderName2)
  | _, _ => none

/-- Insertion of one sibling into a sorted chain, before the first sibling it
does not compare greater than; `none` when the callback throws. -/
def insertSorted (cmp : Int → Int → Option Int) (x : TVITEMEX × TreeCtrl) :
    List (TVITEMEX × TreeCtrl) → Option (List (TVITEMEX × TreeCtrl))
  | [] => some [x]
  | y :: ys =>
    match cmp x.1.lParam y.1.lParam with
    | none => none
    | some c =>
      if c ≤ 0 then some (x :: y :: ys)
      else (insertSorted cmp x ys).map (fun r => y :: r)

/-- The control's `TreeView_SortChildrenCB` on one chain of siblings, as a
stable insertion sort driven by the callback. -/
def sortSiblings (cmp : Int → Int → Option Int) :
    List (TVITEMEX × TreeCtrl) → Option (List (TVITEMEX × TreeCtrl))
  | [] => some []
  | x :: xs => (sortSiblings cmp xs).bind (insertSorted cmp x)

def TreeView_SortChildrenCB (t : TreeCtrl) (hParent : HTREEITEM)
    (cmp : Int → Int → Option Int) : Option TreeCtrl :=
  match t.findNode hParent with
  | none => some t
  | some r =>
    (sortSiblings cmp r.childOf.toSiblings).map
      (fun sorted => t.mapChildren hParent (fun _ => TreeCtrl.ofSiblings sorted))

/-! ## Population of the tree -/

def AddItem (env : Env) (s : State) (parent : HTREEITEM) (pidl : PIDL) : State :=
  let r := GetDisplayName env.shell pidl SHGDN.NORMAL ""
  if FAILED r.1 then s
  else
    let g := GenerateUniqueItemId s
    let itemInfoMap := g.2.m_itemInfoMap.assign g.1 { pidl := ILCloneFull pidl }
    let tvItem : TVITEMEX :=
      { hItem := env.newItem g.2.tree, pszText := r.2, iImage := I_IMAGECALLBACK,
        iSelectedImage := I_IMAGECALLBACK, cChildren := I_CHILDRENCALLBACK, lParam := g.1,
        state := 0 }
    { g.2 with m_itemInfoMap := itemInfoMap,
               tree := TreeView_InsertItem g.2.tree (some parent) tvItem }

/-- One turn of the enumeration loop of `ExpandDirectory`: `acc.1` is
the variable `hr`, `acc.2` the vector `items`. -/
def enumStep (env : Env) (pidlDirectory : PIDL) (acc : HRESULT × List PIDL) (pidlItem : Nat) :
    HRESULT × List PIDL :=
  if env.config.checkPinnedToNamespaceTreeProperty
      && !env.shell.IsPinnedToNameSpaceTree (ILCombine pidlDirectory pidlItem) then
    acc
  else if env.config.hideSystemFiles then
    let r := env.shell.GetAttributesOf (ILCombine pidlDirectory pidlItem) SFGAO_SYSTEM
    if FAILED r.1 || WI_IsFlagSet r.2 SFGAO_SYSTEM then (r.1, acc.2)
    else (r.1, acc.2 ++ [ILCombine pidlDirectory pidlItem])
  else
    (acc.1, acc.2 ++ [ILCombine pidlDirectory pidlItem])

/-- The flags `ExpandDirectory` passes to `EnumObjects`. -/
def enumFlagsOf (s : State) : Nat :=
  if s.m_bShowHidden then
    SHCONTF_FOLDERS ||| SHCONTF_INCLUDEHIDDEN ||| SHCONTF_INCLUDESUPERHIDDEN
  else SHCONTF_FOLDERS

/-- The part of `ExpandDirectory` that follows the call of `EnumObjects`, which
returned `hr` and the enumerator `pEnumIDList`: the enumeration loop, the
insertion of the items, the sort of the children and the lookup of the parent
for `StartDirectoryMonitoringForItem`.  That last function is not among the
sources and leaves the state embedded here untouched. -/
def addEnumerated (env : Env) (s : State) (hParent : HTREEITEM) (pidlDirectory : PIDL)
    (hr : HRESULT) (pEnumIDList : List Nat) : Option (HRESULT × State) :=
  let loop := pEnumIDList.foldl (enumStep env pidlDirectory) (hr, [])
  let s1 := loop.2.foldl (fun st item => AddItem env st hParent item) s
  match TreeView_SortChildrenCB s1.tree hParent (CompareItems env s1) with
  | none => none
  | some sorted =>
    match GetItemByHandle { s1 with tree := sorted } hParent with
    | none => none
    | some _ => some (loop.1, { s1 with tree := sorted })

def ExpandDirectory (env : Env) (s : State) (hParent : HTREEITEM) : Option (HRESULT × State) :=
  match GetItemPidl s hParent with
  | none => none
  | some pidlDirectory =>
    if FAILED (env.shell.BindToIdl pidlDirectory) then
      some (env.shell.BindToIdl pidlDirectory, s)
    else
      match env.shell.EnumObjects pidlDirectory (enumFlagsOf s) with
      | (hr, none) => some (hr, s)
      | (hr, some pEnumIDList) =>
        if FAILED hr then some (hr, s)
        else addEnumerated env s hParent pidlDirectory hr pEnumIDList

/-- The loop of `RemoveChildrenFromInternalMap` over a chain of siblings,
starting at its first node; the recursive call descends to the first child.
The children flag read is the one the node stores; for a node that still holds
the callback value the control would ask `OnGetDisplayInfo`, whose answer 1 is
nonzero like the callback value itself. -/
def removeFromInternalMap (m : StdMap ItemInfo) : TreeCtrl → StdMap ItemInfo
  | TreeCtrl.nil => m
  | TreeCtrl.node tvItemEx child next =>
    let m1 := if tvItemEx.cChildren ≠ 0 then removeFromInternalMap m child else m
    removeFromInternalMap (m1.erase tvItemEx.lParam) next

def RemoveChildrenFromInternalMap (s : State) (hParent : HTREEITEM) : State :=
  match s.tree.findNode hParent with
  | none => s
  | some r => { s with m_itemInfoMap := removeFromInternalMap s.m_itemInfoMap r.childOf }

/-- The `do ... while` loop of `OnItemExpanding`: climb from `hItem` until the
parent reached is `parentItem` or null.  The outer `none` means the loop has
not ended within `fuel` turns. -/
def climbToParent (t : TreeCtrl) (parentItem : HTREEITEM) :
    Nat → HTREEITEM → Option (Option HTREEITEM)
  | 0, _ => none
  | fuel + 1, hItem =>
    match TreeView_GetParent t hItem with
    | none => some none
    | some p => if p = parentItem then some (some p) else climbToParent t parentItem fuel p

def TreeView_SelectItem (s : State) (h : HTREEITEM) : State :=
  if h ∈ s.tree.handles then { s with selection := some h } else s

/-- The function `OnItemExpanding`; `action` is `nmtv->action`.  The call of
`StopDirectoryMonitoringForItem` is not among the sources. -/
def OnItemExpanding (env : Env) (s : State) (parentItem : HTREEITEM) (action : Nat) :
    Option State :=
  if action = TVE_EXPAND then
    (ExpandDirectory env s parentItem).map (fun r => r.2)
  else
    let adjusted : Option State :=
      match s.selection with
      | none => some s
      | some hSelection =>
        match climbToParent s.tree parentItem (s.tree.items.length + 1) hSelection with
        | none => none
        | some hItem =>
          if hItem = some parentItem then some (TreeView_SelectItem s parentItem) else some s
    match adjusted with
    | none => none
    | some s1 =>
      let s2 := RemoveChildrenFromInternalMap s1 parentItem
      let s3 := { s2 with tree := s2.tree.deleteChildren parentItem }
      match GetItemByHandle s3 parentItem with
      | none => none
      | some _ => some s3

/-- The function `AddRoot`; the `TVM_EXPAND` it sends reaches `OnItemExpanding`. -/
def AddRoot (env : Env) (s : State) : Option State :=
  let s0 := { s with tree := TreeCtrl.nil, selection := none }
  match env.shell.GetRootPidl with
  | none => some s0
  | some pidl =>
    let desktopDisplayName := (GetDisplayName env.shell pidl SHGDN.INFOLDER "").2
    let g := GenerateUniqueItemId s0
    let tvItem : TVITEMEX :=
      { hItem := env.newItem g.2.tree, pszText := desktopDisplayName,
        iImage := I_IMAGECALLBACK, iSelectedImage := I_IMAGECALLBACK, cChildren := 1,
        lParam := g.1, state := 0 }
    let s1 := { g.2 with m_itemInfoMap := g.2.m_itemInfoMap.assign g.1 { pidl := ILCloneFull pidl },
                         tree := TreeView_InsertItem g.2.tree none tvItem }
    OnItemExpanding env s1 tvItem.hItem TVE_EXPAND

/-- The state the constructor leaves: the member initialisers, then `AddRoot`. -/
def construct (env : Env) (cachedIcons : CachedIcons) : Option State :=
  AddRoot env
    { tree := TreeCtrl.nil, selection := none, m_itemInfoMap := [], m_itemIDCounter := 0,
      m_iconResults := [], m_iconResultIDCounter := 0, m_subfoldersResults := [],
      m_subfoldersResultIDCounter := 0, m_cutItem := none, m_clipboardDataObject := none,
      m_cachedIcons := cachedIcons, m_bShowHidden := true,
      m_iFolderIcon := env.shell.GetDefaultFolderIconIndex }

/-! ## Background tasks and their results -/

/-- A message posted to the tree view window, with its `wParam`. -/
inductive Message where
  | WM_APP_ICON_RESULT_READY (wParam : Int)
  | WM_APP_SUBFOLDERS_RESULT_READY (wParam : Int)
deriving DecidableEq, Repr

/-- The function `FindIconAsync`: the value it returns and the messages it posts. -/
def FindIconAsync (sh : Shell) (iconResultId : Int) (item : HTREEITEM) (internalIndex : Int)
    (pidl : PIDL) : Option IconResult × List Message :=
  match sh.SHGetFileInfo pidl with
  | none => (none, [])
  | some iIcon =>
    (some { item := item, internalIndex := internalIndex, iconIndex := iIcon },
      [Message.WM_APP_ICON_RESULT_READY iconResultId])

/-- The function `CheckSubfoldersAsync`: the value it returns and the messages it posts. -/
def CheckSubfoldersAsync (sh : Shell) (subfoldersResultId : Int) (item : HTREEITEM)
    (pidl : PIDL) : Option SubfoldersResult × List Message :=
  if FAILED (sh.SHBindToParent pidl) then (none, [])
  else
    let r := sh.GetAttributesOf pidl SFGAO_HASSUBFOLDER
    if FAILED r.1 then (none, [])
    else
      (some { item := item, hasSubfolder := WI_IsFlagSet r.2 SFGAO_HASSUBFOLDER },
        [Message.WM_APP_SUBFOLDERS_RESULT_READY subfoldersResultId])

def GetCachedIconIndex (env : Env) (s : State) (itemInfo : ItemInfo) : Option Nat :=
  let r := GetDisplayName env.shell itemInfo.pidl SHGDN.FORPARSING ""
  if FAILED r.1 then none else s.m_cachedIcons.findByPath r.2

/-- The function `QueueIconTask`; the task pushed to the pool runs `FindIconAsync`
against the shell of `env`, and the store keeps what its future yields. -/
def QueueIconTask (env : Env) (s : State) (item : HTREEITEM) (internalIndex : Int) :
    Option State :=
  match s.m_itemInfoMap.at_ internalIndex with
  | none => none
  | some itemInfo =>
    let iconResultID := s.m_iconResultIDCounter
    let result :=
      (FindIconAsync env.shell iconResultID item internalIndex (ILCloneFull itemInfo.pidl)).1
    some { s with m_iconResultIDCounter := toInt32 (iconResultID + 1),
                  m_iconResults := s.m_iconResults.insert iconResultID result }

def QueueSubfoldersTask (env : Env) (s : State) (item : HTREEITEM) : Option State :=
  match GetItemPidl s item with
  | none => none
  | some pidl =>
    let subfoldersResultID := s.m_subfoldersResultIDCounter
    let result := (CheckSubfoldersAsync env.shell subfoldersResultID item pidl).1
    some { s with m_subfoldersResultIDCounter := toInt32 (subfoldersResultID + 1),
                  m_subfoldersResults := s.m_subfoldersResults.insert subfoldersResultID result }

/-- The function `OnGetDisplayInfo` on the item `ptvItem` of the notification
with the request `mask`: the item and the mask it hands back, and the new state. -/
def OnGetDisplayInfo (env : Env) (s : State) (ptvItem : TVITEMEX) (mask : Nat) :
    Option (TVITEMEX × Nat × State) :=
  let image : Option (TVITEMEX × State) :=
    if WI_IsFlagSet mask TVIF_IMAGE then
      match s.m_itemInfoMap.at_ ptvItem.lParam with
      | none => none
      | some itemInfo =>
        let shown : Int :=
          match GetCachedIconIndex env s itemInfo with
          | some cachedIconIndex => ((cachedIconIndex &&& 0x0FFF : Nat) : Int)
          | none => s.m_iFolderIcon
        (QueueIconTask env s ptvItem.hItem ptvItem.lParam).map
          (fun s1 => ({ ptvItem with iImage := shown, iSelectedImage := shown }, s1))
    else some (ptvItem, s)
  match image with
  | none => none
  | some (item1, s1) =>
    if WI_IsFlagSet mask TVIF_CHILDREN then
      (QueueSubfoldersTask env s1 item1.hItem).map
        (fun s2 => ({ item1 with cChildren := 1 }, mask ||| TVIF_DI_SETITEM, s2))
    else some (item1, mask ||| TVIF_DI_SETITEM, s1)

/-- The control asking for the display information of the node `hItem`: it hands
the stored item to `OnGetDisplayInfo` and, `TVIF_DI_SETITEM` being set in the
answer, keeps the answer in the node. -/
def TVN_GETDISPINFO (env : Env) (s : State) (hItem : HTREEITEM) (mask : Nat) : Option State :=
  match TreeView_GetItem s.tree hItem with
  | none => some s
  | some stored =>
    (OnGetDisplayInfo env s stored mask).map
      (fun r => { r.2.2 with tree := r.2.2.tree.mapItem hItem (fun _ => r.1) })

def ProcessIconResult (env : Env) (s : State) (iconResultId : Int) : State :=
  match s.m_iconResults.find iconResultId with
  | none => s
  | some result =>
    let cleanup := fun (st : State) =>
      { st with m_iconResults := st.m_iconResults.erase iconResultId }
    match result with
    | none => cleanup s
    | some result =>
      match s.m_itemInfoMap.find result.internalIndex with
      | none => cleanup s
      | some itemInfo =>
        let r := GetDisplayName env.shell itemInfo.pidl SHGDN.FORPARSING ""
        let s1 :=
          if SUCCEEDED r.1 then
            { s with m_cachedIcons := s.m_cachedIcons.addOrUpdateFileIcon r.2 result.iconIndex }
          else s
        cleanup
          { s1 with tree := s1.tree.mapItem result.item (fun tvItem =>
              setItemState TVIS_OVERLAYMASK (INDEXTOOVERLAYMASK (result.iconIndex >>> 24))
                { tvItem with iImage := result.iconIndex, iSelectedImage := result.iconIndex }) }

def ProcessSubfoldersResult (s : State) (subfoldersResultId : Int) : State :=
  match s.m_subfoldersResults.find subfoldersResultId with
  | none => s
  | some result =>
    let cleanup := fun (st : State) =>
      { st with m_subfoldersResults := st.m_subfoldersResults.erase subfoldersResultId }
    match result with
    | none => cleanup s
    | some result =>
      if result.hasSubfolder then cleanup s
      else
        cleanup
          { s with tree := s.tree.mapItem result.item (fun tvItem => { tvItem with cChildren := 0 }) }

/-! ## Clipboard -/

def UpdateCurrentClipboardObject (s : State) (clipboardDataObject : Option Nat) : State :=
  let s1 :=
    match s.m_cutItem with
    | some cutItem => UpdateItemState s cutItem TVIS_CUT 0
    | none => s
  { s1 with m_clipboardDataObject := clipboardDataObject }

/-- The function `CopySelectedItemToClipboard`; `files` is what `CopyFiles` or
`CutFiles` (not among the sources) returns: the result code and the data object
placed on the clipboard. -/
def CopySelectedItemToClipboard (s : State) (copy : Bool) (files : HRESULT × Option Nat) :
    Option State :=
  match s.selection with
  | none => none
  | some item =>
    match GetItemByHandle s item with
    | none => none
    | some _ =>
      if copy then
        if SUCCEEDED files.1 then some (UpdateCurrentClipboardObject s files.2) else some s
      else
        if SUCCEEDED files.1 then
          let s1 := UpdateCurrentClipboardObject s files.2
          some (UpdateItemState { s1 with m_cutItem := some item } item TVIS_CUT TVIS_CUT)
        else some s

/-- The function `OnClipboardUpdate`; `OleIsCurrentClipboard` is the answer of the
system for a data object. -/
def OnClipboardUpdate (OleIsCurrentClipboard : Nat → HRESULT) (s : State) : State :=
  match s.m_clipboardDataObject with
  | none => s
  | some dataObject =>
    if OleIsCurrentClipboard dataObject = S_FALSE then
      let s1 :=
        match s.m_cutItem with
        | some cutItem => { UpdateItemState s cutItem TVIS_CUT 0 with m_cutItem := none }
        | none => s
      { s1 with m_clipboardDataObject := none }
    else s

/-! ## Notions the properties are stated with -/

/-- The parsing name `CompareItems` reads for an item: the output buffer starts
empty and keeps that value when the name does not resolve. -/
def parsingNameRead (sh : Shell) (pidl : PIDL) : String :=
  (GetDisplayName sh pidl SHGDN.FORPARSING "").2

/-- The in-folder display name `CompareItems` reads for an item: the buffer holds
the parsing name before the call. -/
def inFolderNameRead (sh : Shell) (pidl : PIDL) : String :=
  (GetDisplayName sh pidl SHGDN.INFOLDER (parsingNameRead sh pidl)).2

/-- The three-tier ordering as the specification words it, on the observations
of two items: whether each parsing name is a filesystem root, whether each item
has a filesystem path, and the names. -/
def threeTierOrder (sh : Shell) (useNaturalSortOrder : Bool) (parsing1 parsing2 : String)
    (hasPath1 hasPath2 : Bool) (name1 name2 : String) : Int :=
  match sh.PathIsRoot parsing1, sh.PathIsRoot parsing2 with
  | true, false => -1
  | false, true => 1
  | true, true => sh.lstrcmpi parsing1 parsing2
  | false, false =>
    match hasPath1, hasPath2 with
    | false, true => -1
    | true, false => 1
    | _, _ =>
      if useNaturalSortOrder then sh.StrCmpLogicalW name1 name2
      else sh.StrCmpIW name1 name2

/-- A string comparison whose sign flips when its arguments are swapped and
whose "not greater" is transitive. -/
def ConsistentComparison (cmp : String → String → Int) : Prop :=
  (∀ x y, Int.sign (cmp x y) = - Int.sign (cmp y x))
    ∧ ∀ x y z, cmp x y ≤ 0 → cmp y z ≤ 0 → cmp x z ≤ 0

/-- The node carries the cut mark `TVIS_CUT`. -/
def isCut (it : TVITEMEX) : Bool := (it.state &&& TVIS_CUT) != 0

/-- An event of the clipboard handling of the tree view. -/
inductive ClipboardEvent where
  | select (item : HTREEITEM)
  | copySelected (copy : Bool) (files : HRESULT × Option Nat)
  | clipboardUpdate (OleIsCurrentClipboard : Nat → HRESULT)

/-- One event: the user selects a node, `CopySelectedItemToClipboard` runs with
what `CopyFiles` or `CutFiles` returns, or `WM_CLIPBOARDUPDATE` arrives. -/
def clipboardStep (s : State) : ClipboardEvent → Option State
  | ClipboardEvent.select item => some (TreeView_SelectItem s item)
  | ClipboardEvent.copySelected copy files => CopySelectedItemToClipboard s copy files
  | ClipboardEvent.clipboardUpdate ole => some (OnClipboardUpdate ole s)

def runClipboard (s : State) : List ClipboardEvent → Option State
  | [] => some s
  | e :: es => (clipboardStep s e).bind (fun s1 => runClipboard s1 es)

/-! ## Concrete environments for the examples -/

/-- Comparison of two strings character by character, ignoring case: what
`lstrcmpi` and `StrCmpIW` do on plain letters, used in the examples. -/
def compareChars : List Char → List Char → Int
  | [], [] => 0
  | [], _ :: _ => -1
  | _ :: _, [] => 1
  | a :: x, b :: y =>
    if a.toLower.toNat < b.toLower.toNat then -1
    else if b.toLower.toNat < a.toLower.toNat then 1
    else compareChars x y

def exCompare (x y : String) : Int := compareChars x.toList y.toList

/-- One folder of an example namespace. -/
structure ExFolder where
  pidl : PIDL
  parsingName : String
  inFolderName : String
  path : Option String
  children : List Nat

def exLookup (folders : List ExFolder) (pidl : PIDL) : Option ExFolder :=
  folders.find? (fun f => f.pidl == pidl)

/-- The shell over a table of folders.  A parsing name is a root when it is a
drive letter, a colon and a backslash. -/
def exShell (folders : List ExFolder) : Shell :=
  { GetRootPidl := some [],
    GetDisplayName := fun pidl flags =>
      (exLookup folders pidl).map
        (fun f => if flags = SHGDN.FORPARSING then f.parsingName else f.inFolderName),
    PathIsRoot := fun p => p.length == 3 && p.toList.drop 1 == [':', '\\'],
    SHGetPathFromIDList := fun pidl => (exLookup folders pidl).bind (fun f => f.path),
    lstrcmpi := exCompare,
    StrCmpLogicalW := exCompare,
    StrCmpIW := exCompare,
    BindToIdl := fun pidl => if (exLookup folders pidl).isSome then S_OK else E_FAIL,
    EnumObjects := fun pidl _ =>
      match exLookup folders pidl with
      | some f => (S_OK, some f.children)
      | none => (E_FAIL, none),
    IsPinnedToNameSpaceTree := fun _ => true,
    GetAttributesOf := fun pidl _ =>
      match exLookup folders pidl with
      | some f => (S_OK, if f.children = [] then 0 else SFGAO_HASSUBFOLDER)
      | none => (E_FAIL, 0),
    SHGetFileInfo := fun _ => some 3,
    SHBindToParent := fun _ => S_OK,
    GetDefaultFolderIconIndex := 3 }

/-- A control that gives a new node the handle after the largest one in use. -/
def exNewItem (t : TreeCtrl) : HTREEITEM := t.handles.foldl max 0 + 1

def exEnv (folders : List ExFolder) : Env :=
  { shell := exShell folders,
    config := { useNaturalSortOrder := true, hideSystemFiles := false,
                checkPinnedToNamespaceTreeProperty := false },
    newItem := exNewItem }

/-- The desktop with one folder `Work` that has no subfolder. -/
def exFolders : List ExFolder :=
  [ { pidl := [], parsingName := "Desktop", inFolderName := "Desktop", path := none,
      children := [1] },
    { pidl := [1], parsingName := "C:\\Work", inFolderName := "Work", path := some "C:\\Work",
      children := [] } ]

/-- The same namespace after `Work` has gained the subfolder `New`. -/
def exFoldersGrown : List ExFolder :=
  [ { pidl := [], parsingName := "Desktop", inFolderName := "Desktop", path := none,
      children := [1] },
    { pidl := [1], parsingName := "C:\\Work", inFolderName := "Work", path := some "C:\\Work",
      children := [2] },
    { pidl := [1, 2], parsingName := "C:\\Work\\New", inFolderName := "New",
      path := some "C:\\Work\\New", children := [] } ]

/-- The namespace after `Work` has been deleted and `Data`, a folder with a
subfolder, has appeared on the desktop. -/
def exFoldersReplaced : List ExFolder :=
  [ { pidl := [], parsingName := "Desktop", inFolderName := "Desktop", path := none,
      children := [5] },
    { pidl := [5], parsingName := "C:\\Data", inFolderName := "Data", path := some "C:\\Data",
      children := [6] },
    { pidl := [5, 6], parsingName := "C:\\Data\\Sub", inFolderName := "Sub",
      path := some "C:\\Data\\Sub", children := [] } ]

/-- The run that leaves a record without a node: the tree is built, the control
asks for the child count of `Work` (handle 2) and the check finds no subfolder,
`Work` gains a subfolder and is expanded, the result of the check is processed,
and the root (handle 1) is collapsed. -/
def exLeakRun : Option State :=
  (construct (exEnv exFolders) []).bind fun s0 =>
  (TVN_GETDISPINFO (exEnv exFolders) s0 2 TVIF_CHILDREN).bind fun s1 =>
  (OnItemExpanding (exEnv exFoldersGrown) s1 2 TVE_EXPAND).bind fun s2 =>
  OnItemExpanding (exEnv exFoldersGrown) (ProcessSubfoldersResult s2 0) 1 TVE_COLLAPSE

/-- The run that ends with a pending result whose node is gone: the control asks
for the child count of `Work` (handle 2), the root is collapsed, `Work` is
replaced by `Data` in the namespace, and the root is expanded again. -/
def exStaleRun : Option State :=
  (construct (exEnv exFolders) []).bind fun s0 =>
  (TVN_GETDISPINFO (exEnv exFolders) s0 2 TVIF_CHILDREN).bind fun s1 =>
  (OnItemExpanding (exEnv exFolders) s1 1 TVE_COLLAPSE).bind fun s2 =>
  OnItemExpanding (exEnv exFoldersReplaced) s2 1 TVE_EXPAND

/-- A state with one node, one registered item, an icon result for a handle that
is not registered and a subfolder result. -/
def exPendingState : State :=
  { tree := TreeCtrl.node
      { hItem := 1, pszText := "Desktop", iImage := -1, iSelectedImage := -1, cChildren := 1,
        lParam := 0, state := 0 } TreeCtrl.nil TreeCtrl.nil,
    selection := none,
    m_itemInfoMap := [(0, { pidl := [] })],
    m_itemIDCounter := 2,
    m_iconResults := [(0, some { item := 1, internalIndex := 0, iconIndex := 7 }),
                      (1, some { item := 2, internalIndex := 1, iconIndex := 9 })],
    m_iconResultIDCounter := 2,
    m_subfoldersResults := [(0, some { item := 1, hasSubfolder := false })],
    m_subfoldersResultIDCounter := 1,
    m_cutItem := none,
    m_clipboardDataObject := none,
    m_cachedIcons := [],
    m_bShowHidden := true,
    m_iFolderIcon := 3 }

/-- The desktop with four folders, enumerated in this order: `zeta.txt` and
`Alpha` with filesystem paths, the drive `C:` and the virtual folder `Network`. -/
def exSiblingFolders : List ExFolder :=
  [ { pidl := [], parsingName := "Desktop", inFolderName := "Desktop", path := none,
      children := [1, 2, 3, 4] },
    { pidl := [1], parsingName := "C:\\Users\\zeta.txt", inFolderName := "zeta.txt",
      path := some "C:\\Users\\zeta.txt", children := [] },
    { pidl := [2], parsingName := "C:\\Users\\Alpha", inFolderName := "Alpha",
      path := some "C:\\Users\\Alpha", children := [] },
    { pidl := [3], parsingName := "C:\\", inFolderName := "Local Disk (C:)",
      path := some "C:\\", children := [] },
    { pidl := [4], parsingName := "::Network", inFolderName := "Network", path := none,
      children := [] } ]

/-- The state the constructor leaves over `exSiblingFolders`. -/
def exSiblingState : State :=
  { tree := TreeCtrl.node
      { hItem := 1, pszText := "Desktop", iImage := -1, iSelectedImage := -1, cChildren := 1,
        lParam := 0, state := 0 }
      (TreeCtrl.node
        { hItem := 4, pszText := "Local Disk (C:)", iImage := -1, iSelectedImage := -1,
          cChildren := -1, lParam := 3, state := 0 } TreeCtrl.nil
        (TreeCtrl.node
          { hItem := 5, pszText := "Network", iImage := -1, iSelectedImage := -1,
            cChildren := -1, lParam := 4, state := 0 } TreeCtrl.nil
          (TreeCtrl.node
            { hItem := 3, pszText := "Alpha", iImage := -1, iSelectedImage := -1,
              cChildren := -1, lParam := 2, state := 0 } TreeCtrl.nil
            (TreeCtrl.node
              { hItem := 2, pszText := "zeta.txt", iImage := -1, iSelectedImage := -1,
                cChildren := -1, lParam := 1, state := 0 } TreeCtrl.nil TreeCtrl.nil))))
      TreeCtrl.nil,
    selection := none,
    m_itemInfoMap := [(0, { pidl := [] }), (1, { pidl := [1] }), (2, { pidl := [2] }),
                      (3, { pidl := [3] }), (4, { pidl := [4] })],
    m_itemIDCounter := 5,
    m_iconResults := [],
    m_iconResultIDCounter := 0,
    m_subfoldersResults := [],
    m_subfoldersResultIDCounter := 0,
    m_cutItem := none,
    m_clipboardDataObject := none,
    m_cachedIcons := [],
    m_bShowHidden := true,
    m_iFolderIcon := 3 }

/-- The desktop showing two folders named `Reports`, one of the user and one
shared, with different filesystem paths. -/
def exTwinFolders : List ExFolder :=
  [ { pidl := [], parsingName := "Desktop", inFolderName := "Desktop", path := none,
      children := [1, 2] },
    { pidl := [1], parsingName := "C:\\Users\\me\\Desktop\\Reports", inFolderName := "Reports",
      path := some "C:\\Users\\me\\Desktop\\Reports", children := [] },
    { pidl := [2], parsingName := "C:\\Users\\Public\\Desktop\\Reports",
      inFolderName := "Reports", path := some "C:\\Users\\Public\\Desktop\\Reports",
      children := [] } ]

/-- A state whose registry holds the two folders of `exTwinFolders`. -/
def exTwinState : State :=
  { exPendingState with
    m_itemInfoMap := [(0, { pidl := [] }), (1, { pidl := [1] }), (2, { pidl := [2] })] }

/-- The state after a successful cut of the node `item` in the state `s`, the
data object placed on the clipboard being `obj`. -/
def exAfterCut (s : State) (item : HTREEITEM) (obj : Nat) : State :=
  (CopySelectedItemToClipboard { s with selection := some item } false (S_OK, some obj)).getD s

/-- The events of a cut of the node with handle 4 followed by a copy of the node
with handle 3 and a cut of the node with handle 2. -/
def exClipboardEvents : List ClipboardEvent :=
  [ ClipboardEvent.select 4, ClipboardEvent.copySelected false (S_OK, some 11),
    ClipboardEvent.select 3, ClipboardEvent.copySelected true (S_OK, some 12),
    ClipboardEvent.select 2, ClipboardEvent.copySelected false (S_OK, some 13) ]

/-- The state `exClipboardEvents` lead to from `exSiblingState`. -/
def exCutState : State :=
  exAfterCut { exSiblingState with m_cutItem := some 4 } 2 13

/-! ## Ancestors and descendants in the control -/

namespace TreeCtrl

/-- The strict ancestors of the node `h`, the parent first and the root-level
ancestor last; `none` when no node has the handle. -/
def pathTo (h : HTREEITEM) : TreeCtrl → Option (List HTREEITEM)
  | nil => none
  | node it c n =>
    if it.hItem = h then some []
    else match pathTo h c with
      | some r => some (r ++ [it.hItem])
      | none => pathTo h n

/-- The handles of the strict descendants of the node `P`: the nodes below it
at any depth. -/
def descendants (t : TreeCtrl) (P : HTREEITEM) : List HTREEITEM :=
  match t.findNode P with
  | some r => r.childOf.handles
  | none => []

/-- The client data of the strict descendants of the node `P`. -/
def descendantParams (t : TreeCtrl) (P : HTREEITEM) : List Int :=
  match t.findNode P with
  | some r => r.childOf.items.map (fun it => it.lParam)
  | none => []

end TreeCtrl

/-! ## Rename, paste, drag, delete and the keyboard -/

def MAX_PATH : Nat := 260

def CMIC_MASK_SHIFT_DOWN : Nat := 0x10000000

def DROPEFFECT_COPY : Nat := 1
def DROPEFFECT_MOVE : Nat := 2
def DROPEFFECT_LINK : Nat := 4

def SFGAO_CANCOPY : Nat := 0x00000001
def SFGAO_CANMOVE : Nat := 0x00000002
def SFGAO_CANLINK : Nat := 0x00000004

def VK_SHIFT : Nat := 0x10
def VK_CONTROL : Nat := 0x11
def VK_MENU : Nat := 0x12
def VK_DELETE : Nat := 0x2E

def WI_AreAllFlagsClear (value flags : Nat) : Bool := (value &&& flags) == 0

/-- The UTF-16 code units (`wchar_t` values) of one character: one unit for a
character of the basic plane, a surrogate pair for any other. -/
def utf16Units (c : Char) : List Nat :=
  if c.toNat < 0x10000 then [c.toNat]
  else [0xD800 + (c.toNat - 0x10000) / 0x400, 0xDC00 + (c.toNat - 0x10000) % 0x400]

/-- The content of a wide string as its sequence of UTF-16 code units, the form
in which it lies in a `TCHAR` buffer. -/
def toWide (str : String) : List Nat := (str.toList.map utf16Units).flatten

/-- The two `std::wstring` members of `RenamedItem_t`, as sequences of UTF-16
code units: the new name is taken from a buffer, whose content need not be a
well-formed string after a cut. -/
structure RenamedItem_t where
  strOldFilename : List Nat
  strNewFilename : List Nat
deriving DecidableEq, Repr

/-- A call a handler makes on a service outside the object, in the order made.
`TreeView_Select` is the message that moves the caret of the control. -/
inductive Call where
  | RenameFiles (renamedItemList : List RenamedItem_t)
  | ExecuteActionFromContextMenu (pidl : PIDL) (action : String) (mask : Nat)
  | CopyClipboardData (dataObject : Nat) (destinationPath : String)
  | SHDoDragDrop (dataObject : Nat) (allowedEffects : Nat)
  | SetPreferredDropEffect (dataObject : Nat) (effect : Nat)
  | TreeView_Select (item : Option HTREEITEM)
deriving DecidableEq, Repr

/-- The path routines of the platform the rename uses, on the content of the
buffer in UTF-16 code units: `PathRemoveFileSpec`, and `PathAppend` with the
text to append, which is `none` when it returns false. -/
structure PathApi where
  PathRemoveFileSpec : List Nat → List Nat
  PathAppend : List Nat → List Nat → Option (List Nat)

/-- The routine `StringCchCopy` into a buffer of `cchDest` elements of type
`TCHAR`: the content of the buffer afterwards.  At most `cchDest - 1` code
units are copied, the last element being the terminator; what does not fit is
cut off, also in the middle of a surrogate pair (the result code is not looked
at by the caller). -/
def StringCchCopy (cchDest : Nat) (src : String) : List Nat :=
  (toWide src).take (cchDest - 1)

/-- Modelled from the spec: `TrimStringRight` of `Helper/StringHelper.h`, which is
not among the sources; the spec has the rename "trim trailing spaces", so the
code units of `strWhitespace` are removed from the end of `str`. -/
def TrimStringRight (str : List Nat) (strWhitespace : String) : List Nat :=
  (str.reverse.dropWhile (fun u => (toWide strWhitespace).contains u)).reverse

/-- The function `OnEndLabelEdit` on the item `hItem` with the text `pszText` of
the notification (`none` for a null pointer): the value returned and the calls
made. -/
def OnEndLabelEdit (env : Env) (api : PathApi) (s : State) (hItem : HTREEITEM)
    (pszText : Option String) : Option (Bool × List Call) :=
  match pszText with
  | none => some (false, [])
  | some text =>
    if text.length = 0 then some (false, [])
    else
      match GetItemByHandle s hItem with
      | none => none
      | some itemInfo =>
        let r := GetDisplayName env.shell itemInfo.pidl SHGDN.FORPARSING ""
        if FAILED r.1 then some (false, [])
        else
          let newFileName := api.PathRemoveFileSpec (StringCchCopy MAX_PATH r.2)
          match api.PathAppend newFileName (toWide text) with
          | none => some (false, [])
          | some joined =>
            some (true,
              [Call.RenameFiles
                [{ strOldFilename := toWide r.2,
                   strNewFilename := TrimStringRight joined " " }]])

/-- The clipboard as `Paste` sees it: what `OleGetClipboard` returns (result code
and data object) and the answer of `CanShellPasteDataObject`. -/
structure ClipboardApi where
  OleGetClipboard : HRESULT × Nat
  CanShellPasteDataObject : PIDL → Nat → Nat → Bool

/-- The function `Paste`: the calls made.  The function assigns no member, so the
object state is only read. -/
def Paste (env : Env) (clip : ClipboardApi) (s : State) : Option (List Call) :=
  if FAILED clip.OleGetClipboard.1 then some []
  else
    match s.selection.bind (GetItemByHandle s) with
    | none => none
    | some selectedItem =>
      if clip.CanShellPasteDataObject selectedItem.pidl clip.OleGetClipboard.2
          (DROPEFFECT_COPY ||| DROPEFFECT_MOVE) then
        some [Call.ExecuteActionFromContextMenu selectedItem.pidl "paste" 0]
      else
        let r := GetDisplayName env.shell selectedItem.pidl SHGDN.FORPARSING ""
        if FAILED r.1 then some []
        else some [Call.CopyClipboardData clip.OleGetClipboard.2 r.2]

/-- The drag services: `CreateDataObjectForShellTransfer` (result code and data
object), the value `SHDoDragDrop` returns for a data object and a mask, and
`GetItemAttributes` (result code and attributes for a requested mask). -/
structure DragApi where
  CreateDataObjectForShellTransfer : List PIDL → HRESULT × Nat
  SHDoDragDrop : Nat → Nat → HRESULT
  GetItemAttributes : PIDL → Nat → HRESULT × Nat

/-- The function `ShellTreeView::OnBeginDrag`: the value returned and the calls
made. -/
def OnBeginDrag (drag : DragApi) (s : State) (iItemId : Int) : Option (HRESULT × List Call) :=
  match s.m_itemInfoMap.at_ iItemId with
  | none => none
  | some itemInfo =>
    let r := drag.CreateDataObjectForShellTransfer [itemInfo.pidl]
    if FAILED r.1 then some (r.1, [])
    else
      some (drag.SHDoDragDrop r.2 (DROPEFFECT_COPY ||| DROPEFFECT_MOVE ||| DROPEFFECT_LINK),
        [Call.SHDoDragDrop r.2 (DROPEFFECT_COPY ||| DROPEFFECT_MOVE ||| DROPEFFECT_LINK)])

/-- The function `AddressBar::OnBeginDrag` of `AddressBar.cpp` for the directory
`pidlDirectory` of the selected tab: the calls made. -/
def AddressBar.OnBeginDrag (drag : DragApi) (pidlDirectory : PIDL) : List Call :=
  let a := drag.GetItemAttributes pidlDirectory
    (SFGAO_CANCOPY ||| SFGAO_CANMOVE ||| SFGAO_CANLINK)
  if FAILED a.1 || WI_AreAllFlagsClear a.2 (SFGAO_CANCOPY ||| SFGAO_CANMOVE ||| SFGAO_CANLINK) then
    []
  else
    let d := drag.CreateDataObjectForShellTransfer [pidlDirectory]
    if FAILED d.1 then []
    else
      let e1 := if WI_IsFlagSet a.2 SFGAO_CANCOPY then 0 ||| DROPEFFECT_COPY else 0
      let e2 := if WI_IsFlagSet a.2 SFGAO_CANMOVE then e1 ||| DROPEFFECT_MOVE else e1
      let e3 := if WI_IsFlagSet a.2 SFGAO_CANLINK then e2 ||| DROPEFFECT_LINK else e2
      (if WI_IsFlagSet a.2 SFGAO_CANLINK then [Call.SetPreferredDropEffect d.2 DROPEFFECT_LINK]
        else [])
        ++ [Call.SHDoDragDrop d.2 e3]

/-- The function `DeleteSelectedItem`: the new state and the calls made. -/
def DeleteSelectedItem (s : State) (permanent : Bool) : Option (State × List Call) :=
  let item := s.selection
  let parentItem := item.bind (TreeView_GetParent s.tree)
  let s1 := { s with selection := parentItem }
  match item.bind (GetItemPidl s1) with
  | none => none
  | some pidl =>
    let mask := if permanent then CMIC_MASK_SHIFT_DOWN else 0
    some (s1, [Call.TreeView_Select parentItem,
               Call.ExecuteActionFromContextMenu pidl "delete" mask])

/-- The member function a key press leads to. -/
inductive KeyCommand where
  | CopySelectedItemToClipboard (copy : Bool)
  | Paste
  | DeleteSelectedItem (permanent : Bool)
deriving DecidableEq, Repr

/-- The function `OnKeyDown` for the key `wVKey`, with `IsKeyDown` telling which
keys are held: the member function called, if any, and the value returned. -/
def OnKeyDown (IsKeyDown : Nat → Bool) (wVKey : Nat) : Option KeyCommand × Int :=
  let command : Option KeyCommand :=
    if wVKey = 'C'.toNat then
      if IsKeyDown VK_CONTROL && !IsKeyDown VK_SHIFT && !IsKeyDown VK_MENU then
        some (KeyCommand.CopySelectedItemToClipboard true)
      else none
    else if wVKey = 'X'.toNat then
      if IsKeyDown VK_CONTROL && !IsKeyDown VK_SHIFT && !IsKeyDown VK_MENU then
        some (KeyCommand.CopySelectedItemToClipboard false)
      else none
    else if wVKey = 'V'.toNat then
      if IsKeyDown VK_CONTROL && !IsKeyDown VK_SHIFT && !IsKeyDown VK_MENU then
        some KeyCommand.Paste
      else none
    else if wVKey = VK_DELETE then
      if IsKeyDown VK_SHIFT then some (KeyCommand.DeleteSelectedItem true)
      else some (KeyCommand.DeleteSelectedItem false)
    else none
  (command, if IsKeyDown VK_CONTROL then 1 else 0)

/-- The identifiers `n` successive calls of `GenerateUniqueItemId` return, and
the state after them. -/
def generateIds : Nat → State → List Int × State
  | 0, s => ([], s)
  | n + 1, s =>
    ((GenerateUniqueItemId s).1 :: (generateIds n (GenerateUniqueItemId s).2).1,
      (generateIds n (GenerateUniqueItemId s).2).2)

/-! ## Concrete inputs for the handlers -/

/-- A tree three levels deep over `exFoldersGrown`: the desktop (handle 1), the
folder `Work` (handle 2) with its subfolder `New` (handle 3), which is selected. -/
def exDeepState : State :=
  { exPendingState with
    tree := TreeCtrl.node
      { hItem := 1, pszText := "Desktop", iImage := -1, iSelectedImage := -1, cChildren := 1,
        lParam := 0, state := 0 }
      (TreeCtrl.node
        { hItem := 2, pszText := "Work", iImage := -1, iSelectedImage := -1, cChildren := 1,
          lParam := 1, state := 0 }
        (TreeCtrl.node
          { hItem := 3, pszText := "New", iImage := -1, iSelectedImage := -1, cChildren := -1,
            lParam := 2, state := 0 } TreeCtrl.nil TreeCtrl.nil)
        TreeCtrl.nil)
      TreeCtrl.nil,
    selection := some 3,
    m_itemInfoMap := [(0, { pidl := [] }), (1, { pidl := [1] }), (2, { pidl := [1, 2] })],
    m_itemIDCounter := 3 }

/-- The run `exLeakRun` up to the point before the root is collapsed. -/
def exLeakBeforeCollapse : Option State :=
  (construct (exEnv exFolders) []).bind fun s0 =>
  (TVN_GETDISPINFO (exEnv exFolders) s0 2 TVIF_CHILDREN).bind fun s1 =>
  (OnItemExpanding (exEnv exFoldersGrown) s1 2 TVE_EXPAND).map fun s2 =>
  ProcessSubfoldersResult s2 0

/-- The part of a path before its last backslash (code unit 92), standing for
`PathRemoveFileSpec` in the examples. -/
def exRemoveFileSpec (p : List Nat) : List Nat :=
  ((p.reverse.dropWhile (fun u => u != 92)).drop 1).reverse

/-- The two parts joined by a backslash. -/
def exJoin (a b : List Nat) : List Nat := a ++ [92] ++ b

/-- The path routines of the examples; the join fails when the result does not
fit a buffer of `MAX_PATH` elements. -/
def exPathApi : PathApi :=
  { PathRemoveFileSpec := exRemoveFileSpec,
    PathAppend := fun a b =>
      if a.length + 1 + b.length < MAX_PATH then some (exJoin a b) else none }

/-- A text of three characters, the second one outside the basic plane
(U+1F600). -/
def exAstralText : String := String.mk ['a', Char.ofNat 0x1F600, 'b']

/-- A path of 277 characters: a folder `old` in a folder with a name of 270
characters on drive `C:`. -/
def exLongPath : String :=
  String.mk ("C:\\".toList ++ List.replicate 270 'a' ++ "\\old".toList)

/-- The desktop with one folder whose parsing path is `exLongPath`. -/
def exLongFolders : List ExFolder :=
  [ { pidl := [], parsingName := "Desktop", inFolderName := "Desktop", path := none,
      children := [1] },
    { pidl := [1], parsingName := exLongPath, inFolderName := "old", path := some exLongPath,
      children := [] } ]

/-- A state whose registry holds an item the shell no longer knows (a folder
deleted from the namespace), shown by the selected node with handle 1. -/
def exOrphanState : State :=
  { exPendingState with
    selection := some 1,
    m_itemInfoMap := [(0, { pidl := [9] })] }

/-- A clipboard whose content can be read but is not shell-pasteable. -/
def exClipboardNotPasteable : ClipboardApi :=
  { OleGetClipboard := (S_OK, 21), CanShellPasteDataObject := fun _ _ _ => false }

/-- A clipboard whose content can be read and is shell-pasteable. -/
def exClipboardPasteable : ClipboardApi :=
  { OleGetClipboard := (S_OK, 21), CanShellPasteDataObject := fun _ _ _ => true }

/-- A clipboard that cannot be read. -/
def exClipboardUnreadable : ClipboardApi :=
  { OleGetClipboard := (E_FAIL, 0), CanShellPasteDataObject := fun _ _ _ => true }

/-- Drag services in which every data object is created (object 31), the drag
returns `S_OK`, and the attributes are `attributes` whatever is asked for. -/
def exDragApi (attributes : Nat) : DragApi :=
  { CreateDataObjectForShellTransfer := fun _ => (S_OK, 31),
    SHDoDragDrop := fun _ _ => S_OK,
    GetItemAttributes := fun _ _ => (S_OK, attributes) }

/-- A state whose next item identifier is the largest value of an `int`. -/
def exLastIdState : State := { exPendingState with m_itemIDCounter := 2147483647 }

/-- The identifier the `n`-th call of `GenerateUniqueItemId` returns, counted
from the state `s`. -/
def idOfCall (n : Nat) (s : State) : Option Int := (generateIds n s).1.getLast?

/-- A state in which no identifier has been generated yet, as the constructor
initialises the counter. -/
def exFreshState : State := { exPendingState with m_itemIDCounter := 0 }

/-! ## The pools of background work -/

/-- A task waiting in the queue of `m_iconThreadPool`: the values captured by the
lambda that `QueueIconTask` pushes. -/
structure IconTask where
  iconResultID : Int
  item : HTREEITEM
  internalIndex : Int
  pidl : PIDL
deriving DecidableEq, Repr

/-- A task waiting in the queue of `m_subfoldersThreadPool`: the values captured
by the lambda that `QueueSubfoldersTask` pushes. -/
structure SubfoldersTask where
  subfoldersResultID : Int
  item : HTREEITEM
  pidl : PIDL
deriving DecidableEq, Repr

/-- The pending work of the two pools, oldest task first. -/
structure Pools where
  m_iconThreadPool : List IconTask
  m_subfoldersThreadPool : List SubfoldersTask
deriving DecidableEq, Repr

/-- Modelled from the spec: `clear_queue` of the thread pool class, which is not
among the sources; the pending work is discarded, not awaited. -/
def clear_queue {α : Type} (_queue : List α) : List α := []

/-- The body of the destructor `~ShellTreeView`, on the queues of the pools. -/
def destructor (pools : Pools) : Pools :=
  { pools with m_iconThreadPool := clear_queue pools.m_iconThreadPool }

/-- What the lambda pushed by `QueueIconTask` does when the pool runs it. -/
def IconTask.run (sh : Shell) (task : IconTask) : Option IconResult × List Message :=
  FindIconAsync sh task.iconResultID task.item task.internalIndex task.pidl

/-- What the lambda pushed by `QueueSubfoldersTask` does when the pool runs it. -/
def SubfoldersTask.run (sh : Shell) (task : SubfoldersTask) :
    Option SubfoldersResult × List Message :=
  CheckSubfoldersAsync sh task.subfoldersResultID task.item task.pidl

/-- The push of `QueueIconTask`: the queues after the call made in the state `s`. -/
def QueueIconTask_pool (s : State) (pools : Pools) (item : HTREEITEM) (internalIndex : Int) :
    Option Pools :=
  match s.m_itemInfoMap.at_ internalIndex with
  | none => none
  | some itemInfo =>
    some { pools with
      m_iconThreadPool := pools.m_iconThreadPool ++
        [{ iconResultID := s.m_iconResultIDCounter, item := item,
           internalIndex := internalIndex, pidl := ILCloneFull itemInfo.pidl }] }

/-- The push of `QueueSubfoldersTask`: the queues after the call made in the state `s`. -/
def QueueSubfoldersTask_pool (s : State) (pools : Pools) (item : HTREEITEM) : Option Pools :=
  match GetItemPidl s item with
  | none => none
  | some pidl =>
    some { pools with
      m_subfoldersThreadPool := pools.m_subfoldersThreadPool ++
        [{ subfoldersResultID := s.m_subfoldersResultIDCounter, item := item, pidl := pidl }] }

/-- The queues after `OnGetDisplayInfo`, which `OnGetDisplayInfo` itself describes
on the state. -/
def OnGetDisplayInfo_pool (env : Env) (s : State) (pools : Pools) (ptvItem : TVITEMEX)
    (mask : Nat) : Option Pools :=
  let image : Option (State × Pools) :=
    if WI_IsFlagSet mask TVIF_IMAGE then
      match QueueIconTask env s ptvItem.hItem ptvItem.lParam,
          QueueIconTask_pool s pools ptvItem.hItem ptvItem.lParam with
      | some s1, some pools1 => some (s1, pools1)
      | _, _ => none
    else some (s, pools)
  match image with
  | none => none
  | some (s1, pools1) =>
    if WI_IsFlagSet mask TVIF_CHILDREN then QueueSubfoldersTask_pool s1 pools1 ptvItem.hItem
    else some pools1

/-- The queues after the control has asked for the display information of `hItem`. -/
def TVN_GETDISPINFO_pool (env : Env) (s : State) (pools : Pools) (hItem : HTREEITEM)
    (mask : Nat) : Option Pools :=
  match TreeView_GetItem s.tree hItem with
  | none => some pools
  | some stored => OnGetDisplayInfo_pool env s pools stored mask

/-- The cases `WM_APP_ICON_RESULT_READY` and `WM_APP_SUBFOLDERS_RESULT_READY` of
`TreeViewProc`. -/
def TreeViewProc (env : Env) (s : State) : Message → State
  | Message.WM_APP_ICON_RESULT_READY wParam => ProcessIconResult env s wParam
  | Message.WM_APP_SUBFOLDERS_RESULT_READY wParam => ProcessSubfoldersResult s wParam

/-- The tree view with its pools and the messages posted to its window that have
not been dispatched yet, oldest first. -/
structure Sys where
  s : State
  pools : Pools
  posted : List Message
deriving DecidableEq, Repr

/-- What can happen next: the control asks for display information, a node is
expanded or collapsed, a pool runs its oldest task, or the message loop
dispatches the oldest posted message. -/
inductive TaskEvent where
  | getDispInfo (hItem : HTREEITEM) (mask : Nat)
  | expanding (hItem : HTREEITEM) (action : Nat)
  | runIconTask
  | runSubfoldersTask
  | dispatch
deriving DecidableEq, Repr

def sysStep (env : Env) (sys : Sys) : TaskEvent → Option Sys
  | TaskEvent.getDispInfo hItem mask =>
    match TVN_GETDISPINFO env sys.s hItem mask,
        TVN_GETDISPINFO_pool env sys.s sys.pools hItem mask with
    | some s1, some pools1 => some { sys with s := s1, pools := pools1 }
    | _, _ => none
  | TaskEvent.expanding hItem action =>
    (OnItemExpanding env sys.s hItem action).map (fun s1 => { sys with s := s1 })
  | TaskEvent.runIconTask =>
    match sys.pools.m_iconThreadPool with
    | [] => some sys
    | task :: rest =>
      some { sys with pools := { sys.pools with m_iconThreadPool := rest },
                      posted := sys.posted ++ (task.run env.shell).2 }
  | TaskEvent.runSubfoldersTask =>
    match sys.pools.m_subfoldersThreadPool with
    | [] => some sys
    | task :: rest =>
      some { sys with pools := { sys.pools with m_subfoldersThreadPool := rest },
                      posted := sys.posted ++ (task.run env.shell).2 }
  | TaskEvent.dispatch =>
    match sys.posted with
    | [] => some sys
    | msg :: rest => some { sys with s := TreeViewProc env sys.s msg, posted := rest }

def runSys (env : Env) (sys : Sys) : List TaskEvent → Option Sys
  | [] => some sys
  | e :: rest => (sysStep env sys e).bind (fun sys1 => runSys env sys1 rest)

/-! ## Calls of the expansion, and the search for an item -/

/-- The calls `ExpandDirectory` makes to the shell folder of the parent and to
the directory monitor. -/
inductive ExpandCall where
  | BindToIdl (pidl : PIDL)
  | EnumObjects (pidl : PIDL) (enumFlags : Nat)
  | StartDirectoryMonitoringForItem (itemInfo : ItemInfo)
deriving DecidableEq, Repr

/-- The calls of `ExpandDirectory` in the order it makes them; the state it leaves
is the one `ExpandDirectory` gives. -/
def ExpandDirectory_calls (env : Env) (s : State) (hParent : HTREEITEM) :
    Option (List ExpandCall) :=
  match GetItemPidl s hParent with
  | none => none
  | some pidlDirectory =>
    if FAILED (env.shell.BindToIdl pidlDirectory) then
      some [ExpandCall.BindToIdl pidlDirectory]
    else
      match env.shell.EnumObjects pidlDirectory (enumFlagsOf s) with
      | (_, none) =>
        some [ExpandCall.BindToIdl pidlDirectory,
              ExpandCall.EnumObjects pidlDirectory (enumFlagsOf s)]
      | (hr, some pEnumIDList) =>
        if FAILED hr then
          some [ExpandCall.BindToIdl pidlDirectory,
                ExpandCall.EnumObjects pidlDirectory (enumFlagsOf s)]
        else
          match addEnumerated env s hParent pidlDirectory hr pEnumIDList with
          | none => none
          | some r =>
            (GetItemByHandle r.2 hParent).map (fun itemInfo =>
              [ExpandCall.BindToIdl pidlDirectory,
               ExpandCall.EnumObjects pidlDirectory (enumFlagsOf s),
               ExpandCall.StartDirectoryMonitoringForItem itemInfo])

/-- The children of the node `h` in their order, each with its subtree. -/
def siblingsOf (t : TreeCtrl) (h : HTREEITEM) : List (TVITEMEX × TreeCtrl) :=
  match t.findNode h with
  | none => []
  | some r => r.childOf.toSiblings

/-- The children of the node `h` in their order. -/
def childrenOf (t : TreeCtrl) (h : HTREEITEM) : List TVITEMEX :=
  (siblingsOf t h).map (fun p => p.1)

/-- The enumerated child `pidlItem` of the folder `pidlDirectory` passes the two
tests of the enumeration loop of `ExpandDirectory`: it is pinned to the tree of
the shell when that is checked, and its attributes are read without
`SFGAO_SYSTEM` when system files are hidden. -/
def survivesEnumeration (env : Env) (pidlDirectory : PIDL) (pidlItem : Nat) : Bool :=
  (!env.config.checkPinnedToNamespaceTreeProperty
      || env.shell.IsPinnedToNameSpaceTree (ILCombine pidlDirectory pidlItem))
  && (!env.config.hideSystemFiles
      || (!FAILED (env.shell.GetAttributesOf (ILCombine pidlDirectory pidlItem) SFGAO_SYSTEM).1
          && !WI_IsFlagSet
                (env.shell.GetAttributesOf (ILCombine pidlDirectory pidlItem) SFGAO_SYSTEM).2
                SFGAO_SYSTEM))

/-- The identifiers of the enumerated children that survive: those that pass the
enumeration loop and have a display name. -/
def survivingItems (env : Env) (pidlDirectory : PIDL) (pEnumIDList : List Nat) : List PIDL :=
  ((pEnumIDList.filter (survivesEnumeration env pidlDirectory)).map (ILCombine pidlDirectory)).filter
    (fun pidl => (env.shell.GetDisplayName pidl SHGDN.NORMAL).isSome)

/-- The registry records expected for the items `pidls`, numbered from `counter`. -/
def expectedRecords (counter : Int) : List PIDL → List (Int × ItemInfo)
  | [] => []
  | pidl :: rest => (counter, { pidl := pidl }) :: expectedRecords (counter + 1) rest

/-- The nodes expected for the items `pidls`, numbered from `counter`: client
data, text, image, selected image, children flag and state of each. -/
def expectedNodes (env : Env) (counter : Int) :
    List PIDL → List (Int × String × Int × Int × Int × Nat)
  | [] => []
  | pidl :: rest =>
    (counter, (GetDisplayName env.shell pidl SHGDN.NORMAL "").2, I_IMAGECALLBACK,
      I_IMAGECALLBACK, I_CHILDRENCALLBACK, 0) :: expectedNodes env (counter + 1) rest

/-- The two comparisons of item identifiers `LocateItemInternal` uses;
the last argument of `ILIsParent` is `fImmediate`. -/
structure PidlApi where
  ArePidlsEquivalent : PIDL → PIDL → Bool
  ILIsParent : PIDL → PIDL → Bool → Bool

/-- The `while` loop of `LocateItemInternal`, entered with the variable `hItem`;
`item` is read from the control at `hItem` at the head of each turn, as the code
reads it before the loop and at the end of each turn.  The `TVM_EXPAND` it sends
reaches `OnItemExpanding`.  The outer `none` means that a lookup in the registry
throws or that the loop has not ended within the given number of turns. -/
def locateLoop (env : Env) (api : PidlApi) (pidlDirectory : PIDL)
    (bOnlyLocateExistingItem : Bool) :
    Nat → State → Option HTREEITEM → Option (Option HTREEITEM × State)
  | _, s, none => some (none, s)
  | 0, _, some _ => none
  | fuel + 1, s, some hItem =>
    match TreeView_GetItem s.tree hItem with
    | none => none
    | some item =>
      match s.m_itemInfoMap.at_ item.lParam with
      | none => none
      | some itemInfo =>
        if api.ArePidlsEquivalent itemInfo.pidl pidlDirectory then some (some hItem, s)
        else if api.ILIsParent itemInfo.pidl pidlDirectory false then
          if TreeView_GetChild s.tree hItem = none then
            if bOnlyLocateExistingItem then some (none, s)
            else
              match OnItemExpanding env s hItem TVE_EXPAND with
              | none => none
              | some s1 =>
                locateLoop env api pidlDirectory bOnlyLocateExistingItem fuel s1
                  (TreeView_GetChild s1.tree hItem)
          else
            locateLoop env api pidlDirectory bOnlyLocateExistingItem fuel s
              (TreeView_GetChild s.tree hItem)
        else
          locateLoop env api pidlDirectory bOnlyLocateExistingItem fuel s
            (TreeView_GetNextSibling s.tree hItem)

/-- The function `LocateItemInternal`, its loop bounded by `fuel` turns: the
handle it returns and the state it leaves. -/
def LocateItemInternal (env : Env) (api : PidlApi) (s : State) (pidlDirectory : PIDL)
    (bOnlyLocateExistingItem : Bool) (fuel : Nat) : Option (Option HTREEITEM × State) :=
  locateLoop env api pidlDirectory bOnlyLocateExistingItem fuel s (TreeView_GetRoot s.tree)

def LocateItem (env : Env) (api : PidlApi) (s : State) (pidlDirectory : PIDL) (fuel : Nat) :
    Option (Option HTREEITEM × State) :=
  LocateItemInternal env api s pidlDirectory false fuel

def LocateExistingItem (env : Env) (api : PidlApi) (s : State) (pidlDirectory : PIDL)
    (fuel : Nat) : Option (Option HTREEITEM × State) :=
  LocateItemInternal env api s pidlDirectory true fuel

/-! ## Concrete inputs for the background work -/

/-- The tree view over `exSiblingFolders` right after construction, its pools
idle and no message posted. -/
def exIdleSys : Sys :=
  { s := exSiblingState,
    pools := { m_iconThreadPool := [], m_subfoldersThreadPool := [] },
    posted := [] }

/-- The control has asked for the image and the child count of the nodes `Alpha`
(handle 3) and `zeta.txt` (handle 2); no task has been started yet. -/
def exQueuedSys : Option Sys :=
  runSys (exEnv exSiblingFolders) exIdleSys
    [TaskEvent.getDispInfo 3 (TVIF_IMAGE ||| TVIF_CHILDREN),
     TaskEvent.getDispInfo 2 (TVIF_IMAGE ||| TVIF_CHILDREN)]

/-- The environment of `exSiblingFolders` in which the shell reports, for every
item, the icon 3 with the overlay 1 in the upper eight bits of the index
(`SHGFI_OVERLAYINDEX`): the index 0x01000003. -/
def exOverlayEnv : Env :=
  { exEnv exSiblingFolders with
    shell := { exShell exSiblingFolders with SHGetFileInfo := fun _ => some 0x01000003 } }

/-- The run in which the icon of `Alpha` (handle 3, client data 2) is resolved:
the control asks for its image, the task finds the index 0x01000003, and the
result is processed. -/
def exOverlayRun : Option State :=
  (TVN_GETDISPINFO exOverlayEnv exSiblingState 3 TVIF_IMAGE).map fun s1 =>
  ProcessIconResult exOverlayEnv s1 0

/-- The comparisons of item identifiers in the examples: two identifiers are
equivalent when they are equal, and one is a parent of another when the other
starts with it. -/
def exPidlApi : PidlApi :=
  { ArePidlsEquivalent := fun pidl1 pidl2 => pidl1 == pidl2,
    ILIsParent := fun pidl1 pidl2 _ => pidl2.take pidl1.length == pidl1 }

/-! ## Notions for the result stores along a run -/

/-- The two result stores with their counters. -/
def storesOf (s : State) :
    StdMap (Option IconResult) × Int × StdMap (Option SubfoldersResult) × Int :=
  (s.m_iconResults, s.m_iconResultIDCounter, s.m_subfoldersResults,
    s.m_subfoldersResultIDCounter)

/-- The id of an icon message, if it is one. -/
def Message.iconId : Message → Option Int
  | Message.WM_APP_ICON_RESULT_READY wParam => some wParam
  | Message.WM_APP_SUBFOLDERS_RESULT_READY _ => none

/-- The id of a subfolder message, if it is one. -/
def Message.subfoldersId : Message → Option Int
  | Message.WM_APP_ICON_RESULT_READY _ => none
  | Message.WM_APP_SUBFOLDERS_RESULT_READY wParam => some wParam

/-- How a result store, its counter, the tasks waiting in its pool (each with its
id and the value it yields) and the ids of the posted messages fit together:
every key is below the counter, every waiting task has its entry holding what
the task yields, every posted id has an entry with a present result, and no id
occurs twice among the waiting tasks and the posted messages. -/
def ResultsInv {α : Type} (store : StdMap (Option α)) (counter : Int)
    (pool : List (Int × Option α)) (posted : List Int) : Prop :=
  (∀ k ∈ store.keys, k < counter)
  ∧ (∀ p ∈ pool, store.find p.1 = some p.2)
  ∧ (∀ id ∈ posted, ∃ r, store.find id = some (some r))
  ∧ (pool.map Prod.fst ++ posted).Nodup
  ∧ -2147483648 ≤ counter

/-- The invariant `ResultsInv` for both kinds of background work of a system. -/
def SysInv (env : Env) (sys : Sys) : Prop :=
  ResultsInv sys.s.m_iconResults sys.s.m_iconResultIDCounter
      (sys.pools.m_iconThreadPool.map (fun task => (task.iconResultID, (task.run env.shell).1)))
      (sys.posted.filterMap Message.iconId)
  ∧ ResultsInv sys.s.m_subfoldersResults sys.s.m_subfoldersResultIDCounter
      (sys.pools.m_subfoldersThreadPool.map
        (fun task => (task.subfoldersResultID, (task.run env.shell).1)))
      (sys.posted.filterMap Message.subfoldersId)

/-- One step of a result store with its counter, the tasks waiting in its pool and
the posted ids: nothing changes, or a task is queued under the id of the counter
with its entry, or the oldest waiting task runs and posts its id if it yields a
result, or the oldest posted id is dispatched and its entry erased. -/
def ResultsStep {α : Type} (store : StdMap (Option α)) (counter : Int)
    (pool : List (Int × Option α)) (posted : List Int)
    (store2 : StdMap (Option α)) (counter2 : Int)
    (pool2 : List (Int × Option α)) (posted2 : List Int) : Prop :=
  (store2 = store ∧ counter2 = counter ∧ pool2 = pool ∧ posted2 = posted)
  ∨ (∃ y, store2 = store.insert counter y ∧ counter2 = toInt32 (counter + 1)
      ∧ pool2 = pool ++ [(counter, y)] ∧ posted2 = posted)
  ∨ (∃ p, pool = p :: pool2 ∧ posted2 = posted ++ (if p.2.isSome then [p.1] else [])
      ∧ store2 = store ∧ counter2 = counter)
  ∨ (∃ i, posted = i :: posted2 ∧ store2 = store.erase i ∧ counter2 = counter ∧ pool2 = pool)

/-- The environment of `exSiblingFolders` in which the icon query and the binding
to the parent fail for the folder `Alpha` (identifier `[2]`) and succeed for the
other items. -/
def exFailEnv : Env :=
  { exEnv exSiblingFolders with
    shell := { exShell exSiblingFolders with
      SHGetFileInfo := fun pidl => if pidl = [2] then none else some 3,
      SHBindToParent := fun pidl => if pidl = [2] then E_FAIL else S_OK } }

/-- The system after the control has asked for the image and the child count of
`Alpha` (handle 3) and both tasks have run and failed. -/
def exFailedSys : Sys :=
  (runSys exFailEnv exIdleSys
    [TaskEvent.getDispInfo 3 (TVIF_IMAGE ||| TVIF_CHILDREN), TaskEvent.runIconTask,
     TaskEvent.runSubfoldersTask]).getD exIdleSys

/-- Further events: a request for `zeta.txt` (handle 2), the runs of its tasks,
the collapse of the root and three turns of the message loop. -/
def exLaterEvents : List TaskEvent :=
  [TaskEvent.getDispInfo 2 (TVIF_IMAGE ||| TVIF_CHILDREN), TaskEvent.runIconTask,
   TaskEvent.runSubfoldersTask, TaskEvent.expanding 1 TVE_COLLAPSE, TaskEvent.dispatch,
   TaskEvent.dispatch, TaskEvent.dispatch]

/-- The system `exLaterEvents` lead to from `exFailedSys`. -/
def exLaterSys : Sys := (runSys exFailEnv exFailedSys exLaterEvents).getD exIdleSys

/-- A desktop with five enumerated children: `zeta.txt` (a system file), `Alpha`,
the drive `C:`, `Network` (not pinned to the namespace tree) and a child 7
without a display name. -/
def exFilterFolders : List ExFolder :=
  [ { pidl := [], parsingName := "Desktop", inFolderName := "Desktop", path := none,
      children := [1, 2, 3, 4, 7] },
    { pidl := [1], parsingName := "C:\\Users\\zeta.txt", inFolderName := "zeta.txt",
      path := some "C:\\Users\\zeta.txt", children := [] },
    { pidl := [2], parsingName := "C:\\Users\\Alpha", inFolderName := "Alpha",
      path := some "C:\\Users\\Alpha", children := [] },
    { pidl := [3], parsingName := "C:\\", inFolderName := "Local Disk (C:)",
      path := some "C:\\", children := [] },
    { pidl := [4], parsingName := "::Network", inFolderName := "Network", path := none,
      children := [] } ]

/-- The environment over `exFilterFolders` with both filters of the expansion
switched on: `zeta.txt` carries `SFGAO_SYSTEM` and `Network` is not pinned. -/
def exFilterEnv : Env :=
  { shell := { exShell exFilterFolders with
      IsPinnedToNameSpaceTree := fun pidl => pidl != [4],
      GetAttributesOf := fun pidl _ => if pidl = [1] then (S_OK, SFGAO_SYSTEM) else (S_OK, 0) },
    config := { useNaturalSortOrder := true, hideSystemFiles := true,
                checkPinnedToNamespaceTreeProperty := true },
    newItem := exNewItem }

/-- The tree view with the root node only, before its expansion. -/
def exRootState : State :=
  { exSiblingState with
    tree := TreeCtrl.node
      { hItem := 1, pszText := "Desktop", iImage := -1, iSelectedImage := -1, cChildren := 1,
        lParam := 0, state := 0 } TreeCtrl.nil TreeCtrl.nil,
    m_itemInfoMap := [(0, { pidl := [] })],
    m_itemIDCounter := 1 }

/-! # Theorems -/

/-! ## Lemmas on the map and the control -/

theorem StdMap.find_erase_self {V : Type} (m : StdMap V) (k : Int) :
    StdMap.find (StdMap.erase m k) k = none := by
  induction m with
  | nil => rfl
  | cons e m ih =>
    unfold StdMap.find StdMap.erase at *
    by_cases h : e.1 = k
    · simp [List.filter_cons, h, ih]
    · have h2 : (k == e.1) = false := by simpa using fun h3 => h h3.symm
      rw [List.filter_cons]
      simp only [bne_iff_ne, ne_eq, h, not_false_eq_true, ↓reduceIte]
      rw [List.lookup, h2]
      exact ih

theorem StdMap.find_eq_none_of_not_mem_keys {V : Type} (m : StdMap V) (k : Int)
    (h : k ∉ StdMap.keys m) : StdMap.find m k = none := by
  induction m with
  | nil => rfl
  | cons e m ih =>
    unfold StdMap.find StdMap.keys at *
    simp only [List.map_cons, List.mem_cons, not_or] at h
    have h2 : (k == e.1) = false := by simpa using h.1
    rw [List.lookup, h2]
    exact ih h.2

theorem ProcessIconResult_of_find_none (env : Env) (s : State) (id : Int)
    (h : s.m_iconResults.find id = none) : ProcessIconResult env s id = s := by
  simp [ProcessIconResult, h]

theorem ProcessIconResult_find_none (env : Env) (s : State) (id : Int) :
    (ProcessIconResult env s id).m_iconResults.find id = none := by
  unfold ProcessIconResult
  cases h : s.m_iconResults.find id with
  | none => simpa using h
  | some result =>
    cases result with
    | none => simp [StdMap.find_erase_self]
    | some result =>
      simp only []
      cases h2 : s.m_itemInfoMap.find result.internalIndex with
      | none => simp [StdMap.find_erase_self]
      | some itemInfo => simp [StdMap.find_erase_self]

theorem ProcessSubfoldersResult_of_find_none (s : State) (id : Int)
    (h : s.m_subfoldersResults.find id = none) : ProcessSubfoldersResult s id = s := by
  simp [ProcessSubfoldersResult, h]

theorem ProcessSubfoldersResult_find_none (s : State) (id : Int) :
    (ProcessSubfoldersResult s id).m_subfoldersResults.find id = none := by
  unfold ProcessSubfoldersResult
  cases h : s.m_subfoldersResults.find id with
  | none => simpa using h
  | some result =>
    cases result with
    | none => simp [StdMap.find_erase_self]
    | some result =>
      simp only []
      cases h2 : result.hasSubfolder with
      | true => simp [StdMap.find_erase_self]
      | false => simp [StdMap.find_erase_self]

/-! ## Registry and tree -/

/-- C1 (the code breaks it): in the run `exLeakRun` every step is one the tree view
performs, yet at its end the registry holds the keys 0 and 2 while the only node
of the tree is the root with client data 0; key 2 is the client data of no node,
and the size of the registry (2) is not the number of nodes (1). -/
theorem registry_outlives_nodes_after_collapse :
    exLeakRun.map (fun s =>
        (s.m_itemInfoMap.keys, s.tree.items.map (fun it => it.lParam),
          s.m_itemInfoMap.size, s.tree.items.length))
      = some ([0, 2], [0], 2, 1) := by
  decide

/-! ## Consumption of background results -/

/-- C2: processing the same icon result id twice in a row leaves the whole state
(tree, item registry, icon cache, result store) as one call does, whatever the
shell answers the second time; the same holds for a subfolder result id; and a
message for an id that is not in the store changes nothing. -/
theorem ProcessResult_idempotent (env env2 : Env) (s : State) (id : Int) :
    ProcessIconResult env2 (ProcessIconResult env s id) id = ProcessIconResult env s id
    ∧ ProcessSubfoldersResult (ProcessSubfoldersResult s id) id = ProcessSubfoldersResult s id
    ∧ (s.m_iconResults.find id = none → ProcessIconResult env s id = s)
    ∧ (s.m_subfoldersResults.find id = none → ProcessSubfoldersResult s id = s) :=
  ⟨ProcessIconResult_of_find_none env2 _ id (ProcessIconResult_find_none env s id),
   ProcessSubfoldersResult_of_find_none _ id (ProcessSubfoldersResult_find_none s id),
   ProcessIconResult_of_find_none env s id,
   ProcessSubfoldersResult_of_find_none s id⟩

theorem ProcessResult_idempotent_witness :
    (exPendingState.m_iconResults.find 5 = none
      ∧ ProcessIconResult (exEnv exFolders) exPendingState 5 = exPendingState)
    ∧ (exPendingState.m_subfoldersResults.find 5 = none
      ∧ ProcessSubfoldersResult exPendingState 5 = exPendingState)
    ∧ ProcessIconResult (exEnv exFolders) exPendingState 0 ≠ exPendingState
    ∧ ProcessIconResult (exEnv exFoldersGrown)
        (ProcessIconResult (exEnv exFolders) exPendingState 0) 0
      = ProcessIconResult (exEnv exFolders) exPendingState 0 :=
  ⟨⟨by decide, (ProcessResult_idempotent (exEnv exFolders) (exEnv exFolders) exPendingState 5).2.2.1
      (by decide)⟩,
   ⟨by decide, (ProcessResult_idempotent (exEnv exFolders) (exEnv exFolders) exPendingState 5).2.2.2
      (by decide)⟩,
   by decide,
   (ProcessResult_idempotent (exEnv exFolders) (exEnv exFoldersGrown) exPendingState 0).1⟩

/-- C3: an icon result whose item handle is no longer a key of the registry is
dropped: the call only removes the entry from the result store; tree, registry
and icon cache stay as they are, and the id is gone from the store. -/
theorem ProcessIconResult_stale_dropped (env : Env) (s : State) (id : Int) (result : IconResult)
    (hres : s.m_iconResults.find id = some (some result))
    (hgone : result.internalIndex ∉ s.m_itemInfoMap.keys) :
    ProcessIconResult env s id = { s with m_iconResults := s.m_iconResults.erase id }
    ∧ (ProcessIconResult env s id).m_iconResults.find id = none := by
  refine ⟨?_, ProcessIconResult_find_none env s id⟩
  have h := StdMap.find_eq_none_of_not_mem_keys _ _ hgone
  simp [ProcessIconResult, hres, h]

theorem ProcessIconResult_stale_dropped_witness :
    exPendingState.m_iconResults.find 1 = some (some { item := 2, internalIndex := 1, iconIndex := 9 })
    ∧ (1 : Int) ∉ exPendingState.m_itemInfoMap.keys
    ∧ ProcessIconResult (exEnv exFolders) exPendingState 1
      = { exPendingState with m_iconResults := exPendingState.m_iconResults.erase 1 } :=
  ⟨by decide, by decide,
   (ProcessIconResult_stale_dropped (exEnv exFolders) exPendingState 1
      { item := 2, internalIndex := 1, iconIndex := 9 } (by decide) (by decide)).1⟩

/-- C4 (the code breaks it): at the end of the run `exStaleRun` the store holds the
subfolder result queued for the node of `Work`, whose record (key 1) has left
the registry; the handle 2 it carries now belongs to the node of `Data` (client
data 2), and `ProcessSubfoldersResult` sets the children flag of that node from
the callback value to 0.  No registry lookup guards the call: the tree it leaves
is the same for every content of the registry. -/
theorem stale_subfolders_result_changes_tree :
    exStaleRun.map (fun s =>
        (s.m_subfoldersResults.find 0, s.m_itemInfoMap.keys,
          (TreeView_GetItem s.tree 2).map (fun it => (it.lParam, it.cChildren)),
          (TreeView_GetItem (ProcessSubfoldersResult s 0).tree 2).map
            (fun it => (it.lParam, it.cChildren))))
      = some (some (some { item := 2, hasSubfolder := false }), [0, 2],
          some (2, I_CHILDRENCALLBACK), some (2, 0))
    ∧ ∀ (s : State) (m : StdMap ItemInfo) (id : Int),
        (ProcessSubfoldersResult { s with m_itemInfoMap := m } id).tree
          = (ProcessSubfoldersResult s id).tree := by
  refine ⟨by decide, ?_⟩
  intro s m id
  unfold ProcessSubfoldersResult
  cases h : s.m_subfoldersResults.find id with
  | none => simp [h]
  | some result =>
    cases result with
    | none => simp [h]
    | some result =>
      cases h2 : result.hasSubfolder <;> simp [h, h2]

/-! ## Ordering of siblings -/

theorem CompareItems_of_registered (env : Env) (s : State) (a b : Int) (ia ib : ItemInfo)
    (ha : s.m_itemInfoMap.at_ a = some ia) (hb : s.m_itemInfoMap.at_ b = some ib) :
    CompareItems env s a b
      = some (threeTierOrder env.shell env.config.useNaturalSortOrder
          (parsingNameRead env.shell ia.pidl) (parsingNameRead env.shell ib.pidl)
          (env.shell.SHGetPathFromIDList ia.pidl).isSome
          (env.shell.SHGetPathFromIDList ib.pidl).isSome
          (inFolderNameRead env.shell ia.pidl) (inFolderNameRead env.shell ib.pidl)) := by
  unfold CompareItems threeTierOrder inFolderNameRead parsingNameRead
  simp only [ha, hb]
  cases env.shell.PathIsRoot (GetDisplayName env.shell ia.pidl SHGDN.FORPARSING "").2 <;>
  cases env.shell.PathIsRoot (GetDisplayName env.shell ib.pidl SHGDN.FORPARSING "").2 <;>
  cases (env.shell.SHGetPathFromIDList ia.pidl).isSome <;>
  cases (env.shell.SHGetPathFromIDList ib.pidl).isSome <;>
  cases env.config.useNaturalSortOrder <;> simp

/-- C5: for registered items `CompareItems` is the three-tier ordering: root
before non-root, two roots by `lstrcmpi` of the parsing names, then an item
without filesystem path before one with a path, then the in-folder display
names by `StrCmpLogicalW` or `StrCmpIW` as `useNaturalSortOrder` says.  The
names are the ones the function reads (`parsingNameRead`, `inFolderNameRead`). -/
theorem CompareItems_eq_threeTierOrder (env : Env) (s : State) (a b : Int) (ia ib : ItemInfo)
    (ha : s.m_itemInfoMap.at_ a = some ia) (hb : s.m_itemInfoMap.at_ b = some ib) :
    CompareItems env s a b
      = some (threeTierOrder env.shell env.config.useNaturalSortOrder
          (parsingNameRead env.shell ia.pidl) (parsingNameRead env.shell ib.pidl)
          (env.shell.SHGetPathFromIDList ia.pidl).isSome
          (env.shell.SHGetPathFromIDList ib.pidl).isSome
          (inFolderNameRead env.shell ia.pidl) (inFolderNameRead env.shell ib.pidl)) :=
  CompareItems_of_registered env s a b ia ib ha hb

theorem CompareItems_eq_threeTierOrder_witness :
    construct (exEnv exSiblingFolders) [] = some exSiblingState
    ∧ exSiblingState.m_itemInfoMap.at_ 2 = some { pidl := [2] }
    ∧ exSiblingState.m_itemInfoMap.at_ 1 = some { pidl := [1] }
    ∧ inFolderNameRead (exShell exSiblingFolders) [2] = "Alpha"
    ∧ inFolderNameRead (exShell exSiblingFolders) [1] = "zeta.txt"
    ∧ CompareItems (exEnv exSiblingFolders) exSiblingState 2 1 = some (-1)
    ∧ exSiblingState.tree.items.map (fun it => it.pszText)
        = ["Desktop", "Local Disk (C:)", "Network", "Alpha", "zeta.txt"] :=
  ⟨by decide, by decide, by decide, by decide, by decide,
   (CompareItems_eq_threeTierOrder (exEnv exSiblingFolders) exSiblingState 2 1
      { pidl := [2] } { pidl := [1] } (by decide) (by decide)).trans (by decide),
   by decide⟩

theorem perm_pair {α : Type} {x y p q : α} (h : List.Perm [x, y] [p, q]) :
    (x = p ∧ y = q) ∨ (x = q ∧ y = p) := by
  have hx : x ∈ [p, q] := h.subset (List.mem_cons_self _ _)
  simp only [List.mem_cons, List.mem_singleton, List.not_mem_nil, or_false] at hx
  rcases hx with rfl | rfl
  · left
    have h2 := List.Perm.cons_inv h
    exact ⟨rfl, by simpa using h2⟩
  · right
    have h2 : List.Perm [x, y] [x, p] := h.trans (List.Perm.swap _ _ _)
    have h3 := List.Perm.cons_inv h2
    exact ⟨rfl, by simpa using h3⟩

theorem perm_triple {α : Type} {l : List α} {p q r : α} (h : List.Perm l [p, q, r]) :
    l = [p, q, r] ∨ l = [p, r, q] ∨ l = [q, p, r] ∨ l = [q, r, p] ∨ l = [r, p, q]
      ∨ l = [r, q, p] := by
  have hlen := h.length_eq
  match l, hlen with
  | [x, y, z], _ =>
    have hx : x ∈ [p, q, r] := h.subset (List.mem_cons_self _ _)
    simp only [List.mem_cons, List.mem_singleton, List.not_mem_nil, or_false] at hx
    rcases hx with rfl | rfl | rfl
    · rcases perm_pair (List.Perm.cons_inv h) with ⟨rfl, rfl⟩ | ⟨rfl, rfl⟩ <;> simp
    · have h2 : List.Perm [x, y, z] [x, p, r] := h.trans (List.Perm.swap _ _ _)
      rcases perm_pair (List.Perm.cons_inv h2) with ⟨rfl, rfl⟩ | ⟨rfl, rfl⟩ <;> simp
    · have h2 : List.Perm [p, q, x] [x, p, q] :=
        @List.perm_append_comm _ [p, q] [x]
      rcases perm_pair (List.Perm.cons_inv (h.trans h2)) with ⟨rfl, rfl⟩ | ⟨rfl, rfl⟩ <;> simp

/-- C6: a filesystem root `a`, a virtual non-root `b` and a non-root `c` with a
filesystem path compare as `a < b < c` in every call and its reverse, whatever
the names and the sort flag; sorting any arrangement of three such nodes gives
the order `a`, `b`, `c`. -/
theorem CompareItems_root_virtual_real (env : Env) (s : State) (a b c : Int)
    (ia ib ic : ItemInfo)
    (ha : s.m_itemInfoMap.at_ a = some ia) (hb : s.m_itemInfoMap.at_ b = some ib)
    (hc : s.m_itemInfoMap.at_ c = some ic)
    (hrootA : env.shell.PathIsRoot (parsingNameRead env.shell ia.pidl) = true)
    (hrootB : env.shell.PathIsRoot (parsingNameRead env.shell ib.pidl) = false)
    (hpathB : env.shell.SHGetPathFromIDList ib.pidl = none)
    (hrootC : env.shell.PathIsRoot (parsingNameRead env.shell ic.pidl) = false)
    (hpathC : (env.shell.SHGetPathFromIDList ic.pidl).isSome = true) :
    CompareItems env s a b = some (-1) ∧ CompareItems env s b c = some (-1)
    ∧ CompareItems env s a c = some (-1)
    ∧ CompareItems env s b a = some 1 ∧ CompareItems env s c b = some 1
    ∧ CompareItems env s c a = some 1
    ∧ ∀ (na nb nc : TVITEMEX × TreeCtrl) (l : List (TVITEMEX × TreeCtrl)),
        na.1.lParam = a → nb.1.lParam = b → nc.1.lParam = c → List.Perm l [na, nb, nc] →
        sortSiblings (CompareItems env s) l = some [na, nb, nc] := by
  have hab : CompareItems env s a b = some (-1) := by
    rw [CompareItems_of_registered env s a b ia ib ha hb]; simp [threeTierOrder, hrootA, hrootB]
  have hbc : CompareItems env s b c = some (-1) := by
    rw [CompareItems_of_registered env s b c ib ic hb hc]
    simp [threeTierOrder, hrootB, hrootC, hpathB, hpathC]
  have hac : CompareItems env s a c = some (-1) := by
    rw [CompareItems_of_registered env s a c ia ic ha hc]; simp [threeTierOrder, hrootA, hrootC]
  have hba : CompareItems env s b a = some 1 := by
    rw [CompareItems_of_registered env s b a ib ia hb ha]; simp [threeTierOrder, hrootA, hrootB]
  have hcb : CompareItems env s c b = some 1 := by
    rw [CompareItems_of_registered env s c b ic ib hc hb]
    simp [threeTierOrder, hrootB, hrootC, hpathB, hpathC]
  have hca : CompareItems env s c a = some 1 := by
    rw [CompareItems_of_registered env s c a ic ia hc ha]; simp [threeTierOrder, hrootA, hrootC]
  refine ⟨hab, hbc, hac, hba, hcb, hca, ?_⟩
  intro na nb nc l hna hnb hnc hperm
  subst hna hnb hnc
  rcases perm_triple hperm with h | h | h | h | h | h <;> subst h <;>
    simp [sortSiblings, insertSorted, hab, hbc, hac, hba, hcb, hca]

theorem CompareItems_root_virtual_real_witness :
    exSiblingState.m_itemInfoMap.at_ 3 = some { pidl := [3] }
    ∧ exSiblingState.m_itemInfoMap.at_ 4 = some { pidl := [4] }
    ∧ exSiblingState.m_itemInfoMap.at_ 2 = some { pidl := [2] }
    ∧ (exShell exSiblingFolders).PathIsRoot (parsingNameRead (exShell exSiblingFolders) [3]) = true
    ∧ (exShell exSiblingFolders).PathIsRoot (parsingNameRead (exShell exSiblingFolders) [4]) = false
    ∧ (exShell exSiblingFolders).SHGetPathFromIDList [4] = none
    ∧ (exShell exSiblingFolders).PathIsRoot (parsingNameRead (exShell exSiblingFolders) [2]) = false
    ∧ ((exShell exSiblingFolders).SHGetPathFromIDList [2]).isSome = true
    ∧ CompareItems (exEnv exSiblingFolders) exSiblingState 3 4 = some (-1)
    ∧ CompareItems (exEnv exSiblingFolders) exSiblingState 4 2 = some (-1)
    ∧ CompareItems (exEnv exSiblingFolders) exSiblingState 3 2 = some (-1) :=
  have h := CompareItems_root_virtual_real (exEnv exSiblingFolders) exSiblingState 3 4 2
    { pidl := [3] } { pidl := [4] } { pidl := [2] } (by decide) (by decide) (by decide)
    (by decide) (by decide) (by decide) (by decide) (by decide)
  ⟨by decide, by decide, by decide, by decide, by decide, by decide, by decide, by decide,
   h.1, h.2.1, h.2.2.1⟩

theorem compareChars_sign (x y : List Char) :
    Int.sign (compareChars x y) = - Int.sign (compareChars y x) := by
  induction x generalizing y with
  | nil => cases y <;> simp [compareChars]
  | cons a x ih =>
    cases y with
    | nil => simp [compareChars]
    | cons b y =>
      simp only [compareChars]
      by_cases h1 : a.toLower.toNat < b.toLower.toNat
      · have h2 : ¬ b.toLower.toNat < a.toLower.toNat := by omega
        simp [h1, h2]
      · by_cases h2 : b.toLower.toNat < a.toLower.toNat
        · simp [h1, h2]
        · simp [h1, h2, ih]

theorem compareChars_le_one (x y : List Char) :
    compareChars x y = -1 ∨ compareChars x y = 0 ∨ compareChars x y = 1 := by
  induction x generalizing y with
  | nil => cases y <;> simp [compareChars]
  | cons a x ih =>
    cases y with
    | nil => simp [compareChars]
    | cons b y =>
      simp only [compareChars]
      split_ifs <;> simp [ih]

theorem compareChars_trans (x y z : List Char) (h1 : compareChars x y ≤ 0)
    (h2 : compareChars y z ≤ 0) : compareChars x z ≤ 0 := by
  induction x generalizing y z with
  | nil => cases z <;> simp [compareChars]
  | cons a x ih =>
    cases y with
    | nil => simp [compareChars] at h1
    | cons b y =>
      cases z with
      | nil => simp [compareChars] at h2
      | cons c z =>
        simp only [compareChars] at h1 h2 ⊢
        by_cases hab : a.toLower.toNat < b.toLower.toNat
        · by_cases hbc : b.toLower.toNat < c.toLower.toNat
          · have hac : a.toLower.toNat < c.toLower.toNat := by omega
            simp [hac]
          · by_cases hcb : c.toLower.toNat < b.toLower.toNat
            · simp [hbc, hcb] at h2
            · have hac : a.toLower.toNat < c.toLower.toNat := by omega
              simp [hac]
        · by_cases hba : b.toLower.toNat < a.toLower.toNat
          · simp [hab, hba] at h1
          · simp only [hab, hba, if_false] at h1
            by_cases hbc : b.toLower.toNat < c.toLower.toNat
            · have hac : a.toLower.toNat < c.toLower.toNat := by omega
              simp [hac]
            · by_cases hcb : c.toLower.toNat < b.toLower.toNat
              · simp [hbc, hcb] at h2
              · simp only [hbc, hcb, if_false] at h2
                have hac : ¬ a.toLower.toNat < c.toLower.toNat := by omega
                have hca : ¬ c.toLower.toNat < a.toLower.toNat := by omega
                simp only [hac, hca, if_false]
                exact ih y z h1 h2

theorem exCompare_consistent : ConsistentComparison exCompare :=
  ⟨fun x y => compareChars_sign x.toList y.toList,
   fun x y z => compareChars_trans x.toList y.toList z.toList⟩

/-- C7: when `lstrcmpi`, `StrCmpLogicalW` and `StrCmpIW` each flip their sign under
a swap of the arguments and are transitive, `CompareItems` on registered items
returns a value for every pair, the sign of `CompareItems(a,b)` is the opposite
of the sign of `CompareItems(b,a)`, and `CompareItems(a,b) ≤ 0` with
`CompareItems(b,c) ≤ 0` gives `CompareItems(a,c) ≤ 0`. -/
theorem CompareItems_consistent_order (env : Env) (s : State)
    (hl : ConsistentComparison env.shell.lstrcmpi)
    (hn : ConsistentComparison env.shell.StrCmpLogicalW)
    (hi : ConsistentComparison env.shell.StrCmpIW)
    (a b c : Int) (ia ib ic : ItemInfo)
    (ha : s.m_itemInfoMap.at_ a = some ia) (hb : s.m_itemInfoMap.at_ b = some ib)
    (hc : s.m_itemInfoMap.at_ c = some ic) :
    ∃ ab ba bc ac : Int,
      CompareItems env s a b = some ab ∧ CompareItems env s b a = some ba
      ∧ CompareItems env s b c = some bc ∧ CompareItems env s a c = some ac
      ∧ Int.sign ab = - Int.sign ba
      ∧ (ab ≤ 0 → bc ≤ 0 → ac ≤ 0) := by
  refine ⟨_, _, _, _, CompareItems_of_registered env s a b ia ib ha hb,
    CompareItems_of_registered env s b a ib ia hb ha,
    CompareItems_of_registered env s b c ib ic hb hc,
    CompareItems_of_registered env s a c ia ic ha hc, ?_, ?_⟩
  · unfold threeTierOrder
    cases env.shell.PathIsRoot (parsingNameRead env.shell ia.pidl) <;>
    cases env.shell.PathIsRoot (parsingNameRead env.shell ib.pidl) <;>
    cases (env.shell.SHGetPathFromIDList ia.pidl).isSome <;>
    cases (env.shell.SHGetPathFromIDList ib.pidl).isSome <;>
    cases env.config.useNaturalSortOrder <;>
    simp only [Bool.false_eq_true, if_true, if_false] <;>
    first
      | exact hl.1 _ _
      | exact hn.1 _ _
      | exact hi.1 _ _
      | decide
  · unfold threeTierOrder
    cases env.shell.PathIsRoot (parsingNameRead env.shell ia.pidl) <;>
    cases env.shell.PathIsRoot (parsingNameRead env.shell ib.pidl) <;>
    cases env.shell.PathIsRoot (parsingNameRead env.shell ic.pidl) <;>
    cases (env.shell.SHGetPathFromIDList ia.pidl).isSome <;>
    cases (env.shell.SHGetPathFromIDList ib.pidl).isSome <;>
    cases (env.shell.SHGetPathFromIDList ic.pidl).isSome <;>
    cases env.config.useNaturalSortOrder <;>
    simp only [Bool.false_eq_true, if_true, if_false] <;>
    first
      | exact hl.2 _ _ _
      | exact hn.2 _ _ _
      | exact hi.2 _ _ _
      | (intro h1 h2; first | exact absurd h1 (by decide) | exact absurd h2 (by decide) | decide)

theorem CompareItems_consistent_order_witness :
    ConsistentComparison (exShell exSiblingFolders).lstrcmpi
    ∧ ConsistentComparison (exShell exSiblingFolders).StrCmpLogicalW
    ∧ ConsistentComparison (exShell exSiblingFolders).StrCmpIW
    ∧ exSiblingState.m_itemInfoMap.at_ 3 = some { pidl := [3] }
    ∧ exSiblingState.m_itemInfoMap.at_ 2 = some { pidl := [2] }
    ∧ exSiblingState.m_itemInfoMap.at_ 1 = some { pidl := [1] }
    ∧ ∃ ab ba bc ac : Int,
      CompareItems (exEnv exSiblingFolders) exSiblingState 3 2 = some ab
      ∧ CompareItems (exEnv exSiblingFolders) exSiblingState 2 3 = some ba
      ∧ CompareItems (exEnv exSiblingFolders) exSiblingState 2 1 = some bc
      ∧ CompareItems (exEnv exSiblingFolders) exSiblingState 3 1 = some ac
      ∧ Int.sign ab = - Int.sign ba
      ∧ (ab ≤ 0 → bc ≤ 0 → ac ≤ 0) :=
  ⟨exCompare_consistent, exCompare_consistent, exCompare_consistent,
   by decide, by decide, by decide,
   CompareItems_consistent_order (exEnv exSiblingFolders) exSiblingState
     exCompare_consistent exCompare_consistent exCompare_consistent 3 2 1
     { pidl := [3] } { pidl := [2] } { pidl := [1] } (by decide) (by decide) (by decide)⟩

/-- C8 (fails as stated): the two folders `Reports` of `exTwinFolders` are distinct
siblings under the desktop with different filesystem paths, and `CompareItems`
on the state the constructor leaves returns 0 for them. -/
theorem CompareItems_zero_with_different_paths :
    (construct (exEnv exTwinFolders) []).map
        (fun s => s.tree.items.map (fun it => (it.lParam, it.pszText)))
      = some [(0, "Desktop"), (1, "Reports"), (2, "Reports")]
    ∧ (construct (exEnv exTwinFolders) []).bind (fun s => s.m_itemInfoMap.at_ 1)
      = some { pidl := [1] }
    ∧ (construct (exEnv exTwinFolders) []).bind (fun s => s.m_itemInfoMap.at_ 2)
      = some { pidl := [2] }
    ∧ (construct (exEnv exTwinFolders) []).bind
        (fun s => CompareItems (exEnv exTwinFolders) s 1 2) = some 0
    ∧ (exShell exTwinFolders).SHGetPathFromIDList [1] = some "C:\\Users\\me\\Desktop\\Reports"
    ∧ (exShell exTwinFolders).SHGetPathFromIDList [2]
        = some "C:\\Users\\Public\\Desktop\\Reports"
    ∧ (exShell exTwinFolders).SHGetPathFromIDList [1]
        ≠ (exShell exTwinFolders).SHGetPathFromIDList [2] := by
  decide

/-- C8 (amended): `CompareItems(a,b) = 0` on registered items only if both parsing
names are filesystem roots that `lstrcmpi` finds equal, or neither is a root,
both or neither of the items have a filesystem path, and the in-folder display
names compare equal under `StrCmpLogicalW` (natural sort order) or `StrCmpIW`. -/
theorem CompareItems_eq_zero_only_if (env : Env) (s : State) (a b : Int) (ia ib : ItemInfo)
    (ha : s.m_itemInfoMap.at_ a = some ia) (hb : s.m_itemInfoMap.at_ b = some ib)
    (h0 : CompareItems env s a b = some 0) :
    (env.shell.PathIsRoot (parsingNameRead env.shell ia.pidl) = true
      ∧ env.shell.PathIsRoot (parsingNameRead env.shell ib.pidl) = true
      ∧ env.shell.lstrcmpi (parsingNameRead env.shell ia.pidl)
          (parsingNameRead env.shell ib.pidl) = 0)
    ∨ (env.shell.PathIsRoot (parsingNameRead env.shell ia.pidl) = false
      ∧ env.shell.PathIsRoot (parsingNameRead env.shell ib.pidl) = false
      ∧ (env.shell.SHGetPathFromIDList ia.pidl).isSome
          = (env.shell.SHGetPathFromIDList ib.pidl).isSome
      ∧ (if env.config.useNaturalSortOrder then
            env.shell.StrCmpLogicalW (inFolderNameRead env.shell ia.pidl)
              (inFolderNameRead env.shell ib.pidl)
          else
            env.shell.StrCmpIW (inFolderNameRead env.shell ia.pidl)
              (inFolderNameRead env.shell ib.pidl)) = 0) := by
  rw [CompareItems_of_registered env s a b ia ib ha hb] at h0
  unfold threeTierOrder at h0
  revert h0
  cases env.shell.PathIsRoot (parsingNameRead env.shell ia.pidl) <;>
  cases env.shell.PathIsRoot (parsingNameRead env.shell ib.pidl) <;>
  cases (env.shell.SHGetPathFromIDList ia.pidl).isSome <;>
  cases (env.shell.SHGetPathFromIDList ib.pidl).isSome <;>
  cases env.config.useNaturalSortOrder <;>
  simp

theorem CompareItems_eq_zero_only_if_witness :
    exTwinState.m_itemInfoMap.at_ 1 = some { pidl := [1] }
    ∧ exTwinState.m_itemInfoMap.at_ 2 = some { pidl := [2] }
    ∧ CompareItems (exEnv exTwinFolders) exTwinState 1 2 = some 0
    ∧ ((exShell exTwinFolders).PathIsRoot (parsingNameRead (exShell exTwinFolders) [1]) = true
        ∧ (exShell exTwinFolders).PathIsRoot (parsingNameRead (exShell exTwinFolders) [2]) = true
        ∧ (exShell exTwinFolders).lstrcmpi (parsingNameRead (exShell exTwinFolders) [1])
            (parsingNameRead (exShell exTwinFolders) [2]) = 0
      ∨ (exShell exTwinFolders).PathIsRoot (parsingNameRead (exShell exTwinFolders) [1]) = false
        ∧ (exShell exTwinFolders).PathIsRoot (parsingNameRead (exShell exTwinFolders) [2]) = false
        ∧ ((exShell exTwinFolders).SHGetPathFromIDList [1]).isSome
            = ((exShell exTwinFolders).SHGetPathFromIDList [2]).isSome
        ∧ (if (exEnv exTwinFolders).config.useNaturalSortOrder then
              (exShell exTwinFolders).StrCmpLogicalW (inFolderNameRead (exShell exTwinFolders) [1])
                (inFolderNameRead (exShell exTwinFolders) [2])
            else
              (exShell exTwinFolders).StrCmpIW (inFolderNameRead (exShell exTwinFolders) [1])
                (inFolderNameRead (exShell exTwinFolders) [2])) = 0) :=
  ⟨by decide, by decide, by decide,
   CompareItems_eq_zero_only_if (exEnv exTwinFolders) exTwinState 1 2
     { pidl := [1] } { pidl := [2] } (by decide) (by decide) (by decide)⟩

/-! ## Content of the control under its operations -/

theorem TreeCtrl.items_mapItem (h : HTREEITEM) (f : TVITEMEX → TVITEMEX) (t : TreeCtrl) :
    (t.mapItem h f).items = t.items.map (fun it => if it.hItem = h then f it else it) := by
  induction t with
  | nil => rfl
  | node it c n ihc ihn => simp [TreeCtrl.mapItem, TreeCtrl.items, ihc, ihn]

theorem TreeCtrl.mem_items_append (new it : TVITEMEX) (t : TreeCtrl) :
    it ∈ (t.append new).items ↔ it ∈ t.items ∨ it = new := by
  induction t with
  | nil => simp [TreeCtrl.append, TreeCtrl.items]
  | node a c n _ ihn =>
    simp only [TreeCtrl.append, TreeCtrl.items, List.mem_cons, List.mem_append, ihn]
    tauto

theorem TreeCtrl.mem_items_insertUnder (h : HTREEITEM) (new it : TVITEMEX) (t : TreeCtrl)
    (hm : it ∈ (t.insertUnder h new).items) : it ∈ t.items ∨ it = new := by
  induction t with
  | nil => simp [TreeCtrl.insertUnder, TreeCtrl.items] at hm
  | node a c n ihc ihn =>
    simp only [TreeCtrl.insertUnder] at hm
    split at hm
    · simp only [TreeCtrl.items, List.mem_cons, List.mem_append,
        TreeCtrl.mem_items_append] at hm ⊢
      tauto
    · simp only [TreeCtrl.items, List.mem_cons, List.mem_append] at hm ⊢
      rcases hm with hm | hm | hm
      · exact Or.inl (Or.inl hm)
      · rcases ihc hm with h1 | h1
        · exact Or.inl (Or.inr (Or.inl h1))
        · exact Or.inr h1
      · rcases ihn hm with h1 | h1
        · exact Or.inl (Or.inr (Or.inr h1))
        · exact Or.inr h1

theorem TreeCtrl.mem_items_of_findNode (h : HTREEITEM) (t r : TreeCtrl)
    (hf : t.findNode h = some r) (it : TVITEMEX) (hm : it ∈ r.items) : it ∈ t.items := by
  induction t with
  | nil => simp [TreeCtrl.findNode] at hf
  | node a c n ihc ihn =>
    simp only [TreeCtrl.findNode] at hf
    split at hf
    · cases hf
      exact hm
    · simp only [TreeCtrl.items, List.mem_cons, List.mem_append]
      cases hc : TreeCtrl.findNode h c with
      | some r2 =>
        rw [hc] at hf
        cases hf
        exact Or.inr (Or.inl (ihc hc))
      | none =>
        rw [hc] at hf
        exact Or.inr (Or.inr (ihn hf))

theorem TreeCtrl.findNode_handle (h : HTREEITEM) (t r : TreeCtrl)
    (hf : t.findNode h = some r) : ∃ it c n, r = TreeCtrl.node it c n ∧ it.hItem = h := by
  induction t with
  | nil => simp [TreeCtrl.findNode] at hf
  | node a c n ihc ihn =>
    simp only [TreeCtrl.findNode] at hf
    split at hf
    · cases hf
      exact ⟨a, c, n, rfl, by assumption⟩
    · cases hc : TreeCtrl.findNode h c with
      | some r2 =>
        rw [hc] at hf
        cases hf
        exact ihc hc
      | none =>
        rw [hc] at hf
        exact ihn hf

theorem TreeCtrl.mem_items_childOf (r : TreeCtrl) (it : TVITEMEX) (hm : it ∈ r.childOf.items) :
    it ∈ r.items := by
  cases r with
  | nil => simp [TreeCtrl.childOf, TreeCtrl.items] at hm
  | node a c n =>
    simp only [TreeCtrl.childOf] at hm
    simp [TreeCtrl.items, hm]

theorem TreeCtrl.mem_items_ofSiblings (l : List (TVITEMEX × TreeCtrl)) (it : TVITEMEX) :
    it ∈ (TreeCtrl.ofSiblings l).items ↔ ∃ p ∈ l, it = p.1 ∨ it ∈ p.2.items := by
  induction l with
  | nil => simp [TreeCtrl.ofSiblings, TreeCtrl.items]
  | cons p l ih =>
    obtain ⟨a, c⟩ := p
    simp only [TreeCtrl.ofSiblings, TreeCtrl.items, List.mem_cons, List.mem_append, ih,
      exists_eq_or_imp, or_assoc]

theorem TreeCtrl.mem_toSiblings (t : TreeCtrl) (p : TVITEMEX × TreeCtrl)
    (hp : p ∈ t.toSiblings) : p.1 ∈ t.items ∧ ∀ it ∈ p.2.items, it ∈ t.items := by
  induction t with
  | nil => simp [TreeCtrl.toSiblings] at hp
  | node a c n _ ihn =>
    simp only [TreeCtrl.toSiblings, List.mem_cons] at hp
    rcases hp with rfl | hp
    · refine ⟨by simp [TreeCtrl.items], ?_⟩
      intro it hit
      simp [TreeCtrl.items, hit]
    · obtain ⟨h1, h2⟩ := ihn hp
      refine ⟨by simp [TreeCtrl.items, h1], ?_⟩
      intro it hit
      simp [TreeCtrl.items, h2 it hit]

theorem mem_of_insertSorted (cmp : Int → Int → Option Int) (x : TVITEMEX × TreeCtrl)
    (l r : List (TVITEMEX × TreeCtrl)) (h : insertSorted cmp x l = some r)
    (p : TVITEMEX × TreeCtrl) (hp : p ∈ r) : p = x ∨ p ∈ l := by
  induction l generalizing r with
  | nil =>
    simp only [insertSorted, Option.some.injEq] at h
    subst h
    simpa using hp
  | cons y ys ih =>
    simp only [insertSorted] at h
    cases hc : cmp x.1.lParam y.1.lParam with
    | none => simp [hc] at h
    | some v =>
      simp only [hc] at h
      split at h
      · cases h
        simpa using hp
      · cases hr : insertSorted cmp x ys with
        | none => simp [hr] at h
        | some r2 =>
          simp only [hr, Option.map_some', Option.some.injEq] at h
          subst h
          simp only [List.mem_cons] at hp ⊢
          rcases hp with hp | hp
          · exact Or.inr (Or.inl hp)
          · rcases ih r2 hr hp with h1 | h1
            · exact Or.inl h1
            · exact Or.inr (Or.inr h1)

theorem mem_of_sortSiblings (cmp : Int → Int → Option Int)
    (l r : List (TVITEMEX × TreeCtrl)) (h : sortSiblings cmp l = some r)
    (p : TVITEMEX × TreeCtrl) (hp : p ∈ r) : p ∈ l := by
  induction l generalizing r p with
  | nil =>
    simp only [sortSiblings, Option.some.injEq] at h
    subst h
    exact hp
  | cons x xs ih =>
    simp only [sortSiblings] at h
    cases hs : sortSiblings cmp xs with
    | none => simp [hs] at h
    | some r2 =>
      simp only [hs, Option.some_bind] at h
      rcases mem_of_insertSorted cmp x r2 r h p hp with h1 | h1
      · simp [h1]
      · exact List.mem_cons_of_mem _ (ih r2 hs p h1)

theorem TreeCtrl.mem_items_mapChildren_const (h : HTREEITEM) (k : TreeCtrl) (t : TreeCtrl)
    (it : TVITEMEX) (hm : it ∈ (t.mapChildren h (fun _ => k)).items) :
    it ∈ t.items ∨ it ∈ k.items := by
  induction t with
  | nil => simp [TreeCtrl.mapChildren, TreeCtrl.items] at hm
  | node a c n ihc ihn =>
    simp only [TreeCtrl.mapChildren] at hm
    split at hm
    · simp only [TreeCtrl.items, List.mem_cons, List.mem_append] at hm ⊢
      rcases hm with hm | hm | hm
      · exact Or.inl (Or.inl hm)
      · exact Or.inr hm
      · rcases ihn hm with h1 | h1
        · exact Or.inl (Or.inr (Or.inr h1))
        · exact Or.inr h1
    · simp only [TreeCtrl.items, List.mem_cons, List.mem_append] at hm ⊢
      rcases hm with hm | hm | hm
      · exact Or.inl (Or.inl hm)
      · rcases ihc hm with h1 | h1
        · exact Or.inl (Or.inr (Or.inl h1))
        · exact Or.inr h1
      · rcases ihn hm with h1 | h1
        · exact Or.inl (Or.inr (Or.inr h1))
        · exact Or.inr h1

theorem mem_items_of_SortChildrenCB (t t2 : TreeCtrl) (hParent : HTREEITEM)
    (cmp : Int → Int → Option Int) (h : TreeView_SortChildrenCB t hParent cmp = some t2)
    (it : TVITEMEX) (hm : it ∈ t2.items) : it ∈ t.items := by
  unfold TreeView_SortChildrenCB at h
  cases hf : t.findNode hParent with
  | none =>
    simp only [hf, Option.some.injEq] at h
    subst h
    exact hm
  | some r =>
    simp only [hf] at h
    cases hs : sortSiblings cmp r.childOf.toSiblings with
    | none => simp [hs] at h
    | some sorted =>
      simp only [hs, Option.map_some', Option.some.injEq] at h
      subst h
      rcases TreeCtrl.mem_items_mapChildren_const hParent _ t it hm with h1 | h1
      · exact h1
      · obtain ⟨p, hp, hit⟩ := (TreeCtrl.mem_items_ofSiblings sorted it).1 h1
        have hp2 := mem_of_sortSiblings cmp _ sorted hs p hp
        obtain ⟨h3, h4⟩ := TreeCtrl.mem_toSiblings _ p hp2
        apply TreeCtrl.mem_items_of_findNode hParent t r hf
        apply TreeCtrl.mem_items_childOf
        rcases hit with rfl | hit
        · exact h3
        · exact h4 it hit

/-! ## What population leaves untouched -/

theorem AddItem_frame (env : Env) (s : State) (parent : HTREEITEM) (pidl : PIDL) :
    (AddItem env s parent pidl).m_cutItem = s.m_cutItem
    ∧ ∀ it ∈ (AddItem env s parent pidl).tree.items, it ∈ s.tree.items ∨ it.state = 0 := by
  unfold AddItem
  simp only []
  split
  · exact ⟨rfl, fun it h => Or.inl h⟩
  · refine ⟨rfl, ?_⟩
    intro it hit
    simp only [TreeView_InsertItem, GenerateUniqueItemId] at hit
    rcases TreeCtrl.mem_items_insertUnder _ _ _ _ hit with h1 | h1
    · exact Or.inl h1
    · right
      rw [h1]

theorem foldl_AddItem_frame (env : Env) (parent : HTREEITEM) (l : List PIDL) (s : State) :
    (l.foldl (fun st item => AddItem env st parent item) s).m_cutItem = s.m_cutItem
    ∧ ∀ it ∈ (l.foldl (fun st item => AddItem env st parent item) s).tree.items,
        it ∈ s.tree.items ∨ it.state = 0 := by
  induction l generalizing s with
  | nil => exact ⟨rfl, fun it h => Or.inl h⟩
  | cons x xs ih =>
    simp only [List.foldl_cons]
    obtain ⟨h1, h2⟩ := ih (AddItem env s parent x)
    obtain ⟨h3, h4⟩ := AddItem_frame env s parent x
    refine ⟨h1.trans h3, ?_⟩
    intro it hit
    rcases h2 it hit with h5 | h5
    · exact h4 it h5
    · exact Or.inr h5

theorem addEnumerated_frame (env : Env) (s : State) (hParent : HTREEITEM) (pidlDirectory : PIDL)
    (hr : HRESULT) (pEnumIDList : List Nat) (r : HRESULT × State)
    (h : addEnumerated env s hParent pidlDirectory hr pEnumIDList = some r) :
    r.2.m_cutItem = s.m_cutItem
    ∧ ∀ it ∈ r.2.tree.items, it ∈ s.tree.items ∨ it.state = 0 := by
  unfold addEnumerated at h
  simp only [] at h
  split at h
  · cases h
  · rename_i sorted hsort
    split at h
    · cases h
    · cases h
      obtain ⟨h1, h2⟩ := foldl_AddItem_frame env hParent
        (List.foldl (enumStep env pidlDirectory) (hr, []) pEnumIDList).2 s
      refine ⟨h1, ?_⟩
      intro it hit
      exact h2 it (mem_items_of_SortChildrenCB _ _ _ _ hsort it hit)

theorem ExpandDirectory_frame (env : Env) (s : State) (hParent : HTREEITEM)
    (r : HRESULT × State) (h : ExpandDirectory env s hParent = some r) :
    r.2.m_cutItem = s.m_cutItem
    ∧ ∀ it ∈ r.2.tree.items, it ∈ s.tree.items ∨ it.state = 0 := by
  unfold ExpandDirectory at h
  cases hp : GetItemPidl s hParent with
  | none => simp [hp] at h
  | some pidlDirectory =>
    simp only [hp] at h
    by_cases hb : FAILED (env.shell.BindToIdl pidlDirectory) = true
    · simp only [hb, if_true, Option.some.injEq] at h
      subst h
      exact ⟨rfl, fun it h => Or.inl h⟩
    · simp only [hb] at h
      rcases he : env.shell.EnumObjects pidlDirectory (enumFlagsOf s) with ⟨hr, _ | pEnumIDList⟩
      · simp only [he, Bool.false_eq_true, if_false, Option.some.injEq] at h
        subst h
        exact ⟨rfl, fun it h => Or.inl h⟩
      · simp only [he, Bool.false_eq_true, if_false] at h
        by_cases hf : FAILED hr = true
        · simp only [hf, if_true, Option.some.injEq] at h
          subst h
          exact ⟨rfl, fun it h => Or.inl h⟩
        · simp only [hf] at h
          exact addEnumerated_frame env s hParent pidlDirectory hr pEnumIDList r h

theorem construct_frame (env : Env) (cachedIcons : CachedIcons) (s : State)
    (h : construct env cachedIcons = some s) :
    s.m_cutItem = none ∧ ∀ it ∈ s.tree.items, it.state = 0 := by
  unfold construct AddRoot at h
  simp only [] at h
  split at h
  · cases h
    exact ⟨rfl, by simp [TreeCtrl.items]⟩
  · simp only [OnItemExpanding, if_true] at h
    cases he : ExpandDirectory env _ _ with
    | none => rw [he] at h; simp at h
    | some r =>
      rw [he] at h
      simp only [Option.map_some', Option.some.injEq] at h
      subst h
      obtain ⟨h1, h2⟩ := ExpandDirectory_frame env _ _ r he
      refine ⟨h1, ?_⟩
      intro it hit
      rcases h2 it hit with h3 | h3
      · simp [TreeView_InsertItem, TreeCtrl.append, TreeCtrl.items, GenerateUniqueItemId] at h3
        rw [h3]
      · exact h3

/-! ## The cut mark -/

theorem or_mask_and_mask (a m : Nat) : (a ||| m) &&& m = m := by
  apply Nat.eq_of_testBit_eq
  intro i
  simp only [Nat.testBit_and, Nat.testBit_or]
  cases a.testBit i <;> cases m.testBit i <;> rfl

theorem isCut_setItemState_clear (it : TVITEMEX) :
    isCut (setItemState TVIS_CUT 0 it) = false := by
  have h : (it.state &&& 4294967291) &&& 4 = 0 := by
    have h4 : (4294967291 &&& 4 : Nat) = 0 := by decide
    rw [Nat.and_assoc, h4, Nat.and_zero]
  simp only [isCut, setItemState, TVIS_CUT]
  have h2 : (0xFFFFFFFF ^^^ 0x0004 : Nat) = 4294967291 := by decide
  have h3 : (0 &&& 0x0004 : Nat) = 0 := by decide
  rw [h2, h3, Nat.or_zero, h]
  rfl

theorem isCut_setItemState_set (it : TVITEMEX) :
    isCut (setItemState TVIS_CUT TVIS_CUT it) = true := by
  simp only [isCut, setItemState, TVIS_CUT]
  have h3 : (0x0004 &&& 0x0004 : Nat) = 4 := by decide
  rw [h3, or_mask_and_mask]
  rfl

theorem hItem_setItemState (stateMask state : Nat) (it : TVITEMEX) :
    (setItemState stateMask state it).hItem = it.hItem := rfl

/-- The invariant of the cut mark: a node that carries the mark is the
remembered `m_cutItem`. -/
theorem no_mark_after_clear (t : TreeCtrl) (cut : Option HTREEITEM)
    (hinv : ∀ it ∈ t.items, isCut it = true → cut = some it.hItem) :
    ∀ it ∈ (match cut with
            | some cutItem => t.mapItem cutItem (setItemState TVIS_CUT 0)
            | none => t).items, isCut it = false := by
  intro it hit
  cases cut with
  | none =>
    cases hc : isCut it with
    | false => rfl
    | true => exact absurd (hinv it hit hc) (by simp)
  | some cutItem =>
    simp only [TreeCtrl.items_mapItem, List.mem_map] at hit
    obtain ⟨it0, hit0, rfl⟩ := hit
    by_cases hh : it0.hItem = cutItem
    · simp only [hh, if_true]
      exact isCut_setItemState_clear it0
    · simp only [hh, if_false]
      cases hc : isCut it0 with
      | false => rfl
      | true =>
        have := hinv it0 hit0 hc
        simp only [Option.some.injEq] at this
        exact absurd this.symm hh

theorem UpdateCurrentClipboardObject_no_mark (s : State) (obj : Option Nat)
    (hinv : ∀ it ∈ s.tree.items, isCut it = true → s.m_cutItem = some it.hItem) :
    (∀ it ∈ (UpdateCurrentClipboardObject s obj).tree.items, isCut it = false)
    ∧ (UpdateCurrentClipboardObject s obj).m_cutItem = s.m_cutItem := by
  have h := no_mark_after_clear s.tree s.m_cutItem hinv
  unfold UpdateCurrentClipboardObject UpdateItemState
  cases hc : s.m_cutItem with
  | none =>
    rw [hc] at h
    exact ⟨h, hc⟩
  | some cutItem =>
    rw [hc] at h
    exact ⟨h, rfl⟩

theorem marked_iff_after_set (t : TreeCtrl) (item : HTREEITEM)
    (hno : ∀ it ∈ t.items, isCut it = false) :
    ∀ it ∈ (t.mapItem item (setItemState TVIS_CUT TVIS_CUT)).items,
      (isCut it = true ↔ it.hItem = item) := by
  intro it hit
  simp only [TreeCtrl.items_mapItem, List.mem_map] at hit
  obtain ⟨it0, hit0, rfl⟩ := hit
  by_cases hh : it0.hItem = item
  · simp only [hh, if_true, hItem_setItemState, isCut_setItemState_set]
  · simp only [hh, if_false, hno it0 hit0]
    simp

theorem CopySelectedItemToClipboard_cut (s s2 : State) (files : HRESULT × Option Nat)
    (hok : SUCCEEDED files.1 = true)
    (h : CopySelectedItemToClipboard s false files = some s2) :
    ∃ item, s.selection = some item ∧ (GetItemByHandle s item).isSome = true
      ∧ s2 = UpdateItemState
          { UpdateCurrentClipboardObject s files.2 with m_cutItem := some item }
          item TVIS_CUT TVIS_CUT := by
  unfold CopySelectedItemToClipboard at h
  cases hsel : s.selection with
  | none => simp [hsel] at h
  | some item =>
    simp only [hsel] at h
    cases hg : GetItemByHandle s item with
    | none => simp [hg] at h
    | some info =>
      simp only [hg, Bool.false_eq_true, if_false, hok, if_true, Option.some.injEq] at h
      exact ⟨item, rfl, by simp [hg], h.symm⟩

theorem clipboardStep_invariant (s s2 : State) (e : ClipboardEvent)
    (hinv : ∀ it ∈ s.tree.items, isCut it = true → s.m_cutItem = some it.hItem)
    (h : clipboardStep s e = some s2) :
    ∀ it ∈ s2.tree.items, isCut it = true → s2.m_cutItem = some it.hItem := by
  cases e with
  | select item =>
    simp only [clipboardStep, TreeView_SelectItem, Option.some.injEq] at h
    subst h
    split <;> exact hinv
  | copySelected copy files =>
    simp only [clipboardStep] at h
    by_cases hok : SUCCEEDED files.1 = true
    · cases copy with
      | true =>
        unfold CopySelectedItemToClipboard at h
        cases hsel : s.selection with
        | none => simp [hsel] at h
        | some item =>
          simp only [hsel] at h
          cases hg : GetItemByHandle s item with
          | none => simp [hg] at h
          | some info =>
            simp only [hg, if_true, hok, Option.some.injEq] at h
            subst h
            intro it hit hc
            have := (UpdateCurrentClipboardObject_no_mark s files.2 hinv).1 it hit
            rw [this] at hc
            cases hc
      | false =>
        obtain ⟨item, _, _, rfl⟩ := CopySelectedItemToClipboard_cut s s2 files hok h
        intro it hit hc
        have hno := (UpdateCurrentClipboardObject_no_mark s files.2 hinv).1
        have := (marked_iff_after_set _ item hno it hit).1 hc
        simp [UpdateItemState, this]
    · unfold CopySelectedItemToClipboard at h
      cases hsel : s.selection with
      | none => simp [hsel] at h
      | some item =>
        simp only [hsel] at h
        cases hg : GetItemByHandle s item with
        | none => simp [hg] at h
        | some info =>
          simp only [hg, hok, Bool.false_eq_true, if_false, ite_self, Option.some.injEq] at h
          subst h
          exact hinv
  | clipboardUpdate ole =>
    simp only [clipboardStep, Option.some.injEq] at h
    subst h
    unfold OnClipboardUpdate
    cases hobj : s.m_clipboardDataObject with
    | none => exact hinv
    | some dataObject =>
      simp only []
      split
      · intro it hit hc
        have hno := no_mark_after_clear s.tree s.m_cutItem hinv
        cases hcut : s.m_cutItem with
        | none =>
          rw [hcut] at hno
          simp only [hcut] at hit
          have := hno it hit
          rw [this] at hc
          cases hc
        | some cutItem =>
          rw [hcut] at hno
          simp only [hcut, UpdateItemState] at hit
          have := hno it hit
          rw [this] at hc
          cases hc
      · exact hinv

theorem runClipboard_invariant (events : List ClipboardEvent) (s s2 : State)
    (hinv : ∀ it ∈ s.tree.items, isCut it = true → s.m_cutItem = some it.hItem)
    (h : runClipboard s events = some s2) :
    ∀ it ∈ s2.tree.items, isCut it = true → s2.m_cutItem = some it.hItem := by
  induction events generalizing s with
  | nil =>
    simp only [runClipboard, Option.some.injEq] at h
    subst h
    exact hinv
  | cons e es ih =>
    simp only [runClipboard] at h
    cases hs : clipboardStep s e with
    | none => simp [hs] at h
    | some s1 =>
      simp only [hs, Option.some_bind] at h
      exact ih s1 (clipboardStep_invariant s s1 e hinv hs) h

/-! ## Handles of the nodes -/

theorem TreeCtrl.handles_node (a : TVITEMEX) (c n : TreeCtrl) :
    (TreeCtrl.node a c n).handles = a.hItem :: (c.handles ++ n.handles) := by
  simp [TreeCtrl.handles, TreeCtrl.items]

theorem TreeCtrl.handles_append (new : TVITEMEX) (t : TreeCtrl) :
    (t.append new).handles = t.handles ++ [new.hItem] := by
  induction t with
  | nil => rfl
  | node a c n _ ihn =>
    simp only [TreeCtrl.append, TreeCtrl.handles_node, ihn, List.cons_append, List.append_assoc]

theorem TreeCtrl.insertUnder_of_not_mem (h : HTREEITEM) (new : TVITEMEX) (t : TreeCtrl)
    (hn : h ∉ t.handles) : t.insertUnder h new = t := by
  induction t with
  | nil => rfl
  | node a c n ihc ihn =>
    simp only [TreeCtrl.handles_node, List.mem_cons, List.mem_append, not_or] at hn
    obtain ⟨h1, h2, h3⟩ := hn
    have h4 : ¬ a.hItem = h := fun e => h1 e.symm
    simp only [TreeCtrl.insertUnder, h4, if_false, ihc h2, ihn h3]

theorem TreeCtrl.handles_insertUnder (h : HTREEITEM) (new : TVITEMEX) (t : TreeCtrl)
    (hnd : t.handles.Nodup) (hm : h ∈ t.handles) :
    List.Perm (t.insertUnder h new).handles (new.hItem :: t.handles) := by
  induction t with
  | nil => simp [TreeCtrl.handles, TreeCtrl.items] at hm
  | node a c n ihc ihn =>
    rw [TreeCtrl.handles_node] at hnd hm
    have hnd2 := (List.nodup_cons.1 hnd).2
    have hdis := List.nodup_append.1 hnd2
    by_cases ha : a.hItem = h
    · subst ha
      simp only [TreeCtrl.insertUnder, if_true, TreeCtrl.handles_node,
        TreeCtrl.handles_append, List.append_assoc, List.singleton_append]
      exact (@List.perm_middle _ new.hItem (a.hItem :: c.handles) n.handles)
    · simp only [TreeCtrl.insertUnder, ha, if_false, TreeCtrl.handles_node]
      have hm2 : h ∈ c.handles ∨ h ∈ n.handles := by
        simp only [List.mem_cons, List.mem_append] at hm
        rcases hm with hm | hm
        · exact absurd hm.symm ha
        · exact hm
      rcases hm2 with hc | hn
      · have hnn : h ∉ n.handles := fun hx => hdis.2.2 hc hx
        rw [TreeCtrl.insertUnder_of_not_mem h new n hnn]
        have p1 := ihc hdis.1 hc
        have p2 : List.Perm (a.hItem :: ((TreeCtrl.insertUnder h new c).handles ++ n.handles))
            (a.hItem :: ((new.hItem :: c.handles) ++ n.handles)) :=
          List.Perm.cons _ (List.Perm.append_right _ p1)
        exact p2.trans (List.Perm.swap _ _ _)
      · have hnc : h ∉ c.handles := fun hx => hdis.2.2 hx hn
        rw [TreeCtrl.insertUnder_of_not_mem h new c hnc]
        have p1 := ihn hdis.2.1 hn
        have p2 : List.Perm (a.hItem :: (c.handles ++ (TreeCtrl.insertUnder h new n).handles))
            (a.hItem :: (c.handles ++ (new.hItem :: n.handles))) :=
          List.Perm.cons _ (List.Perm.append_left _ p1)
        exact p2.trans (@List.perm_middle _ new.hItem (a.hItem :: c.handles) n.handles)

theorem TreeCtrl.findNode_eq_none (h : HTREEITEM) (t : TreeCtrl) (hn : h ∉ t.handles) :
    t.findNode h = none := by
  induction t with
  | nil => rfl
  | node a c n ihc ihn =>
    simp only [TreeCtrl.handles_node, List.mem_cons, List.mem_append, not_or] at hn
    obtain ⟨h1, h2, h3⟩ := hn
    have h4 : ¬ a.hItem = h := fun e => h1 e.symm
    simp only [TreeCtrl.findNode, h4, if_false, ihc h2, ihn h3]

theorem TreeCtrl.mem_handles_of_findNode (h : HTREEITEM) (t r : TreeCtrl)
    (hf : t.findNode h = some r) : h ∈ t.handles := by
  by_contra hn
  rw [TreeCtrl.findNode_eq_none h t hn] at hf
  cases hf

theorem TreeCtrl.mapChildren_of_not_mem (h : HTREEITEM) (f : TreeCtrl → TreeCtrl) (t : TreeCtrl)
    (hn : h ∉ t.handles) : t.mapChildren h f = t := by
  induction t with
  | nil => rfl
  | node a c n ihc ihn =>
    simp only [TreeCtrl.handles_node, List.mem_cons, List.mem_append, not_or] at hn
    obtain ⟨h1, h2, h3⟩ := hn
    have h4 : ¬ a.hItem = h := fun e => h1 e.symm
    simp only [TreeCtrl.mapChildren, h4, if_false, ihc h2, ihn h3]

theorem TreeCtrl.handles_mapChildren (h : HTREEITEM) (k : TreeCtrl) (t r : TreeCtrl)
    (hnd : t.handles.Nodup) (hf : t.findNode h = some r)
    (hk : List.Perm k.handles r.childOf.handles) :
    List.Perm (t.mapChildren h (fun _ => k)).handles t.handles := by
  induction t with
  | nil => simp [TreeCtrl.findNode] at hf
  | node a c n ihc ihn =>
    rw [TreeCtrl.handles_node] at hnd
    have hnd1 := (List.nodup_cons.1 hnd).1
    have hnd2 := (List.nodup_cons.1 hnd).2
    have hdis := List.nodup_append.1 hnd2
    by_cases ha : a.hItem = h
    · simp only [TreeCtrl.findNode, ha, if_true, Option.some.injEq] at hf
      subst hf
      have hnn : h ∉ n.handles := by
        intro hx
        apply hnd1
        rw [ha]
        exact List.mem_append_right _ hx
      simp only [TreeCtrl.mapChildren, ha, if_true, TreeCtrl.handles_node,
        TreeCtrl.mapChildren_of_not_mem h _ n hnn]
      exact List.Perm.cons _ (List.Perm.append_right _ hk)
    · simp only [TreeCtrl.findNode, ha, if_false] at hf
      simp only [TreeCtrl.mapChildren, ha, if_false, TreeCtrl.handles_node]
      cases hc : TreeCtrl.findNode h c with
      | some r2 =>
        rw [hc] at hf
        cases hf
        have hmc := TreeCtrl.mem_handles_of_findNode h c _ hc
        have hnn : h ∉ n.handles := fun hx => hdis.2.2 hmc hx
        rw [TreeCtrl.mapChildren_of_not_mem h _ n hnn]
        exact List.Perm.cons _ (List.Perm.append_right _ (ihc hdis.1 hc))
      | none =>
        rw [hc] at hf
        have hmn := TreeCtrl.mem_handles_of_findNode h n _ hf
        have hnc : h ∉ c.handles := fun hx => hdis.2.2 hx hmn
        rw [TreeCtrl.mapChildren_of_not_mem h _ c hnc]
        exact List.Perm.cons _ (List.Perm.append_left _ (ihn hdis.2.1 hf))

theorem TreeCtrl.ofSiblings_toSiblings (t : TreeCtrl) : TreeCtrl.ofSiblings t.toSiblings = t := by
  induction t with
  | nil => rfl
  | node a c n _ ihn => simp only [TreeCtrl.toSiblings, TreeCtrl.ofSiblings, ihn]

theorem TreeCtrl.handles_ofSiblings_cons (p : TVITEMEX × TreeCtrl)
    (l : List (TVITEMEX × TreeCtrl)) :
    (TreeCtrl.ofSiblings (p :: l)).handles
      = (p.1.hItem :: p.2.handles) ++ (TreeCtrl.ofSiblings l).handles := by
  obtain ⟨a, c⟩ := p
  simp only [TreeCtrl.ofSiblings, TreeCtrl.handles_node, List.cons_append]

theorem TreeCtrl.handles_ofSiblings_perm (l l2 : List (TVITEMEX × TreeCtrl))
    (hp : List.Perm l l2) :
    List.Perm (TreeCtrl.ofSiblings l).handles (TreeCtrl.ofSiblings l2).handles := by
  induction hp with
  | nil => exact List.Perm.refl _
  | cons x _ ih =>
    rw [TreeCtrl.handles_ofSiblings_cons, TreeCtrl.handles_ofSiblings_cons]
    exact List.Perm.append_left _ ih
  | swap x y l =>
    simp only [TreeCtrl.handles_ofSiblings_cons]
    rw [← List.append_assoc, ← List.append_assoc]
    exact List.Perm.append_right _ List.perm_append_comm
  | trans _ _ ih1 ih2 => exact ih1.trans ih2

theorem perm_of_insertSorted (cmp : Int → Int → Option Int) (x : TVITEMEX × TreeCtrl)
    (l r : List (TVITEMEX × TreeCtrl)) (h : insertSorted cmp x l = some r) :
    List.Perm r (x :: l) := by
  induction l generalizing r with
  | nil =>
    simp only [insertSorted, Option.some.injEq] at h
    subst h
    exact List.Perm.refl _
  | cons y ys ih =>
    simp only [insertSorted] at h
    cases hc : cmp x.1.lParam y.1.lParam with
    | none => simp [hc] at h
    | some v =>
      simp only [hc] at h
      split at h
      · cases h
        exact List.Perm.refl _
      · cases hr : insertSorted cmp x ys with
        | none => simp [hr] at h
        | some r2 =>
          simp only [hr, Option.map_some', Option.some.injEq] at h
          subst h
          exact (List.Perm.cons y (ih r2 hr)).trans (List.Perm.swap _ _ _)

theorem perm_of_sortSiblings (cmp : Int → Int → Option Int)
    (l r : List (TVITEMEX × TreeCtrl)) (h : sortSiblings cmp l = some r) : List.Perm r l := by
  induction l generalizing r with
  | nil =>
    simp only [sortSiblings, Option.some.injEq] at h
    subst h
    exact List.Perm.refl _
  | cons x xs ih =>
    simp only [sortSiblings] at h
    cases hs : sortSiblings cmp xs with
    | none => simp [hs] at h
    | some r2 =>
      simp only [hs, Option.some_bind] at h
      exact (perm_of_insertSorted cmp x r2 r h).trans (List.Perm.cons x (ih r2 hs))

theorem handles_of_SortChildrenCB (t t2 : TreeCtrl) (hParent : HTREEITEM)
    (cmp : Int → Int → Option Int) (hnd : t.handles.Nodup)
    (h : TreeView_SortChildrenCB t hParent cmp = some t2) :
    List.Perm t2.handles t.handles := by
  unfold TreeView_SortChildrenCB at h
  cases hf : t.findNode hParent with
  | none =>
    simp only [hf, Option.some.injEq] at h
    subst h
    exact List.Perm.refl _
  | some r =>
    simp only [hf] at h
    cases hs : sortSiblings cmp r.childOf.toSiblings with
    | none => simp [hs] at h
    | some sorted =>
      simp only [hs, Option.map_some', Option.some.injEq] at h
      subst h
      apply TreeCtrl.handles_mapChildren hParent _ t r hnd hf
      have hp := TreeCtrl.handles_ofSiblings_perm _ _ (perm_of_sortSiblings cmp _ sorted hs)
      rw [TreeCtrl.ofSiblings_toSiblings] at hp
      exact hp

/-- The control never gives a new node a handle that is in use. -/
theorem AddItem_handles_nodup (env : Env) (hfresh : ∀ t, env.newItem t ∉ t.handles)
    (s : State) (parent : HTREEITEM) (pidl : PIDL) (hnd : s.tree.handles.Nodup) :
    (AddItem env s parent pidl).tree.handles.Nodup := by
  unfold AddItem
  simp only []
  split
  · exact hnd
  · simp only [TreeView_InsertItem, GenerateUniqueItemId]
    by_cases hm : parent ∈ s.tree.handles
    · refine (List.Perm.nodup_iff (TreeCtrl.handles_insertUnder parent _ s.tree hnd hm)).2 ?_
      exact List.nodup_cons.2 ⟨hfresh s.tree, hnd⟩
    · rw [TreeCtrl.insertUnder_of_not_mem parent _ s.tree hm]
      exact hnd

theorem foldl_AddItem_handles_nodup (env : Env) (hfresh : ∀ t, env.newItem t ∉ t.handles)
    (parent : HTREEITEM) (l : List PIDL) (s : State) (hnd : s.tree.handles.Nodup) :
    (l.foldl (fun st item => AddItem env st parent item) s).tree.handles.Nodup := by
  induction l generalizing s with
  | nil => exact hnd
  | cons x xs ih =>
    simp only [List.foldl_cons]
    exact ih _ (AddItem_handles_nodup env hfresh s parent x hnd)

theorem addEnumerated_handles_nodup (env : Env) (hfresh : ∀ t, env.newItem t ∉ t.handles)
    (s : State) (hParent : HTREEITEM) (pidlDirectory : PIDL) (hr : HRESULT)
    (pEnumIDList : List Nat) (r : HRESULT × State) (hnd : s.tree.handles.Nodup)
    (h : addEnumerated env s hParent pidlDirectory hr pEnumIDList = some r) :
    r.2.tree.handles.Nodup := by
  unfold addEnumerated at h
  simp only [] at h
  split at h
  · cases h
  · rename_i sorted hsort
    split at h
    · cases h
    · cases h
      have h1 := foldl_AddItem_handles_nodup env hfresh hParent
        (List.foldl (enumStep env pidlDirectory) (hr, []) pEnumIDList).2 s hnd
      exact (List.Perm.nodup_iff (handles_of_SortChildrenCB _ _ _ _ h1 hsort)).2 h1

theorem ExpandDirectory_handles_nodup (env : Env) (hfresh : ∀ t, env.newItem t ∉ t.handles)
    (s : State) (hParent : HTREEITEM) (r : HRESULT × State) (hnd : s.tree.handles.Nodup)
    (h : ExpandDirectory env s hParent = some r) : r.2.tree.handles.Nodup := by
  unfold ExpandDirectory at h
  cases hp : GetItemPidl s hParent with
  | none => simp [hp] at h
  | some pidlDirectory =>
    simp only [hp] at h
    by_cases hb : FAILED (env.shell.BindToIdl pidlDirectory) = true
    · simp only [hb, if_true, Option.some.injEq] at h
      subst h
      exact hnd
    · simp only [hb] at h
      rcases he : env.shell.EnumObjects pidlDirectory (enumFlagsOf s) with ⟨hr, _ | pEnumIDList⟩
      · simp only [he, Bool.false_eq_true, if_false, Option.some.injEq] at h
        subst h
        exact hnd
      · simp only [he, Bool.false_eq_true, if_false] at h
        by_cases hf : FAILED hr = true
        · simp only [hf, if_true, Option.some.injEq] at h
          subst h
          exact hnd
        · simp only [hf] at h
          exact addEnumerated_handles_nodup env hfresh s hParent pidlDirectory hr pEnumIDList r
            hnd h

theorem construct_handles_nodup (env : Env) (hfresh : ∀ t, env.newItem t ∉ t.handles)
    (cachedIcons : CachedIcons) (s : State) (h : construct env cachedIcons = some s) :
    s.tree.handles.Nodup := by
  unfold construct AddRoot at h
  simp only [] at h
  split at h
  · cases h
    simp [TreeCtrl.handles, TreeCtrl.items]
  · simp only [OnItemExpanding, if_true] at h
    cases he : ExpandDirectory env _ _ with
    | none => rw [he] at h; simp at h
    | some r =>
      rw [he] at h
      simp only [Option.map_some', Option.some.injEq] at h
      subst h
      apply ExpandDirectory_handles_nodup env hfresh _ _ r _ he
      simp [TreeView_InsertItem, TreeCtrl.append, TreeCtrl.handles, TreeCtrl.items,
        GenerateUniqueItemId]

theorem TreeCtrl.handles_mapItem_setItemState (h : HTREEITEM) (stateMask state : Nat)
    (t : TreeCtrl) : (t.mapItem h (setItemState stateMask state)).handles = t.handles := by
  simp only [TreeCtrl.handles, TreeCtrl.items_mapItem, List.map_map]
  apply List.map_congr_left
  intro it _
  simp only [Function.comp]
  split <;> rfl

theorem UpdateCurrentClipboardObject_handles (s : State) (obj : Option Nat) :
    (UpdateCurrentClipboardObject s obj).tree.handles = s.tree.handles := by
  unfold UpdateCurrentClipboardObject UpdateItemState
  cases s.m_cutItem with
  | none => rfl
  | some cutItem => exact TreeCtrl.handles_mapItem_setItemState _ _ _ _

theorem clipboardStep_handles (s s2 : State) (e : ClipboardEvent)
    (h : clipboardStep s e = some s2) : s2.tree.handles = s.tree.handles := by
  cases e with
  | select item =>
    simp only [clipboardStep, TreeView_SelectItem, Option.some.injEq] at h
    subst h
    split <;> rfl
  | copySelected copy files =>
    simp only [clipboardStep] at h
    unfold CopySelectedItemToClipboard at h
    cases hsel : s.selection with
    | none => simp [hsel] at h
    | some item =>
      simp only [hsel] at h
      cases hg : GetItemByHandle s item with
      | none => simp [hg] at h
      | some info =>
        simp only [hg] at h
        by_cases hok : SUCCEEDED files.1 = true
        · cases copy with
          | true =>
            simp only [if_true, hok, Option.some.injEq] at h
            subst h
            exact UpdateCurrentClipboardObject_handles s files.2
          | false =>
            simp only [Bool.false_eq_true, if_false, hok, if_true, Option.some.injEq] at h
            subst h
            simp only [UpdateItemState, TreeCtrl.handles_mapItem_setItemState]
            exact UpdateCurrentClipboardObject_handles s files.2
        · simp only [hok, Bool.false_eq_true, if_false, ite_self, Option.some.injEq] at h
          subst h
          rfl
  | clipboardUpdate ole =>
    simp only [clipboardStep, Option.some.injEq] at h
    subst h
    unfold OnClipboardUpdate
    cases s.m_clipboardDataObject with
    | none => rfl
    | some dataObject =>
      simp only []
      split
      · cases s.m_cutItem with
        | none => rfl
        | some cutItem =>
          simp only [UpdateItemState]
          exact TreeCtrl.handles_mapItem_setItemState _ _ _ _
      · rfl

theorem runClipboard_handles (events : List ClipboardEvent) (s s2 : State)
    (h : runClipboard s events = some s2) : s2.tree.handles = s.tree.handles := by
  induction events generalizing s with
  | nil =>
    simp only [runClipboard, Option.some.injEq] at h
    subst h
    rfl
  | cons e es ih =>
    simp only [runClipboard] at h
    cases hs : clipboardStep s e with
    | none => simp [hs] at h
    | some s1 =>
      simp only [hs, Option.some_bind] at h
      exact (ih s1 h).trans (clipboardStep_handles s s1 e hs)

theorem length_le_one_of_nodup_of_const (l : List HTREEITEM) (c : HTREEITEM)
    (hnd : l.Nodup) (h : ∀ x ∈ l, x = c) : l.length ≤ 1 := by
  match l, hnd, h with
  | [], _, _ => simp
  | [_], _, _ => simp
  | x :: y :: _, hnd, h =>
    have hx := h x (by simp)
    have hy := h y (by simp)
    rw [hx, hy] at hnd
    simp at hnd

theorem marked_at_most_one (t : TreeCtrl) (cut : Option HTREEITEM) (hnd : t.handles.Nodup)
    (hinv : ∀ it ∈ t.items, isCut it = true → cut = some it.hItem) :
    (t.items.filter (fun it => isCut it)).length ≤ 1 := by
  have hsub : ((t.items.filter (fun it => isCut it)).map (fun it => it.hItem)).Nodup :=
    List.Nodup.sublist (List.Sublist.map _ (List.filter_sublist _)) hnd
  have hall : ∀ x ∈ (t.items.filter (fun it => isCut it)).map (fun it => it.hItem),
      cut = some x := by
    intro x hx
    simp only [List.mem_map, List.mem_filter] at hx
    obtain ⟨it, ⟨hit, hc⟩, rfl⟩ := hx
    exact hinv it hit hc
  cases cut with
  | none =>
    have hnil : t.items.filter (fun it => isCut it) = [] := by
      apply List.eq_nil_iff_forall_not_mem.2
      intro it hit
      simp only [List.mem_filter] at hit
      exact absurd (hinv it hit.1 hit.2) (by simp)
    rw [hnil]
    simp
  | some c =>
    rw [← List.length_map (t.items.filter (fun it => isCut it)) (fun it => it.hItem)]
    apply length_le_one_of_nodup_of_const _ c hsub
    intro x hx
    exact (Option.some.inj (hall x hx)).symm

theorem le_foldl_max (l : List Nat) (acc : Nat) :
    acc ≤ l.foldl max acc ∧ ∀ x ∈ l, x ≤ l.foldl max acc := by
  induction l generalizing acc with
  | nil => simp
  | cons y ys ih =>
    simp only [List.foldl_cons, List.mem_cons]
    obtain ⟨h1, h2⟩ := ih (max acc y)
    refine ⟨le_trans (le_max_left _ _) h1, ?_⟩
    intro x hx
    rcases hx with rfl | hx
    · exact le_trans (le_max_right _ _) h1
    · exact h2 x hx

theorem exNewItem_fresh (t : TreeCtrl) : exNewItem t ∉ t.handles := by
  intro h
  have := (le_foldl_max t.handles 0).2 _ h
  unfold exNewItem at this
  omega

theorem mem_items_of_GetItemByHandle (s : State) (item : HTREEITEM)
    (h : (GetItemByHandle s item).isSome = true) : ∃ it ∈ s.tree.items, it.hItem = item := by
  unfold GetItemByHandle GetItemInternalIndex TreeView_GetItem at h
  cases hf : s.tree.findNode item with
  | none => simp [hf] at h
  | some r =>
    obtain ⟨it, c, n, rfl, hh⟩ := TreeCtrl.findNode_handle item s.tree _ hf
    exact ⟨it, TreeCtrl.mem_items_of_findNode item s.tree _ hf it (by simp [TreeCtrl.items]), hh⟩

theorem cut_marks_exactly (s s2 : State) (item : HTREEITEM) (files : HRESULT × Option Nat)
    (hinv : ∀ it ∈ s.tree.items, isCut it = true → s.m_cutItem = some it.hItem)
    (hok : SUCCEEDED files.1 = true)
    (h : CopySelectedItemToClipboard { s with selection := some item } false files = some s2) :
    (∀ it ∈ (UpdateCurrentClipboardObject { s with selection := some item } files.2).tree.items,
        isCut it = false)
    ∧ s2 = UpdateItemState
        { UpdateCurrentClipboardObject { s with selection := some item } files.2 with
          m_cutItem := some item } item TVIS_CUT TVIS_CUT
    ∧ s2.m_cutItem = some item
    ∧ (∀ it ∈ s2.tree.items, (isCut it = true ↔ it.hItem = item))
    ∧ ∃ it ∈ s2.tree.items, it.hItem = item ∧ isCut it = true := by
  obtain ⟨item2, hsel, hreg, hs2⟩ := CopySelectedItemToClipboard_cut _ s2 files hok h
  simp only [Option.some.injEq] at hsel
  subst hsel
  have hno := (UpdateCurrentClipboardObject_no_mark { s with selection := some item } files.2
    hinv).1
  have hiff := marked_iff_after_set _ item hno
  refine ⟨hno, hs2, by rw [hs2]; rfl, by rw [hs2]; exact hiff, ?_⟩
  obtain ⟨it, hit, hh⟩ := mem_items_of_GetItemByHandle _ item hreg
  have htree : (UpdateCurrentClipboardObject { s with selection := some item } files.2).tree.items
      = (match s.m_cutItem with
          | some cutItem => s.tree.mapItem cutItem (setItemState TVIS_CUT 0)
          | none => s.tree).items := by
    unfold UpdateCurrentClipboardObject UpdateItemState
    cases s.m_cutItem <;> rfl
  have hex : ∃ it1 ∈ (UpdateCurrentClipboardObject { s with selection := some item }
      files.2).tree.items, it1.hItem = item := by
    rw [htree]
    cases s.m_cutItem with
    | none => exact ⟨it, hit, hh⟩
    | some cutItem =>
      simp only [TreeCtrl.items_mapItem, List.mem_map]
      refine ⟨_, ⟨it, hit, rfl⟩, ?_⟩
      split
      · rw [hItem_setItemState]; exact hh
      · exact hh
  obtain ⟨it1, hit1, hh1⟩ := hex
  rw [hs2]
  simp only [UpdateItemState, TreeCtrl.items_mapItem, List.mem_map]
  refine ⟨_, ⟨it1, hit1, rfl⟩, ?_⟩
  simp only [hh1, if_true, hItem_setItemState, isCut_setItemState_set, and_self]

/-- C9: in every state reached from the constructed state by selections, cuts,
copies and clipboard updates, a node that carries the cut mark is the remembered
`m_cutItem`, so any two marked nodes have the same handle; with a control that
never gives a new node a handle in use, the handles of the nodes are distinct
and at most one node carries the mark.  A successful cut of `x` followed by a successful cut of `y` first leaves exactly
`x` marked; the second cut clears every mark (`UpdateCurrentClipboardObject`)
before it marks `y`, and at the end exactly `y` is marked. -/
theorem cut_mark_invariant (env : Env) (cachedIcons : CachedIcons) (s0 s : State)
    (events : List ClipboardEvent)
    (hs0 : construct env cachedIcons = some s0)
    (hrun : runClipboard s0 events = some s) :
    (∀ it ∈ s.tree.items, isCut it = true → s.m_cutItem = some it.hItem)
    ∧ (∀ it1 ∈ s.tree.items, ∀ it2 ∈ s.tree.items,
        isCut it1 = true → isCut it2 = true → it1.hItem = it2.hItem)
    ∧ ((∀ t, env.newItem t ∉ t.handles) →
        s.tree.handles.Nodup ∧ (s.tree.items.filter (fun it => isCut it)).length ≤ 1)
    ∧ ∀ (x y : HTREEITEM) (filesX filesY : HRESULT × Option Nat) (sx sy : State),
        SUCCEEDED filesX.1 = true → SUCCEEDED filesY.1 = true →
        CopySelectedItemToClipboard { s with selection := some x } false filesX = some sx →
        CopySelectedItemToClipboard { sx with selection := some y } false filesY = some sy →
        (∀ it ∈ sx.tree.items, (isCut it = true ↔ it.hItem = x))
        ∧ (∀ it ∈ (UpdateCurrentClipboardObject { sx with selection := some y }
              filesY.2).tree.items, isCut it = false)
        ∧ sy = UpdateItemState
            { UpdateCurrentClipboardObject { sx with selection := some y } filesY.2 with
              m_cutItem := some y } y TVIS_CUT TVIS_CUT
        ∧ (∀ it ∈ sy.tree.items, (isCut it = true ↔ it.hItem = y))
        ∧ ∃ it ∈ sy.tree.items, it.hItem = y ∧ isCut it = true := by
  have hinv0 : ∀ it ∈ s0.tree.items, isCut it = true → s0.m_cutItem = some it.hItem := by
    intro it hit hc
    have hst := (construct_frame env cachedIcons s0 hs0).2 it hit
    simp [isCut, hst] at hc
  have hinv := runClipboard_invariant events s0 s hinv0 hrun
  refine ⟨hinv, ?_, ?_, ?_⟩
  · intro it1 h1 it2 h2 c1 c2
    have e1 := hinv it1 h1 c1
    have e2 := hinv it2 h2 c2
    rw [e1] at e2
    exact Option.some.inj e2
  · intro hfresh
    have hnd : s.tree.handles.Nodup := by
      rw [runClipboard_handles events s0 s hrun]
      exact construct_handles_nodup env hfresh cachedIcons s0 hs0
    exact ⟨hnd, marked_at_most_one s.tree s.m_cutItem hnd hinv⟩
  · intro x y filesX filesY sx sy hokX hokY hx hy
    obtain ⟨_, _, hcutx, hiffx, _⟩ := cut_marks_exactly s sx x filesX hinv hokX hx
    have hinvx : ∀ it ∈ sx.tree.items, isCut it = true → sx.m_cutItem = some it.hItem := by
      intro it hit hc
      rw [hcutx, (hiffx it hit).1 hc]
    obtain ⟨hno, hsy, _, hiffy, hexy⟩ := cut_marks_exactly sx sy y filesY hinvx hokY hy
    exact ⟨hiffx, hno, hsy, hiffy, hexy⟩

theorem cut_mark_invariant_witness :
    construct (exEnv exSiblingFolders) [] = some exSiblingState
    ∧ runClipboard exSiblingState exClipboardEvents = some exCutState
    ∧ (∀ it ∈ exCutState.tree.items, isCut it = true → exCutState.m_cutItem = some it.hItem)
    ∧ (exCutState.tree.items.filter isCut).map (fun it => it.hItem) = [2]
    ∧ (∀ t, (exEnv exSiblingFolders).newItem t ∉ t.handles)
    ∧ (exCutState.tree.items.filter (fun it => isCut it)).length ≤ 1
    ∧ CopySelectedItemToClipboard { exCutState with selection := some 5 } false (S_OK, some 14)
        = some (exAfterCut exCutState 5 14)
    ∧ CopySelectedItemToClipboard { exAfterCut exCutState 5 14 with selection := some 3 } false
        (S_OK, some 15) = some (exAfterCut (exAfterCut exCutState 5 14) 3 15)
    ∧ (∀ it ∈ (exAfterCut (exAfterCut exCutState 5 14) 3 15).tree.items,
        (isCut it = true ↔ it.hItem = 3)) :=
  have h := cut_mark_invariant (exEnv exSiblingFolders) [] exSiblingState exCutState
    exClipboardEvents (by decide) (by decide)
  ⟨by decide, by decide, h.1, by decide, exNewItem_fresh, (h.2.2.1 exNewItem_fresh).2,
   by decide, by decide,
   (h.2.2.2 5 3 (S_OK, some 14) (S_OK, some 15) (exAfterCut exCutState 5 14)
      (exAfterCut (exAfterCut exCutState 5 14) 3 15) (by decide) (by decide) (by decide)
      (by decide)).2.2.2.1⟩

/-- C10: in a state that remembers a clipboard data object and in which a marked
node is the remembered `m_cutItem`, `OnClipboardUpdate` with the system answering
that the object is no longer the clipboard (`S_FALSE`) leaves no node with the
cut mark, `m_cutItem` null and no remembered data object; with the system
answering that it still is (`S_OK`), the state is unchanged. -/
theorem OnClipboardUpdate_clears_on_mismatch (ole : Nat → HRESULT) (s : State)
    (dataObject : Nat)
    (hobj : s.m_clipboardDataObject = some dataObject)
    (hinv : ∀ it ∈ s.tree.items, isCut it = true → s.m_cutItem = some it.hItem) :
    (ole dataObject = S_FALSE →
        (∀ it ∈ (OnClipboardUpdate ole s).tree.items, isCut it = false)
        ∧ (OnClipboardUpdate ole s).m_cutItem = none
        ∧ (OnClipboardUpdate ole s).m_clipboardDataObject = none)
    ∧ (ole dataObject = S_OK → OnClipboardUpdate ole s = s) := by
  constructor
  · intro hfalse
    have hno := no_mark_after_clear s.tree s.m_cutItem hinv
    unfold OnClipboardUpdate
    simp only [hobj, hfalse, if_true]
    cases hcut : s.m_cutItem with
    | none =>
      rw [hcut] at hno
      exact ⟨hno, hcut, trivial⟩
    | some cutItem =>
      rw [hcut] at hno
      exact ⟨hno, rfl, trivial⟩
  · intro hok
    unfold OnClipboardUpdate
    simp [hobj, hok, S_OK, S_FALSE]

theorem OnClipboardUpdate_clears_on_mismatch_witness :
    exCutState.m_clipboardDataObject = some 13
    ∧ (∀ it ∈ exCutState.tree.items, isCut it = true → exCutState.m_cutItem = some it.hItem)
    ∧ (exCutState.tree.items.filter isCut).map (fun it => it.hItem) = [2]
    ∧ ((∀ it ∈ (OnClipboardUpdate (fun _ => S_FALSE) exCutState).tree.items, isCut it = false)
        ∧ (OnClipboardUpdate (fun _ => S_FALSE) exCutState).m_cutItem = none
        ∧ (OnClipboardUpdate (fun _ => S_FALSE) exCutState).m_clipboardDataObject = none)
    ∧ OnClipboardUpdate (fun _ => S_OK) exCutState = exCutState :=
  ⟨by decide, by decide, by decide,
   (OnClipboardUpdate_clears_on_mismatch (fun _ => S_FALSE) exCutState 13 (by decide)
      (by decide)).1 rfl,
   (OnClipboardUpdate_clears_on_mismatch (fun _ => S_OK) exCutState 13 (by decide)
      (by decide)).2 rfl⟩

/-! ## Ancestors, parents and descendants -/

theorem TreeCtrl.pathTo_eq_none (h : HTREEITEM) (t : TreeCtrl) (hn : h ∉ t.handles) :
    t.pathTo h = none := by
  induction t with
  | nil => rfl
  | node a c n ihc ihn =>
    simp only [TreeCtrl.handles_node, List.mem_cons, List.mem_append, not_or] at hn
    obtain ⟨h1, h2, h3⟩ := hn
    have h4 : ¬ a.hItem = h := fun e => h1 e.symm
    simp only [TreeCtrl.pathTo, h4, if_false, ihc h2, ihn h3]

theorem TreeCtrl.mem_handles_of_pathTo (h : HTREEITEM) (t : TreeCtrl) (r : List HTREEITEM)
    (hp : t.pathTo h = some r) : h ∈ t.handles := by
  by_contra hn
  rw [TreeCtrl.pathTo_eq_none h t hn] at hp
  cases hp

theorem TreeCtrl.pathTo_subset (h : HTREEITEM) (t : TreeCtrl) (r : List HTREEITEM)
    (hp : t.pathTo h = some r) : ∀ x ∈ r, x ∈ t.handles := by
  induction t generalizing r with
  | nil => simp [TreeCtrl.pathTo] at hp
  | node a c n ihc ihn =>
    simp only [TreeCtrl.pathTo] at hp
    intro x hx
    rw [TreeCtrl.handles_node]
    by_cases ha : a.hItem = h
    · simp only [ha, if_true, Option.some.injEq] at hp
      subst hp
      simp at hx
    · simp only [ha, if_false] at hp
      cases hc : TreeCtrl.pathTo h c with
      | some r2 =>
        simp only [hc, Option.some.injEq] at hp
        subst hp
        simp only [List.mem_append, List.mem_singleton] at hx
        rcases hx with hx | hx
        · exact List.mem_cons_of_mem _ (List.mem_append_left _ (ihc r2 hc x hx))
        · rw [hx]
          exact List.mem_cons_self _ _
      | none =>
        simp only [hc] at hp
        exact List.mem_cons_of_mem _ (List.mem_append_right _ (ihn r hp x hx))

theorem TreeCtrl.pathTo_length (h : HTREEITEM) (t : TreeCtrl) (r : List HTREEITEM)
    (hp : t.pathTo h = some r) : r.length < t.items.length := by
  induction t generalizing r with
  | nil => simp [TreeCtrl.pathTo] at hp
  | node a c n ihc ihn =>
    simp only [TreeCtrl.pathTo] at hp
    simp only [TreeCtrl.items, List.length_cons, List.length_append]
    by_cases ha : a.hItem = h
    · simp only [ha, if_true, Option.some.injEq] at hp
      subst hp
      simp
    · simp only [ha, if_false] at hp
      cases hc : TreeCtrl.pathTo h c with
      | some r2 =>
        simp only [hc, Option.some.injEq] at hp
        subst hp
        have := ihc r2 hc
        simp only [List.length_append, List.length_singleton]
        omega
      | none =>
        simp only [hc] at hp
        have := ihn r hp
        omega

theorem TreeCtrl.parentOf_eq (h : HTREEITEM) (parent : Option HTREEITEM) (t : TreeCtrl) :
    t.parentOf h parent
      = (t.pathTo h).map (fun r => match r with
          | [] => parent
          | p :: _ => some p) := by
  induction t generalizing parent with
  | nil => rfl
  | node a c n ihc ihn =>
    simp only [TreeCtrl.parentOf, TreeCtrl.pathTo]
    by_cases ha : a.hItem = h
    · simp [ha]
    · simp only [ha, if_false]
      rw [ihc (some a.hItem)]
      cases hc : TreeCtrl.pathTo h c with
      | some r2 =>
        cases r2 <;> simp
      | none =>
        simp only [Option.map_none']
        exact ihn parent

theorem TreeView_GetParent_eq (t : TreeCtrl) (h : HTREEITEM) :
    TreeView_GetParent t h
      = match t.pathTo h with
        | some (p :: _) => some p
        | _ => none := by
  unfold TreeView_GetParent
  rw [TreeCtrl.parentOf_eq]
  cases hp : t.pathTo h with
  | none => rfl
  | some r => cases r <;> rfl

theorem TreeCtrl.pathTo_parent (h : HTREEITEM) (t : TreeCtrl) (p : HTREEITEM)
    (rest : List HTREEITEM) (hnd : t.handles.Nodup) (hp : t.pathTo h = some (p :: rest)) :
    t.pathTo p = some rest := by
  induction t generalizing rest with
  | nil => simp [TreeCtrl.pathTo] at hp
  | node a c n ihc ihn =>
    rw [TreeCtrl.handles_node] at hnd
    have hnd1 := (List.nodup_cons.1 hnd).1
    have hnd2 := (List.nodup_cons.1 hnd).2
    have hdis := List.nodup_append.1 hnd2
    simp only [TreeCtrl.pathTo] at hp
    by_cases ha : a.hItem = h
    · simp [ha] at hp
    · simp only [ha, if_false] at hp
      cases hc : TreeCtrl.pathTo h c with
      | some r2 =>
        simp only [hc, Option.some.injEq] at hp
        cases r2 with
        | nil =>
          simp only [List.nil_append, List.cons.injEq] at hp
          obtain ⟨h1, h2⟩ := hp
          subst h1 h2
          simp [TreeCtrl.pathTo]
        | cons q r3 =>
          simp only [List.cons_append, List.cons.injEq] at hp
          obtain ⟨h1, h2⟩ := hp
          subst h1 h2
          have hq : q ∈ c.handles := TreeCtrl.pathTo_subset h c _ hc q (List.mem_cons_self _ _)
          have hne : ¬ a.hItem = q := by
            intro e
            apply hnd1
            rw [e]
            exact List.mem_append_left _ hq
          simp only [TreeCtrl.pathTo, hne, if_false, ihc r3 hdis.1 hc]
      | none =>
        simp only [hc] at hp
        have hq : p ∈ n.handles := TreeCtrl.pathTo_subset h n _ hp p (List.mem_cons_self _ _)
        have hne : ¬ a.hItem = p := by
          intro e
          apply hnd1
          rw [e]
          exact List.mem_append_right _ hq
        have hnc : p ∉ c.handles := fun hx => hdis.2.2 hx hq
        simp only [TreeCtrl.pathTo, hne, if_false, TreeCtrl.pathTo_eq_none p c hnc,
          ihn rest hdis.2.1 hp]

theorem climbToParent_eq (t : TreeCtrl) (hnd : t.handles.Nodup) (P : HTREEITEM)
    (r : List HTREEITEM) :
    ∀ (h : HTREEITEM) (fuel : Nat), t.pathTo h = some r → r.length < fuel →
      climbToParent t P fuel h = some (if P ∈ r then some P else none) := by
  induction r with
  | nil =>
    intro h fuel hp hf
    cases fuel with
    | zero => simp at hf
    | succ f =>
      simp only [climbToParent, TreeView_GetParent_eq, hp]
      simp
  | cons p rest ih =>
    intro h fuel hp hf
    cases fuel with
    | zero => simp at hf
    | succ f =>
      simp only [List.length_cons, Nat.add_lt_add_iff_right] at hf
      simp only [climbToParent, TreeView_GetParent_eq, hp]
      by_cases hpP : p = P
      · simp [hpP]
      · simp only [hpP, if_false]
        rw [ih p f (TreeCtrl.pathTo_parent h t p rest hnd hp) hf]
        have : (P ∈ p :: rest) ↔ P ∈ rest := by
          simp only [List.mem_cons]
          constructor
          · rintro (e | e)
            · exact absurd e.symm hpP
            · exact e
          · exact Or.inr
        simp only [this]

theorem climbToParent_of_not_mem (t : TreeCtrl) (P h : HTREEITEM) (fuel : Nat)
    (hn : h ∉ t.handles) : climbToParent t P (fuel + 1) h = some none := by
  simp only [climbToParent, TreeView_GetParent_eq, TreeCtrl.pathTo_eq_none h t hn]

theorem TreeCtrl.not_mem_handles_of_findNode_none (h : HTREEITEM) (t : TreeCtrl)
    (hf : t.findNode h = none) : h ∉ t.handles := by
  induction t with
  | nil => simp [TreeCtrl.handles, TreeCtrl.items]
  | node a c n ihc ihn =>
    simp only [TreeCtrl.findNode] at hf
    by_cases ha : a.hItem = h
    · simp [ha] at hf
    · simp only [ha, if_false] at hf
      cases hc : TreeCtrl.findNode h c with
      | some r => simp [hc] at hf
      | none =>
        simp only [hc] at hf
        rw [TreeCtrl.handles_node]
        simp only [List.mem_cons, List.mem_append, not_or]
        exact ⟨fun e => ha e.symm, ihc hc, ihn hf⟩

theorem TreeCtrl.descendants_node (a : TVITEMEX) (c n : TreeCtrl) (P : HTREEITEM) :
    (TreeCtrl.node a c n).descendants P
      = if a.hItem = P then c.handles
        else if (c.findNode P).isSome then c.descendants P else n.descendants P := by
  unfold TreeCtrl.descendants
  simp only [TreeCtrl.findNode]
  by_cases ha : a.hItem = P
  · simp [ha, TreeCtrl.childOf]
  · simp only [ha, if_false]
    cases hc : TreeCtrl.findNode P c with
    | some r => simp
    | none => simp

theorem TreeCtrl.descendants_subset (t : TreeCtrl) (P : HTREEITEM) :
    ∀ x ∈ t.descendants P, x ∈ t.handles := by
  intro x hx
  unfold TreeCtrl.descendants at hx
  cases hf : t.findNode P with
  | none => simp [hf] at hx
  | some r =>
    simp only [hf] at hx
    simp only [TreeCtrl.handles, List.mem_map] at hx ⊢
    obtain ⟨it, hit, rfl⟩ := hx
    exact ⟨it, TreeCtrl.mem_items_of_findNode P t r hf it (TreeCtrl.mem_items_childOf r it hit),
      rfl⟩

/-- With distinct handles, `P` is on the way from `h` up to the root exactly when
`h` lies below `P`. -/
theorem TreeCtrl.mem_pathTo_iff (t : TreeCtrl) (hnd : t.handles.Nodup) (P h : HTREEITEM)
    (r : List HTREEITEM) (hp : t.pathTo h = some r) : P ∈ r ↔ h ∈ t.descendants P := by
  induction t generalizing r with
  | nil => simp [TreeCtrl.pathTo] at hp
  | node a c n ihc ihn =>
    rw [TreeCtrl.handles_node] at hnd
    have hnd1 := (List.nodup_cons.1 hnd).1
    have hnd2 := (List.nodup_cons.1 hnd).2
    have hdis := List.nodup_append.1 hnd2
    have hac : a.hItem ∉ c.handles := fun hx => hnd1 (List.mem_append_left _ hx)
    have han : a.hItem ∉ n.handles := fun hx => hnd1 (List.mem_append_right _ hx)
    rw [TreeCtrl.descendants_node]
    simp only [TreeCtrl.pathTo] at hp
    by_cases ha : a.hItem = h
    · simp only [ha, if_true, Option.some.injEq] at hp
      subst hp
      subst ha
      simp only [List.not_mem_nil, false_iff]
      split
      · exact hac
      · split
        · exact fun hx => hac (TreeCtrl.descendants_subset c P _ hx)
        · exact fun hx => han (TreeCtrl.descendants_subset n P _ hx)
    · simp only [ha, if_false] at hp
      cases hc : TreeCtrl.pathTo h c with
      | some r2 =>
        simp only [hc, Option.some.injEq] at hp
        subst hp
        have hhc : h ∈ c.handles := TreeCtrl.mem_handles_of_pathTo h c r2 hc
        by_cases haP : a.hItem = P
        · simp [haP, hhc]
        · simp only [haP, if_false, List.mem_append, List.mem_singleton]
          have hne : ¬ P = a.hItem := fun e => haP e.symm
          simp only [hne, or_false]
          cases hfc : TreeCtrl.findNode P c with
          | some sub =>
            simp only [Option.isSome_some, if_true]
            exact ihc hdis.1 r2 hc
          | none =>
            simp only [Option.isSome_none, Bool.false_eq_true, if_false]
            have h1 : P ∉ r2 := by
              intro hx
              exact TreeCtrl.not_mem_handles_of_findNode_none P c hfc
                (TreeCtrl.pathTo_subset h c r2 hc P hx)
            have h2 : h ∉ n.descendants P :=
              fun hx => hdis.2.2 hhc (TreeCtrl.descendants_subset n P _ hx)
            simp [h1, h2]
      | none =>
        simp only [hc] at hp
        have hhn : h ∈ n.handles := TreeCtrl.mem_handles_of_pathTo h n r hp
        have hhc : h ∉ c.handles := fun hx => hdis.2.2 hx hhn
        by_cases haP : a.hItem = P
        · simp only [haP, if_true]
          have h1 : P ∉ r := by
            intro hx
            apply han
            rw [haP]
            exact TreeCtrl.pathTo_subset h n r hp P hx
          simp [h1, hhc]
        · simp only [haP, if_false]
          cases hfc : TreeCtrl.findNode P c with
          | some sub =>
            simp only [Option.isSome_some, if_true]
            have h1 : P ∉ r := by
              intro hx
              exact hdis.2.2 (TreeCtrl.mem_handles_of_findNode P c sub hfc)
                (TreeCtrl.pathTo_subset h n r hp P hx)
            have h2 : h ∉ c.descendants P :=
              fun hx => hhc (TreeCtrl.descendants_subset c P _ hx)
            simp [h1, h2]
          | none =>
            simp only [Option.isSome_none, Bool.false_eq_true, if_false]
            exact ihn hdis.2.1 r hp

theorem TreeCtrl.pathTo_of_mem (h : HTREEITEM) (t : TreeCtrl) (hm : h ∈ t.handles) :
    ∃ r, t.pathTo h = some r := by
  induction t with
  | nil => simp [TreeCtrl.handles, TreeCtrl.items] at hm
  | node a c n ihc ihn =>
    simp only [TreeCtrl.pathTo]
    by_cases ha : a.hItem = h
    · exact ⟨[], by simp [ha]⟩
    · simp only [ha, if_false]
      cases hc : TreeCtrl.pathTo h c with
      | some r2 => exact ⟨_, rfl⟩
      | none =>
        rw [TreeCtrl.handles_node] at hm
        simp only [List.mem_cons, List.mem_append] at hm
        rcases hm with hm | hm | hm
        · exact absurd hm.symm ha
        · obtain ⟨r, hr⟩ := ihc hm
          rw [hr] at hc
          cases hc
        · exact ihn hm

/-- The loop of `OnItemExpanding` ends within the fuel it is given and finds `P`
exactly when the node it starts from lies below `P`. -/
theorem climbToParent_descendant (t : TreeCtrl) (hnd : t.handles.Nodup) (P h : HTREEITEM) :
    climbToParent t P (t.items.length + 1) h
      = some (if h ∈ t.descendants P then some P else none) := by
  by_cases hm : h ∈ t.handles
  · obtain ⟨r, hr⟩ := TreeCtrl.pathTo_of_mem h t hm
    rw [climbToParent_eq t hnd P r h _ hr (Nat.lt_succ_of_lt (TreeCtrl.pathTo_length h t r hr))]
    simp only [TreeCtrl.mem_pathTo_iff t hnd P h r hr]
  · rw [climbToParent_of_not_mem t P h _ hm]
    have : h ∉ t.descendants P := fun hx => hm (TreeCtrl.descendants_subset t P _ hx)
    simp [this]

/-! ## Collapse -/

theorem StdMap.at_erase_of_ne {V : Type} (m : StdMap V) (k k2 : Int) (hne : k ≠ k2) :
    StdMap.at_ (StdMap.erase m k2) k = StdMap.at_ m k := by
  induction m with
  | nil => rfl
  | cons e m ih =>
    unfold StdMap.at_ StdMap.erase at *
    rw [List.filter_cons]
    by_cases h : e.1 = k2
    · have h2 : (k == e.1) = false := by
        rw [h]
        simpa using hne
      simp only [h, bne_self_eq_false, Bool.false_eq_true, if_false, List.lookup]
      rw [← h, h2]
      simpa [h] using ih
    · simp only [bne_iff_ne, ne_eq, h, not_false_eq_true, if_true, List.lookup]
      cases (k == e.1)
      · exact ih
      · rfl

theorem removeFromInternalMap_at (m : StdMap ItemInfo) (t : TreeCtrl) (k : Int)
    (hk : k ∉ t.items.map (fun it => it.lParam)) :
    StdMap.at_ (removeFromInternalMap m t) k = StdMap.at_ m k := by
  induction t generalizing m with
  | nil => rfl
  | node a c n ihc ihn =>
    simp only [TreeCtrl.items, List.map_cons, List.map_append, List.mem_cons, List.mem_append,
      not_or] at hk
    obtain ⟨h1, h2, h3⟩ := hk
    simp only [removeFromInternalMap]
    rw [ihn _ h3, StdMap.at_erase_of_ne _ _ _ h1]
    split
    · exact ihc m h2
    · rfl

theorem TreeCtrl.findNode_sublist (h : HTREEITEM) (t : TreeCtrl) (it : TVITEMEX)
    (c n2 : TreeCtrl) (hf : t.findNode h = some (TreeCtrl.node it c n2)) :
    List.Sublist (it :: c.items) t.items := by
  induction t with
  | nil => simp [TreeCtrl.findNode] at hf
  | node a c0 n0 ihc ihn =>
    simp only [TreeCtrl.findNode] at hf
    simp only [TreeCtrl.items]
    by_cases ha : a.hItem = h
    · simp only [ha, if_true, Option.some.injEq, TreeCtrl.node.injEq] at hf
      obtain ⟨h1, h2, _⟩ := hf
      subst h1 h2
      exact List.Sublist.cons₂ _ (List.sublist_append_left _ _)
    · simp only [ha, if_false] at hf
      cases hc : TreeCtrl.findNode h c0 with
      | some r =>
        simp only [hc, Option.some.injEq] at hf
        subst hf
        exact List.Sublist.cons _ ((ihc hc).trans (List.sublist_append_left _ _))
      | none =>
        simp only [hc] at hf
        exact List.Sublist.cons _ ((ihn hf).trans (List.sublist_append_right _ _))

theorem TreeView_GetItem_node (a : TVITEMEX) (c n : TreeCtrl) (h : HTREEITEM) :
    TreeView_GetItem (TreeCtrl.node a c n) h
      = if a.hItem = h then some a
        else match TreeView_GetItem c h with
          | some x => some x
          | none => TreeView_GetItem n h := by
  unfold TreeView_GetItem
  simp only [TreeCtrl.findNode]
  by_cases ha : a.hItem = h
  · simp [ha, TreeCtrl.itemOf]
  · simp only [ha, if_false]
    cases hc : TreeCtrl.findNode h c with
    | some r =>
      obtain ⟨it, c2, n2, rfl, _⟩ := TreeCtrl.findNode_handle h c r hc
      simp [TreeCtrl.itemOf]
    | none => simp

theorem TreeView_GetItem_deleteChildren_self (t : TreeCtrl) (P : HTREEITEM) :
    TreeView_GetItem (t.deleteChildren P) P = TreeView_GetItem t P := by
  induction t with
  | nil => rfl
  | node a c n ihc ihn =>
    simp only [TreeCtrl.deleteChildren]
    by_cases ha : a.hItem = P
    · simp [ha, TreeView_GetItem_node]
    · simp only [ha, if_false, TreeView_GetItem_node, ihc, ihn]

/-- The tail of the collapse branch of `OnItemExpanding`: with distinct client
data in the tree and the record of `P` in the registry, the lookup of `P` after
the removal of its children succeeds. -/
theorem GetItemByHandle_after_collapse (s : State) (P : HTREEITEM)
    (hkeys : (s.tree.items.map (fun it => it.lParam)).Nodup)
    (hP : (GetItemByHandle s P).isSome = true) :
    (GetItemByHandle
      { RemoveChildrenFromInternalMap s P with
        tree := (RemoveChildrenFromInternalMap s P).tree.deleteChildren P } P).isSome = true := by
  unfold GetItemByHandle GetItemInternalIndex at hP ⊢
  unfold RemoveChildrenFromInternalMap
  cases hf : s.tree.findNode P with
  | none =>
    simp only [TreeView_GetItem, hf] at hP
    simp at hP
  | some r =>
    obtain ⟨it, c, n, rfl, hh⟩ := TreeCtrl.findNode_handle P s.tree r hf
    simp only [TreeView_GetItem_deleteChildren_self]
    have hget : TreeView_GetItem s.tree P = some it := by
      simp [TreeView_GetItem, hf, TreeCtrl.itemOf]
    rw [hget] at hP ⊢
    simp only [Option.map_some', Option.some_bind, TreeCtrl.childOf] at hP ⊢
    have hsub := TreeCtrl.findNode_sublist P s.tree it c n hf
    have hnd2 : ((it :: c.items).map (fun it => it.lParam)).Nodup :=
      List.Nodup.sublist (List.Sublist.map _ hsub) hkeys
    simp only [List.map_cons, List.nodup_cons] at hnd2
    rw [removeFromInternalMap_at _ _ _ hnd2.1]
    exact hP

/-- C11: on a collapse request for the node `P` (any action other than
`TVE_EXPAND`) in a tree with distinct handles and distinct client data, with
the record of `P` in the registry, `OnItemExpanding` returns a state; in it the
selection is `P` when the selected node was a strict descendant of `P`, and is
unchanged when there was no selection or the selected node was `P` itself or a
node outside the subtree of `P`. -/
theorem OnItemExpanding_collapse_selection (env : Env) (s : State) (P : HTREEITEM)
    (action : Nat) (haction : action ≠ TVE_EXPAND)
    (hnd : s.tree.handles.Nodup)
    (hkeys : (s.tree.items.map (fun it => it.lParam)).Nodup)
    (hP : (GetItemByHandle s P).isSome = true) :
    ∃ s2, OnItemExpanding env s P action = some s2
      ∧ s2.selection
        = match s.selection with
          | none => none
          | some hSelection =>
            if hSelection ∈ s.tree.descendants P then some P else some hSelection := by
  have hPmem : P ∈ s.tree.handles := by
    unfold GetItemByHandle GetItemInternalIndex TreeView_GetItem at hP
    cases hf : s.tree.findNode P with
    | none => simp [hf] at hP
    | some r => exact TreeCtrl.mem_handles_of_findNode P s.tree r hf
  have tail : ∀ s1 : State, s1.tree = s.tree → s1.m_itemInfoMap = s.m_itemInfoMap →
      ∃ s2, (match GetItemByHandle
                { RemoveChildrenFromInternalMap s1 P with
                  tree := (RemoveChildrenFromInternalMap s1 P).tree.deleteChildren P } P with
              | none => none
              | some _ => some
                { RemoveChildrenFromInternalMap s1 P with
                  tree := (RemoveChildrenFromInternalMap s1 P).tree.deleteChildren P })
            = some s2 ∧ s2.selection = s1.selection := by
    intro s1 ht hm
    have hk1 : (s1.tree.items.map (fun it => it.lParam)).Nodup := by rw [ht]; exact hkeys
    have hP1 : (GetItemByHandle s1 P).isSome = true := by
      unfold GetItemByHandle GetItemInternalIndex at hP ⊢
      rw [ht, hm]
      exact hP
    have h := GetItemByHandle_after_collapse s1 P hk1 hP1
    cases hg : GetItemByHandle
        { RemoveChildrenFromInternalMap s1 P with
          tree := (RemoveChildrenFromInternalMap s1 P).tree.deleteChildren P } P with
    | none => rw [hg] at h; cases h
    | some info =>
      refine ⟨_, rfl, ?_⟩
      unfold RemoveChildrenFromInternalMap
      cases s1.tree.findNode P <;> rfl
  unfold OnItemExpanding
  simp only [haction, if_false]
  cases hsel : s.selection with
  | none =>
    simp only []
    obtain ⟨s2, h1, h2⟩ := tail s rfl rfl
    exact ⟨s2, h1, by rw [h2, hsel]⟩
  | some hSelection =>
    simp only [climbToParent_descendant s.tree hnd P hSelection]
    by_cases hd : hSelection ∈ s.tree.descendants P
    · simp only [hd, if_true]
      obtain ⟨s2, h1, h2⟩ := tail (TreeView_SelectItem s P)
        (by unfold TreeView_SelectItem; split <;> rfl)
        (by unfold TreeView_SelectItem; split <;> rfl)
      refine ⟨s2, h1, ?_⟩
      rw [h2]
      simp [TreeView_SelectItem, hPmem]
    · simp only [hd, if_false]
      have hne : ¬ ((none : Option HTREEITEM) = some P) := by simp
      simp only [hne, if_false]
      obtain ⟨s2, h1, h2⟩ := tail s rfl rfl
      exact ⟨s2, h1, by rw [h2, hsel]⟩

theorem OnItemExpanding_collapse_selection_witness :
    TVE_COLLAPSE ≠ TVE_EXPAND
    ∧ exDeepState.tree.handles.Nodup
    ∧ (exDeepState.tree.items.map (fun it => it.lParam)).Nodup
    ∧ (GetItemByHandle exDeepState 2).isSome = true
    ∧ exDeepState.selection = some 3
    ∧ exDeepState.tree.descendants 2 = [3]
    ∧ ∃ s2, OnItemExpanding (exEnv exFoldersGrown) exDeepState 2 TVE_COLLAPSE = some s2
        ∧ s2.selection = some 2 :=
  ⟨by decide, by decide, by decide, by decide, by decide, by decide,
   OnItemExpanding_collapse_selection (exEnv exFoldersGrown) exDeepState 2 TVE_COLLAPSE
     (by decide) (by decide) (by decide) (by decide)⟩

/-- C12 (the code breaks it): in the state of `exLeakBeforeCollapse` the strict
descendants of the root (handle 1) carry the client data 1 and 2, the node with
client data 1 having the children flag 0; after
`RemoveChildrenFromInternalMap` on the root the registry still holds key 2, the
record of a descendant two levels down. -/
theorem descendant_record_survives_collapse :
    exLeakBeforeCollapse.map (fun s =>
        (s.tree.items.map (fun it => (it.hItem, it.lParam, it.cChildren)),
          s.tree.descendantParams 1,
          (RemoveChildrenFromInternalMap s 1).m_itemInfoMap.keys))
      = some ([(1, 0, 1), (2, 1, 0), (3, 2, -1)], [1, 2], [0, 2]) := by
  decide

/-! ## Rename -/

/-- C13: a label edit whose text is null or has length 0 makes `OnEndLabelEdit`
return false without any call: `RenameFiles` is not invoked, whatever the item. -/
theorem OnEndLabelEdit_empty_rejected (env : Env) (api : PathApi) (s : State)
    (hItem : HTREEITEM) (pszText : Option String)
    (hempty : pszText = none ∨ ∃ text, pszText = some text ∧ text.length = 0) :
    OnEndLabelEdit env api s hItem pszText = some (false, []) := by
  rcases hempty with rfl | ⟨text, rfl, hlen⟩
  · rfl
  · simp [OnEndLabelEdit, hlen]

theorem OnEndLabelEdit_empty_rejected_witness :
    ((some "" : Option String) = none ∨ ∃ text, some "" = some text ∧ text.length = 0)
    ∧ OnEndLabelEdit (exEnv exSiblingFolders) exPathApi exSiblingState 3 (some "")
        = some (false, [])
    ∧ OnEndLabelEdit (exEnv exSiblingFolders) exPathApi exSiblingState 3 none
        = some (false, []) :=
  ⟨Or.inr ⟨"", rfl, rfl⟩,
   OnEndLabelEdit_empty_rejected (exEnv exSiblingFolders) exPathApi exSiblingState 3 (some "")
     (Or.inr ⟨"", rfl, rfl⟩),
   OnEndLabelEdit_empty_rejected (exEnv exSiblingFolders) exPathApi exSiblingState 3 none
     (Or.inl rfl)⟩

theorem StringCchCopy_of_fits (cchDest : Nat) (src : String)
    (h : (toWide src).length < cchDest) : StringCchCopy cchDest src = toWide src := by
  unfold StringCchCopy
  exact List.take_of_length_le (by omega)

/-- The buffer counts UTF-16 code units, not characters: in `exAstralText` the
character outside the basic plane takes two elements, and the cut can fall
between them. -/
theorem StringCchCopy_counts_units :
    exAstralText.length = 3
    ∧ toWide exAstralText = [97, 0xD83D, 0xDE00, 98]
    ∧ StringCchCopy 5 exAstralText = [97, 0xD83D, 0xDE00, 98]
    ∧ StringCchCopy 4 exAstralText = [97, 0xD83D, 0xDE00]
    ∧ StringCchCopy 3 exAstralText = [97, 0xD83D] := by
  refine ⟨by decide, by decide, by decide, by decide, by decide⟩

theorem TrimStringRight_last (str : List Nat) (strWhitespace : String) (u : Nat)
    (hu : (toWide strWhitespace).contains u = true) :
    (TrimStringRight str strWhitespace).getLast? ≠ some u := by
  unfold TrimStringRight
  rw [List.getLast?_reverse]
  have h := List.head?_dropWhile_not (fun u => (toWide strWhitespace).contains u) str.reverse
  intro he
  rw [he] at h
  simp only [] at h
  rw [hu] at h
  cases h

/-- While the parsing path fits the buffer (fewer than `MAX_PATH` code units),
`OnEndLabelEdit` hands `RenameFiles` the path as old name and, as new name, what
`PathAppend` makes of the path without its file part and the text, trailing
spaces removed. -/
theorem OnEndLabelEdit_of_fits (env : Env) (api : PathApi) (s : State)
    (hItem : HTREEITEM) (text old : String) (joined : List Nat) (itemInfo : ItemInfo)
    (htext : text.length ≠ 0)
    (hitem : GetItemByHandle s hItem = some itemInfo)
    (hold : env.shell.GetDisplayName itemInfo.pidl SHGDN.FORPARSING = some old)
    (hfits : (toWide old).length < MAX_PATH)
    (hjoin : api.PathAppend (api.PathRemoveFileSpec (toWide old)) (toWide text) = some joined) :
    OnEndLabelEdit env api s hItem (some text)
      = some (true,
          [Call.RenameFiles
            [{ strOldFilename := toWide old, strNewFilename := TrimStringRight joined " " }]])
    ∧ (TrimStringRight joined " ").getLast? ≠ some 32 := by
  refine ⟨?_, TrimStringRight_last joined " " 32 (by decide)⟩
  simp only [OnEndLabelEdit, htext, if_false, hitem, GetDisplayName, hold,
    StringCchCopy_of_fits MAX_PATH old hfits, hjoin]
  simp [FAILED, S_OK]

set_option maxRecDepth 1000000 in
/-- C14 (the code breaks it): the item of the node with handle 2 has the parsing
path `exLongPath` of 277 code units, `C:\`, a folder name of 270 letters and
`\old`.  The edit to `new` makes `OnEndLabelEdit` return true and call
`RenameFiles` once, with the path as old name and `C:\new` as new name: the
copy of the path was cut to the 259 code units the buffer holds before its
file part was removed.  The old path with its final segment replaced by the
text is a path of 277 code units in the same folder, not `C:\new`. -/
theorem OnEndLabelEdit_long_path_cut :
    OnEndLabelEdit (exEnv exLongFolders) exPathApi exDeepState 2 (some "new")
      = some (true,
          [Call.RenameFiles
            [{ strOldFilename := toWide exLongPath, strNewFilename := toWide "C:\\new" }]])
    ∧ (toWide exLongPath).length = 277
    ∧ (StringCchCopy MAX_PATH exLongPath).length = 259
    ∧ exJoin (exRemoveFileSpec (toWide exLongPath)) (toWide "new")
        = toWide "C:\\" ++ List.replicate 270 97 ++ toWide "\\new"
    ∧ exJoin (exRemoveFileSpec (toWide exLongPath)) (toWide "new") ≠ toWide "C:\\new" := by
  refine ⟨by decide, by decide, by decide, by decide, by decide⟩

/-! ## Paste -/

/-- C15 (fails as stated): the clipboard can be read and its content is not
shell-pasteable, but the parsing path of the selected item does not resolve
(the folder has left the namespace): `Paste` invokes neither the shell paste
nor the manual copy. -/
theorem Paste_without_path_invokes_nothing :
    SUCCEEDED exClipboardNotPasteable.OleGetClipboard.1 = true
    ∧ exOrphanState.selection.bind (GetItemByHandle exOrphanState) = some { pidl := [9] }
    ∧ exClipboardNotPasteable.CanShellPasteDataObject [9] 21
        (DROPEFFECT_COPY ||| DROPEFFECT_MOVE) = false
    ∧ (exEnv exFolders).shell.GetDisplayName [9] SHGDN.FORPARSING = none
    ∧ Paste (exEnv exFolders) exClipboardNotPasteable exOrphanState = some [] := by
  decide

/-- C15 (amended): with a selected item whose record is in the registry, `Paste`
makes no call when the clipboard cannot be read; when it can be read, it invokes
the shell action `paste` on the item and nothing else if the content is
shell-pasteable onto it; otherwise it invokes `CopyClipboardData` with the
clipboard object and the parsing path of the item and nothing else if that path
resolves, and makes no call if it does not.  It never makes more than one call. -/
theorem Paste_dispatch (env : Env) (clip : ClipboardApi) (s : State) (item : HTREEITEM)
    (selectedItem : ItemInfo)
    (hsel : s.selection = some item)
    (hitem : GetItemByHandle s item = some selectedItem) :
    (FAILED clip.OleGetClipboard.1 = true → Paste env clip s = some [])
    ∧ (FAILED clip.OleGetClipboard.1 = false →
        clip.CanShellPasteDataObject selectedItem.pidl clip.OleGetClipboard.2
          (DROPEFFECT_COPY ||| DROPEFFECT_MOVE) = true →
        Paste env clip s = some [Call.ExecuteActionFromContextMenu selectedItem.pidl "paste" 0])
    ∧ (∀ destinationPath, FAILED clip.OleGetClipboard.1 = false →
        clip.CanShellPasteDataObject selectedItem.pidl clip.OleGetClipboard.2
          (DROPEFFECT_COPY ||| DROPEFFECT_MOVE) = false →
        env.shell.GetDisplayName selectedItem.pidl SHGDN.FORPARSING = some destinationPath →
        Paste env clip s = some [Call.CopyClipboardData clip.OleGetClipboard.2 destinationPath])
    ∧ (FAILED clip.OleGetClipboard.1 = false →
        clip.CanShellPasteDataObject selectedItem.pidl clip.OleGetClipboard.2
          (DROPEFFECT_COPY ||| DROPEFFECT_MOVE) = false →
        env.shell.GetDisplayName selectedItem.pidl SHGDN.FORPARSING = none →
        Paste env clip s = some [])
    ∧ ∃ calls, Paste env clip s = some calls ∧ calls.length ≤ 1 := by
  have hb : s.selection.bind (GetItemByHandle s) = some selectedItem := by
    rw [hsel]; exact hitem
  refine ⟨?_, ?_, ?_, ?_, ?_⟩
  · intro h1
    simp [Paste, h1]
  · intro h1 h2
    simp [Paste, h1, hb, h2]
  · intro destinationPath h1 h2 h3
    simp [Paste, h1, hb, h2, GetDisplayName, h3, (by decide : FAILED S_OK = false)]
  · intro h1 h2 h3
    simp [Paste, h1, hb, h2, GetDisplayName, h3, (by decide : FAILED E_FAIL = true)]
  · unfold Paste
    simp only [hb]
    split
    · exact ⟨_, rfl, by simp⟩
    · split
      · exact ⟨_, rfl, by simp⟩
      · split
        · exact ⟨_, rfl, by simp⟩
        · exact ⟨_, rfl, by simp⟩

theorem Paste_dispatch_witness :
    ({ exSiblingState with selection := some 3 } : State).selection = some 3
    ∧ GetItemByHandle { exSiblingState with selection := some 3 } 3 = some { pidl := [2] }
    ∧ FAILED exClipboardUnreadable.OleGetClipboard.1 = true
    ∧ Paste (exEnv exSiblingFolders) exClipboardUnreadable
        { exSiblingState with selection := some 3 } = some []
    ∧ FAILED exClipboardPasteable.OleGetClipboard.1 = false
    ∧ Paste (exEnv exSiblingFolders) exClipboardPasteable
        { exSiblingState with selection := some 3 }
        = some [Call.ExecuteActionFromContextMenu [2] "paste" 0]
    ∧ (exEnv exSiblingFolders).shell.GetDisplayName [2] SHGDN.FORPARSING
        = some "C:\\Users\\Alpha"
    ∧ Paste (exEnv exSiblingFolders) exClipboardNotPasteable
        { exSiblingState with selection := some 3 }
        = some [Call.CopyClipboardData 21 "C:\\Users\\Alpha"] :=
  ⟨by decide, by decide, by decide,
   (Paste_dispatch (exEnv exSiblingFolders) exClipboardUnreadable
      { exSiblingState with selection := some 3 } 3 { pidl := [2] } (by decide)
      (by decide)).1 (by decide),
   by decide,
   (Paste_dispatch (exEnv exSiblingFolders) exClipboardPasteable
      { exSiblingState with selection := some 3 } 3 { pidl := [2] } (by decide)
      (by decide)).2.1 (by decide) (by decide),
   by decide,
   (Paste_dispatch (exEnv exSiblingFolders) exClipboardNotPasteable
      { exSiblingState with selection := some 3 } 3 { pidl := [2] } (by decide)
      (by decide)).2.2.1 "C:\\Users\\Alpha" (by decide) (by decide) (by decide)⟩

/-- C16 (fails as stated): the clipboard content is not shell-pasteable onto the
selected folder `Alpha`, and `Paste` is not aborted: it invokes
`CopyClipboardData` with the clipboard object and the path of the folder. -/
theorem Paste_not_pasteable_copies :
    exClipboardNotPasteable.CanShellPasteDataObject [2] 21
        (DROPEFFECT_COPY ||| DROPEFFECT_MOVE) = false
    ∧ GetItemByHandle { exSiblingState with selection := some 3 } 3 = some { pidl := [2] }
    ∧ Paste (exEnv exSiblingFolders) exClipboardNotPasteable
        { exSiblingState with selection := some 3 }
        = some [Call.CopyClipboardData 21 "C:\\Users\\Alpha"]
    ∧ Paste (exEnv exSiblingFolders) exClipboardNotPasteable
        { exSiblingState with selection := some 3 } ≠ some [] := by
  decide

/-- C16 (amended): `Paste` is aborted without any call when the clipboard cannot
be read, and when the content is not shell-pasteable onto the selected item and
the parsing path of the item does not resolve; when the content is not
shell-pasteable and the path resolves, the call made is the copy of the
clipboard data to that path, never the shell paste. -/
theorem Paste_abort_cases (env : Env) (clip : ClipboardApi) (s : State)
    (selectedItem : ItemInfo)
    (hitem : s.selection.bind (GetItemByHandle s) = some selectedItem)
    (hnot : clip.CanShellPasteDataObject selectedItem.pidl clip.OleGetClipboard.2
      (DROPEFFECT_COPY ||| DROPEFFECT_MOVE) = false) :
    (FAILED clip.OleGetClipboard.1 = true → Paste env clip s = some [])
    ∧ (FAILED clip.OleGetClipboard.1 = false →
        env.shell.GetDisplayName selectedItem.pidl SHGDN.FORPARSING = none →
        Paste env clip s = some [])
    ∧ (∀ destinationPath, FAILED clip.OleGetClipboard.1 = false →
        env.shell.GetDisplayName selectedItem.pidl SHGDN.FORPARSING = some destinationPath →
        Paste env clip s = some [Call.CopyClipboardData clip.OleGetClipboard.2 destinationPath])
    ∧ ∀ calls pidl action mask, Paste env clip s = some calls →
        Call.ExecuteActionFromContextMenu pidl action mask ∉ calls := by
  refine ⟨?_, ?_, ?_, ?_⟩
  · intro h1
    simp [Paste, h1]
  · intro h1 h3
    simp [Paste, h1, hitem, hnot, GetDisplayName, h3, (by decide : FAILED E_FAIL = true)]
  · intro destinationPath h1 h3
    simp [Paste, h1, hitem, hnot, GetDisplayName, h3, (by decide : FAILED S_OK = false)]
  · intro calls pidl action mask hp
    unfold Paste at hp
    simp only [hitem, hnot, Bool.false_eq_true, if_false] at hp
    split at hp
    · cases hp
      simp
    · split at hp
      · cases hp
        simp
      · cases hp
        simp

theorem Paste_abort_cases_witness :
    exOrphanState.selection.bind (GetItemByHandle exOrphanState) = some { pidl := [9] }
    ∧ exClipboardNotPasteable.CanShellPasteDataObject [9] 21
        (DROPEFFECT_COPY ||| DROPEFFECT_MOVE) = false
    ∧ FAILED exClipboardNotPasteable.OleGetClipboard.1 = false
    ∧ (exEnv exFolders).shell.GetDisplayName [9] SHGDN.FORPARSING = none
    ∧ Paste (exEnv exFolders) exClipboardNotPasteable exOrphanState = some [] :=
  ⟨by decide, by decide, by decide, by decide,
   (Paste_abort_cases (exEnv exFolders) exClipboardNotPasteable exOrphanState { pidl := [9] }
      (by decide) (by decide)).2.1 (by decide) (by decide)⟩

/-! ## Drag -/

theorem and_seven (a : Nat) :
    a &&& 7 = a % 8 ∧ a &&& 1 = (a % 8) &&& 1 ∧ a &&& 2 = (a % 8) &&& 2
      ∧ a &&& 4 = (a % 8) &&& 4 := by
  have h7 : a &&& 7 = a % 8 := Nat.and_pow_two_sub_one_eq_mod a 3
  have h1 : (7 &&& 1 : Nat) = 1 := by decide
  have h2 : (7 &&& 2 : Nat) = 2 := by decide
  have h4 : (7 &&& 4 : Nat) = 4 := by decide
  refine ⟨h7, ?_, ?_, ?_⟩
  · rw [← h7, Nat.and_assoc, h1]
  · rw [← h7, Nat.and_assoc, h2]
  · rw [← h7, Nat.and_assoc, h4]

theorem WI_AreAllFlagsClear_can (attributes : Nat) :
    WI_AreAllFlagsClear attributes (SFGAO_CANCOPY ||| SFGAO_CANMOVE ||| SFGAO_CANLINK)
      = (!WI_IsFlagSet attributes SFGAO_CANCOPY && !WI_IsFlagSet attributes SFGAO_CANMOVE
          && !WI_IsFlagSet attributes SFGAO_CANLINK) := by
  have h7 : (1 ||| 2 ||| 4 : Nat) = 7 := by decide
  obtain ⟨e7, e1, e2, e4⟩ := and_seven attributes
  simp only [WI_AreAllFlagsClear, WI_IsFlagSet, SFGAO_CANCOPY, SFGAO_CANMOVE, SFGAO_CANLINK,
    h7, e7, e1, e2, e4]
  have hr : attributes % 8 < 8 := Nat.mod_lt _ (by decide)
  generalize attributes % 8 = r at hr
  interval_cases r <;> decide

/-- C18: `AddressBar::OnBeginDrag` calls `SHDoDragDrop` exactly when the attribute
query succeeds, at least one of `SFGAO_CANCOPY`, `SFGAO_CANMOVE`,
`SFGAO_CANLINK` is set and the data object is created; the call is then made
once, on that data object, with a mask that has `DROPEFFECT_COPY`,
`DROPEFFECT_MOVE`, `DROPEFFECT_LINK` set exactly when the matching attribute is
set, has no other bit, and is not 0. -/
theorem AddressBar.OnBeginDrag_allowed_effects (drag : DragApi) (pidlDirectory : PIDL) :
    ((∃ obj e, Call.SHDoDragDrop obj e ∈ AddressBar.OnBeginDrag drag pidlDirectory)
      ↔ (FAILED (drag.GetItemAttributes pidlDirectory
            (SFGAO_CANCOPY ||| SFGAO_CANMOVE ||| SFGAO_CANLINK)).1 = false
          ∧ (WI_IsFlagSet (drag.GetItemAttributes pidlDirectory
                (SFGAO_CANCOPY ||| SFGAO_CANMOVE ||| SFGAO_CANLINK)).2 SFGAO_CANCOPY
              || WI_IsFlagSet (drag.GetItemAttributes pidlDirectory
                (SFGAO_CANCOPY ||| SFGAO_CANMOVE ||| SFGAO_CANLINK)).2 SFGAO_CANMOVE
              || WI_IsFlagSet (drag.GetItemAttributes pidlDirectory
                (SFGAO_CANCOPY ||| SFGAO_CANMOVE ||| SFGAO_CANLINK)).2 SFGAO_CANLINK) = true
          ∧ FAILED (drag.CreateDataObjectForShellTransfer [pidlDirectory]).1 = false))
    ∧ (∀ obj e, Call.SHDoDragDrop obj e ∈ AddressBar.OnBeginDrag drag pidlDirectory →
        obj = (drag.CreateDataObjectForShellTransfer [pidlDirectory]).2
        ∧ WI_IsFlagSet e DROPEFFECT_COPY
            = WI_IsFlagSet (drag.GetItemAttributes pidlDirectory
                (SFGAO_CANCOPY ||| SFGAO_CANMOVE ||| SFGAO_CANLINK)).2 SFGAO_CANCOPY
        ∧ WI_IsFlagSet e DROPEFFECT_MOVE
            = WI_IsFlagSet (drag.GetItemAttributes pidlDirectory
                (SFGAO_CANCOPY ||| SFGAO_CANMOVE ||| SFGAO_CANLINK)).2 SFGAO_CANMOVE
        ∧ WI_IsFlagSet e DROPEFFECT_LINK
            = WI_IsFlagSet (drag.GetItemAttributes pidlDirectory
                (SFGAO_CANCOPY ||| SFGAO_CANMOVE ||| SFGAO_CANLINK)).2 SFGAO_CANLINK
        ∧ e &&& (DROPEFFECT_COPY ||| DROPEFFECT_MOVE ||| DROPEFFECT_LINK) = e
        ∧ e ≠ 0)
    ∧ ((AddressBar.OnBeginDrag drag pidlDirectory).filter (fun call =>
          match call with
          | Call.SHDoDragDrop _ _ => true
          | _ => false)).length ≤ 1 := by
  unfold AddressBar.OnBeginDrag
  simp only [WI_AreAllFlagsClear_can]
  generalize (drag.GetItemAttributes pidlDirectory
    (SFGAO_CANCOPY ||| SFGAO_CANMOVE ||| SFGAO_CANLINK)).1 = hr
  generalize WI_IsFlagSet (drag.GetItemAttributes pidlDirectory
    (SFGAO_CANCOPY ||| SFGAO_CANMOVE ||| SFGAO_CANLINK)).2 SFGAO_CANCOPY = b0
  generalize WI_IsFlagSet (drag.GetItemAttributes pidlDirectory
    (SFGAO_CANCOPY ||| SFGAO_CANMOVE ||| SFGAO_CANLINK)).2 SFGAO_CANMOVE = b1
  generalize WI_IsFlagSet (drag.GetItemAttributes pidlDirectory
    (SFGAO_CANCOPY ||| SFGAO_CANMOVE ||| SFGAO_CANLINK)).2 SFGAO_CANLINK = b2
  generalize (drag.CreateDataObjectForShellTransfer [pidlDirectory]).1 = hd
  generalize (drag.CreateDataObjectForShellTransfer [pidlDirectory]).2 = obj
  cases FAILED hr <;> cases FAILED hd <;> cases b0 <;> cases b1 <;> cases b2 <;>
    simp [WI_IsFlagSet, DROPEFFECT_COPY, DROPEFFECT_MOVE, DROPEFFECT_LINK] <;> decide

theorem AddressBar.OnBeginDrag_allowed_effects_witness :
    Call.SHDoDragDrop 31 5 ∈ AddressBar.OnBeginDrag (exDragApi 5) [1]
    ∧ (31 = ((exDragApi 5).CreateDataObjectForShellTransfer [[1]]).2
        ∧ WI_IsFlagSet 5 DROPEFFECT_COPY
            = WI_IsFlagSet ((exDragApi 5).GetItemAttributes [1]
                (SFGAO_CANCOPY ||| SFGAO_CANMOVE ||| SFGAO_CANLINK)).2 SFGAO_CANCOPY
        ∧ WI_IsFlagSet 5 DROPEFFECT_MOVE
            = WI_IsFlagSet ((exDragApi 5).GetItemAttributes [1]
                (SFGAO_CANCOPY ||| SFGAO_CANMOVE ||| SFGAO_CANLINK)).2 SFGAO_CANMOVE
        ∧ WI_IsFlagSet 5 DROPEFFECT_LINK
            = WI_IsFlagSet ((exDragApi 5).GetItemAttributes [1]
                (SFGAO_CANCOPY ||| SFGAO_CANMOVE ||| SFGAO_CANLINK)).2 SFGAO_CANLINK
        ∧ 5 &&& (DROPEFFECT_COPY ||| DROPEFFECT_MOVE ||| DROPEFFECT_LINK) = 5
        ∧ 5 ≠ 0)
    ∧ AddressBar.OnBeginDrag (exDragApi 0) [] = [] :=
  ⟨by decide,
   (AddressBar.OnBeginDrag_allowed_effects (exDragApi 5) [1]).2.1 31 5 (by decide),
   by decide⟩

/-! ## Delete and the keyboard -/

/-- C19: with a node selected whose record is in the registry,
`DeleteSelectedItem` first moves the caret to the parent of that node (or
removes it when there is none) and then invokes the action `delete` on the
identity of the node that was selected, with `CMIC_MASK_SHIFT_DOWN` set exactly
when `permanent` is true; the key `VK_DELETE` leads to `DeleteSelectedItem` with
`permanent` true exactly when Shift is held. -/
theorem DeleteSelectedItem_reselects_parent (s : State) (permanent : Bool) (item : HTREEITEM)
    (itemInfo : ItemInfo) (hsel : s.selection = some item)
    (hitem : GetItemByHandle s item = some itemInfo) :
    DeleteSelectedItem s permanent
      = some ({ s with selection := TreeView_GetParent s.tree item },
          [Call.TreeView_Select (TreeView_GetParent s.tree item),
           Call.ExecuteActionFromContextMenu itemInfo.pidl "delete"
             (if permanent then CMIC_MASK_SHIFT_DOWN else 0)])
    ∧ WI_IsFlagSet (if permanent then CMIC_MASK_SHIFT_DOWN else 0) CMIC_MASK_SHIFT_DOWN
        = permanent
    ∧ ∀ IsKeyDown : Nat → Bool,
        (OnKeyDown IsKeyDown VK_DELETE).1
          = some (KeyCommand.DeleteSelectedItem (IsKeyDown VK_SHIFT)) := by
  refine ⟨?_, ?_, ?_⟩
  · have hp : GetItemPidl { s with selection := TreeView_GetParent s.tree item } item
        = some itemInfo.pidl := by
      unfold GetItemPidl
      have : GetItemByHandle { s with selection := TreeView_GetParent s.tree item } item
          = GetItemByHandle s item := rfl
      rw [this, hitem]
      rfl
    simp only [DeleteSelectedItem, hsel, Option.some_bind, hp]
  · cases permanent <;> decide
  · intro IsKeyDown
    simp only [OnKeyDown]
    have h1 : ¬ VK_DELETE = 'C'.toNat := by decide
    have h2 : ¬ VK_DELETE = 'X'.toNat := by decide
    have h3 : ¬ VK_DELETE = 'V'.toNat := by decide
    simp only [h1, h2, h3, if_false, if_true]
    cases IsKeyDown VK_SHIFT <;> rfl

theorem DeleteSelectedItem_reselects_parent_witness :
    exDeepState.selection = some 3
    ∧ GetItemByHandle exDeepState 3 = some { pidl := [1, 2] }
    ∧ TreeView_GetParent exDeepState.tree 3 = some 2
    ∧ DeleteSelectedItem exDeepState true
      = some ({ exDeepState with selection := TreeView_GetParent exDeepState.tree 3 },
          [Call.TreeView_Select (TreeView_GetParent exDeepState.tree 3),
           Call.ExecuteActionFromContextMenu [1, 2] "delete"
             (if true then CMIC_MASK_SHIFT_DOWN else 0)]) :=
  ⟨by decide, by decide, by decide,
   (DeleteSelectedItem_reselects_parent exDeepState true 3 { pidl := [1, 2] } (by decide)
      (by decide)).1⟩

/-! ## Item identifiers -/

theorem toInt32_add (x y : Int) : toInt32 (toInt32 x + y) = toInt32 (x + y) := by
  unfold toInt32
  omega

theorem toInt32_of_range (x : Int) (h1 : -2147483648 ≤ x) (h2 : x < 2147483648) :
    toInt32 x = x := by
  unfold toInt32
  omega

theorem toInt32_zero : toInt32 0 = 0 := by
  unfold toInt32
  norm_num

theorem generateIds_eq (n : Nat) :
    ∀ (s : State) (c : Int), s.m_itemIDCounter = toInt32 c →
      (generateIds n s).1 = (List.range n).map (fun (i : Nat) => toInt32 (c + (i : Int))) := by
  induction n with
  | zero => intro s c _; rfl
  | succ n ih =>
    intro s c hc
    have hnext : (GenerateUniqueItemId s).2.m_itemIDCounter = toInt32 (c + 1) := by
      simp only [GenerateUniqueItemId, hc, toInt32_add]
    rw [generateIds, ih _ (c + 1) hnext, List.range_succ_eq_map]
    simp only [List.map_cons, List.map_map, GenerateUniqueItemId, hc, Nat.cast_zero, add_zero]
    congr 1
    apply List.map_congr_left
    intro i _
    simp only [Function.comp, Nat.cast_succ]
    congr 1
    omega

theorem idOfCall_eq (n : Nat) (s : State) (h : s.m_itemIDCounter = 0) :
    idOfCall (n + 1) s = some (toInt32 n) := by
  have h0 : s.m_itemIDCounter = toInt32 0 := by rw [h, toInt32_zero]
  unfold idOfCall
  rw [generateIds_eq (n + 1) s 0 h0, List.range_succ, List.map_append, List.map_singleton,
    List.getLast?_concat, zero_add]

theorem exFreshState_counter : exFreshState.m_itemIDCounter = 0 := rfl

/-- C20 (fails as stated): counted from a state whose counter is 0, call number
2147483649 of `GenerateUniqueItemId` returns -2147483648, not 2147483648, and
call number 4294967297 returns 0 again, the value the first call returned (the
`int` counter wraps around). -/
theorem GenerateUniqueItemId_wraps :
    exFreshState.m_itemIDCounter = 0
    ∧ idOfCall (2147483648 + 1) exFreshState = some (-2147483648)
    ∧ idOfCall (4294967296 + 1) exFreshState = some 0
    ∧ idOfCall (0 + 1) exFreshState = some 0
    ∧ (generateIds 2 exLastIdState).1 = [2147483647, -2147483648] := by
  refine ⟨exFreshState_counter, ?_, ?_, ?_, by decide⟩
  · rw [idOfCall_eq _ _ exFreshState_counter]
    unfold toInt32
    norm_num
  · rw [idOfCall_eq _ _ exFreshState_counter]
    unfold toInt32
    norm_num
  · rw [idOfCall_eq _ _ exFreshState_counter]
    unfold toInt32
    norm_num

/-- C20 (amended): counted from a state whose counter is 0, for every number of
calls up to 2147483648 the calls of `GenerateUniqueItemId` return 0, 1, 2, ... in
this order (call `n` returns `n - 1`), so no value is returned twice: a new
identifier differs from every identifier returned before. -/
theorem GenerateUniqueItemId_sequence (s : State) (n : Nat) (h0 : s.m_itemIDCounter = 0)
    (hn : n ≤ 2147483648) :
    (generateIds n s).1 = (List.range n).map (fun (i : Nat) => (i : Int))
    ∧ (generateIds n s).1.Nodup
    ∧ (∀ k, k < n → idOfCall (k + 1) s = some (k : Int)) := by
  have hs : s.m_itemIDCounter = toInt32 0 := by rw [h0, toInt32_zero]
  have hids : (generateIds n s).1 = (List.range n).map (fun (i : Nat) => (i : Int)) := by
    rw [generateIds_eq n s 0 hs]
    apply List.map_congr_left
    intro i hi
    have hi2 : i < n := List.mem_range.1 hi
    rw [zero_add]
    apply toInt32_of_range <;> omega
  refine ⟨hids, ?_, ?_⟩
  · rw [hids]
    exact List.Nodup.map (fun a b hab => by exact_mod_cast hab) (List.nodup_range n)
  · intro k hk
    rw [idOfCall_eq k s h0, toInt32_of_range (k : Int) (by omega) (by omega)]

theorem GenerateUniqueItemId_sequence_witness :
    exFreshState.m_itemIDCounter = 0
    ∧ (5 : Nat) ≤ 2147483648
    ∧ (generateIds 5 exFreshState).1 = (List.range 5).map (fun (i : Nat) => (i : Int))
    ∧ (generateIds 5 exFreshState).1 = [0, 1, 2, 3, 4] :=
  ⟨exFreshState_counter, by omega,
   (GenerateUniqueItemId_sequence exFreshState 5 exFreshState_counter (by omega)).1, by decide⟩
/-! ## Shutdown -/

/-- C21 (the code breaks it): with two tasks waiting in each pool (`exQueuedSys`), the
destructor of the tree view empties the queue of the icon pool and leaves the
queue of the subfolder pool as it was: both subfolder tasks are still queued,
and each of them posts its message when the pool runs it. -/
theorem destructor_keeps_subfolder_queue :
    exQueuedSys.map (fun sys => sys.pools.m_iconThreadPool.map (fun task => task.iconResultID))
      = some [0, 1]
    ∧ exQueuedSys.map (fun sys => (destructor sys.pools).m_iconThreadPool) = some []
    ∧ exQueuedSys.map (fun sys => (destructor sys.pools).m_subfoldersThreadPool)
      = some [{ subfoldersResultID := 0, item := 3, pidl := [2] },
              { subfoldersResultID := 1, item := 2, pidl := [1] }]
    ∧ exQueuedSys.map (fun sys => (destructor sys.pools).m_subfoldersThreadPool.map
          (fun task => (task.run (exShell exSiblingFolders)).2))
      = some [[Message.WM_APP_SUBFOLDERS_RESULT_READY 0],
              [Message.WM_APP_SUBFOLDERS_RESULT_READY 1]]
    ∧ ∀ pools : Pools,
        (destructor pools).m_subfoldersThreadPool = pools.m_subfoldersThreadPool
        ∧ (destructor pools).m_iconThreadPool = [] := by
  refine ⟨by decide, by decide, by decide, by decide, ?_⟩
  intro pools
  exact ⟨rfl, rfl⟩

/-! ## Applying the results of the background work -/

/-- C22: a present subfolder result with `hasSubfolder` true leaves the tree as it
is; with `hasSubfolder` false the children flag of the nodes with the handle of
the result becomes 0 and no other field of any node changes; apart from the
tree and the entry consumed the state is unchanged.  For every state and id, a
node of the tree after `ProcessSubfoldersResult` is a node of the tree before, as
it was or with the children flag 0: no flag is set to a nonzero value. -/
theorem ProcessSubfoldersResult_only_clears (s : State) (id : Int) (result : SubfoldersResult)
    (hres : s.m_subfoldersResults.find id = some (some result)) :
    (result.hasSubfolder = true → (ProcessSubfoldersResult s id).tree = s.tree)
    ∧ (result.hasSubfolder = false →
        (ProcessSubfoldersResult s id).tree
            = s.tree.mapItem result.item (fun tvItem => { tvItem with cChildren := 0 })
          ∧ (ProcessSubfoldersResult s id).tree.items
            = s.tree.items.map (fun it =>
                if it.hItem = result.item then { it with cChildren := 0 } else it))
    ∧ ProcessSubfoldersResult s id
        = { s with tree := (ProcessSubfoldersResult s id).tree,
                   m_subfoldersResults := s.m_subfoldersResults.erase id }
    ∧ ∀ (s0 : State) (id0 : Int),
        ∀ it2 ∈ (ProcessSubfoldersResult s0 id0).tree.items,
          ∃ it ∈ s0.tree.items, it2 = it ∨ it2 = { it with cChildren := 0 } := by
  refine ⟨?_, ?_, ?_, ?_⟩
  · intro h
    simp [ProcessSubfoldersResult, hres, h]
  · intro h
    have ht : (ProcessSubfoldersResult s id).tree
        = s.tree.mapItem result.item (fun tvItem => { tvItem with cChildren := 0 }) := by
      simp [ProcessSubfoldersResult, hres, h]
    exact ⟨ht, by rw [ht, TreeCtrl.items_mapItem]⟩
  · cases h : result.hasSubfolder <;> simp [ProcessSubfoldersResult, hres, h]
  · intro s0 id0 it2 hm
    unfold ProcessSubfoldersResult at hm
    cases hf : s0.m_subfoldersResults.find id0 with
    | none =>
      rw [hf] at hm
      exact ⟨it2, hm, Or.inl rfl⟩
    | some r =>
      rw [hf] at hm
      cases r with
      | none => exact ⟨it2, hm, Or.inl rfl⟩
      | some res =>
        cases hh : res.hasSubfolder with
        | true =>
          simp only [hh, if_true] at hm
          exact ⟨it2, hm, Or.inl rfl⟩
        | false =>
          simp only [hh, Bool.false_eq_true, if_false, TreeCtrl.items_mapItem,
            List.mem_map] at hm
          obtain ⟨it, hit, he⟩ := hm
          refine ⟨it, hit, ?_⟩
          by_cases hc : it.hItem = res.item
          · rw [if_pos hc] at he
            exact Or.inr he.symm
          · rw [if_neg hc] at he
            exact Or.inl he.symm

theorem ProcessSubfoldersResult_only_clears_witness :
    exPendingState.m_subfoldersResults.find 0 = some (some { item := 1, hasSubfolder := false })
    ∧ (ProcessSubfoldersResult exPendingState 0).tree.items.map
        (fun it => (it.hItem, it.cChildren)) = [(1, 0)]
    ∧ exPendingState.tree.items.map (fun it => (it.hItem, it.cChildren)) = [(1, 1)]
    ∧ (ProcessSubfoldersResult exPendingState 0).tree
        = exPendingState.tree.mapItem 1 (fun tvItem => { tvItem with cChildren := 0 }) :=
  ⟨by decide, by decide, by decide,
   ((ProcessSubfoldersResult_only_clears exPendingState 0 { item := 1, hasSubfolder := false }
      (by decide)).2.1 rfl).1⟩

/-! ## The answer to a display-information request -/

theorem StdMap.insert_of_fresh {V : Type} (m : StdMap V) (k : Int) (v : V)
    (h : StdMap.contains m k = false) : StdMap.insert m k v = m ++ [(k, v)] := by
  simp [StdMap.insert, h]

theorem QueueIconTask_eq (env : Env) (s : State) (item : HTREEITEM) (internalIndex : Int)
    (itemInfo : ItemInfo) (hitem : s.m_itemInfoMap.at_ internalIndex = some itemInfo) :
    QueueIconTask env s item internalIndex
      = some { s with
          m_iconResultIDCounter := toInt32 (s.m_iconResultIDCounter + 1),
          m_iconResults := s.m_iconResults.insert s.m_iconResultIDCounter
            (FindIconAsync env.shell s.m_iconResultIDCounter item internalIndex
              (ILCloneFull itemInfo.pidl)).1 } := by
  simp [QueueIconTask, hitem]

theorem QueueSubfoldersTask_eq (env : Env) (s : State) (item : HTREEITEM) (pidl : PIDL)
    (hpidl : GetItemPidl s item = some pidl) :
    QueueSubfoldersTask env s item
      = some { s with
          m_subfoldersResultIDCounter := toInt32 (s.m_subfoldersResultIDCounter + 1),
          m_subfoldersResults := s.m_subfoldersResults.insert s.m_subfoldersResultIDCounter
            (CheckSubfoldersAsync env.shell s.m_subfoldersResultIDCounter item pidl).1 } := by
  simp [QueueSubfoldersTask, hpidl]

/-- C23: for a node whose item is registered, `OnGetDisplayInfo` returns; when the
image is requested and the icon cache has no entry for the parsing path of the
item, the image and the selected image it returns are the default folder icon;
when the child count is requested it returns `cChildren = 1`.  For each
requested aspect one task is pushed to the pool of that aspect, with the counter
of the matching result store as its id, the store gets one entry under that id
(the value the task yields) and that counter goes up by one; for an aspect not
requested the pool, the store and the counter stay as they are. -/
theorem OnGetDisplayInfo_placeholder (env : Env) (s : State) (pools : Pools)
    (ptvItem : TVITEMEX) (mask : Nat) (itemInfo : ItemInfo) (pidl : PIDL)
    (hitem : s.m_itemInfoMap.at_ ptvItem.lParam = some itemInfo)
    (hpidl : GetItemPidl s ptvItem.hItem = some pidl)
    (hfreshI : s.m_iconResults.contains s.m_iconResultIDCounter = false)
    (hfreshS : s.m_subfoldersResults.contains s.m_subfoldersResultIDCounter = false)
    (hroomI : -2147483648 ≤ s.m_iconResultIDCounter ∧ s.m_iconResultIDCounter < 2147483647)
    (hroomS : -2147483648 ≤ s.m_subfoldersResultIDCounter
      ∧ s.m_subfoldersResultIDCounter < 2147483647) :
    ∃ item2 s2 pools2,
      OnGetDisplayInfo env s ptvItem mask = some (item2, mask ||| TVIF_DI_SETITEM, s2)
      ∧ OnGetDisplayInfo_pool env s pools ptvItem mask = some pools2
      ∧ (WI_IsFlagSet mask TVIF_IMAGE = true → GetCachedIconIndex env s itemInfo = none →
          item2.iImage = s.m_iFolderIcon ∧ item2.iSelectedImage = s.m_iFolderIcon)
      ∧ (WI_IsFlagSet mask TVIF_CHILDREN = true → item2.cChildren = 1)
      ∧ (WI_IsFlagSet mask TVIF_IMAGE = true →
          s2.m_iconResults = s.m_iconResults ++
            [(s.m_iconResultIDCounter,
              (FindIconAsync env.shell s.m_iconResultIDCounter ptvItem.hItem ptvItem.lParam
                (ILCloneFull itemInfo.pidl)).1)]
          ∧ s2.m_iconResultIDCounter = s.m_iconResultIDCounter + 1
          ∧ pools2.m_iconThreadPool = pools.m_iconThreadPool ++
            [{ iconResultID := s.m_iconResultIDCounter, item := ptvItem.hItem,
               internalIndex := ptvItem.lParam, pidl := ILCloneFull itemInfo.pidl }])
      ∧ (WI_IsFlagSet mask TVIF_IMAGE = false →
          s2.m_iconResults = s.m_iconResults
          ∧ s2.m_iconResultIDCounter = s.m_iconResultIDCounter
          ∧ pools2.m_iconThreadPool = pools.m_iconThreadPool)
      ∧ (WI_IsFlagSet mask TVIF_CHILDREN = true →
          s2.m_subfoldersResults = s.m_subfoldersResults ++
            [(s.m_subfoldersResultIDCounter,
              (CheckSubfoldersAsync env.shell s.m_subfoldersResultIDCounter ptvItem.hItem pidl).1)]
          ∧ s2.m_subfoldersResultIDCounter = s.m_subfoldersResultIDCounter + 1
          ∧ pools2.m_subfoldersThreadPool = pools.m_subfoldersThreadPool ++
            [{ subfoldersResultID := s.m_subfoldersResultIDCounter, item := ptvItem.hItem,
               pidl := pidl }])
      ∧ (WI_IsFlagSet mask TVIF_CHILDREN = false →
          s2.m_subfoldersResults = s.m_subfoldersResults
          ∧ s2.m_subfoldersResultIDCounter = s.m_subfoldersResultIDCounter
          ∧ pools2.m_subfoldersThreadPool = pools.m_subfoldersThreadPool)
      ∧ s2 = { s with m_iconResults := s2.m_iconResults,
                      m_iconResultIDCounter := s2.m_iconResultIDCounter,
                      m_subfoldersResults := s2.m_subfoldersResults,
                      m_subfoldersResultIDCounter := s2.m_subfoldersResultIDCounter } := by
  have hI : toInt32 (s.m_iconResultIDCounter + 1) = s.m_iconResultIDCounter + 1 :=
    toInt32_of_range _ (by omega) (by omega)
  have hS : toInt32 (s.m_subfoldersResultIDCounter + 1) = s.m_subfoldersResultIDCounter + 1 :=
    toInt32_of_range _ (by omega) (by omega)
  have hq := QueueIconTask_eq env s ptvItem.hItem ptvItem.lParam itemInfo hitem
  rw [StdMap.insert_of_fresh _ _ _ hfreshI, hI] at hq
  have hqp : QueueIconTask_pool s pools ptvItem.hItem ptvItem.lParam
      = some { pools with
          m_iconThreadPool := pools.m_iconThreadPool ++
            [{ iconResultID := s.m_iconResultIDCounter, item := ptvItem.hItem,
               internalIndex := ptvItem.lParam, pidl := ILCloneFull itemInfo.pidl }] } := by
    simp [QueueIconTask_pool, hitem]
  cases hmI : WI_IsFlagSet mask TVIF_IMAGE <;> cases hmC : WI_IsFlagSet mask TVIF_CHILDREN
  · have h1 : OnGetDisplayInfo env s ptvItem mask = some (ptvItem, mask ||| TVIF_DI_SETITEM, s) := by
      simp [OnGetDisplayInfo, hmI, hmC]
    have h2 : OnGetDisplayInfo_pool env s pools ptvItem mask = some pools := by
      simp [OnGetDisplayInfo_pool, hmI, hmC]
    exact ⟨_, _, _, h1, h2, by simp⟩
  · have hq2 := QueueSubfoldersTask_eq env s ptvItem.hItem pidl hpidl
    rw [StdMap.insert_of_fresh _ _ _ hfreshS, hS] at hq2
    have h1 : OnGetDisplayInfo env s ptvItem mask
        = some ({ ptvItem with cChildren := 1 }, mask ||| TVIF_DI_SETITEM,
            { s with
              m_subfoldersResultIDCounter := s.m_subfoldersResultIDCounter + 1,
              m_subfoldersResults := s.m_subfoldersResults ++
                [(s.m_subfoldersResultIDCounter,
                  (CheckSubfoldersAsync env.shell s.m_subfoldersResultIDCounter ptvItem.hItem
                    pidl).1)] }) := by
      simp only [OnGetDisplayInfo, hmI, hmC, Bool.false_eq_true, if_false, if_true, hq2,
        Option.map_some']
    have h2 : OnGetDisplayInfo_pool env s pools ptvItem mask
        = some { pools with
            m_subfoldersThreadPool := pools.m_subfoldersThreadPool ++
              [{ subfoldersResultID := s.m_subfoldersResultIDCounter, item := ptvItem.hItem,
                 pidl := pidl }] } := by
      simp only [OnGetDisplayInfo_pool, hmI, hmC, Bool.false_eq_true, if_false, if_true,
        QueueSubfoldersTask_pool, hpidl]
    exact ⟨_, _, _, h1, h2, by simp⟩
  · have h1 : OnGetDisplayInfo env s ptvItem mask
        = some ({ ptvItem with
              iImage := (match GetCachedIconIndex env s itemInfo with
                | some cachedIconIndex => ((cachedIconIndex &&& 0x0FFF : Nat) : Int)
                | none => s.m_iFolderIcon),
              iSelectedImage := (match GetCachedIconIndex env s itemInfo with
                | some cachedIconIndex => ((cachedIconIndex &&& 0x0FFF : Nat) : Int)
                | none => s.m_iFolderIcon) },
            mask ||| TVIF_DI_SETITEM,
            { s with
              m_iconResultIDCounter := s.m_iconResultIDCounter + 1,
              m_iconResults := s.m_iconResults ++
                [(s.m_iconResultIDCounter,
                  (FindIconAsync env.shell s.m_iconResultIDCounter ptvItem.hItem ptvItem.lParam
                    (ILCloneFull itemInfo.pidl)).1)] }) := by
      simp only [OnGetDisplayInfo, hmI, hmC, Bool.false_eq_true, if_false, if_true, hitem, hq,
        Option.map_some']
      try rfl
    have h2 : OnGetDisplayInfo_pool env s pools ptvItem mask
        = some { pools with
            m_iconThreadPool := pools.m_iconThreadPool ++
              [{ iconResultID := s.m_iconResultIDCounter, item := ptvItem.hItem,
                 internalIndex := ptvItem.lParam, pidl := ILCloneFull itemInfo.pidl }] } := by
      simp only [OnGetDisplayInfo_pool, hmI, hmC, Bool.false_eq_true, if_false, if_true, hq, hqp]
    refine ⟨_, _, _, h1, h2, ?_, by simp, by simp, by simp, by simp, by simp, rfl⟩
    intro _ hc
    simp [hc]
  · have hq2 := QueueSubfoldersTask_eq env
        { s with m_iconResultIDCounter := s.m_iconResultIDCounter + 1,
                 m_iconResults := s.m_iconResults ++
                  [(s.m_iconResultIDCounter,
                    (FindIconAsync env.shell s.m_iconResultIDCounter ptvItem.hItem ptvItem.lParam
                      (ILCloneFull itemInfo.pidl)).1)] } ptvItem.hItem pidl hpidl
    simp only [] at hq2
    rw [StdMap.insert_of_fresh _ _ _ hfreshS, hS] at hq2
    have h1 : OnGetDisplayInfo env s ptvItem mask
        = some ({ ptvItem with
              iImage := (match GetCachedIconIndex env s itemInfo with
                | some cachedIconIndex => ((cachedIconIndex &&& 0x0FFF : Nat) : Int)
                | none => s.m_iFolderIcon),
              iSelectedImage := (match GetCachedIconIndex env s itemInfo with
                | some cachedIconIndex => ((cachedIconIndex &&& 0x0FFF : Nat) : Int)
                | none => s.m_iFolderIcon),
              cChildren := 1 },
            mask ||| TVIF_DI_SETITEM,
            { s with
              m_iconResultIDCounter := s.m_iconResultIDCounter + 1,
              m_iconResults := s.m_iconResults ++
                [(s.m_iconResultIDCounter,
                  (FindIconAsync env.shell s.m_iconResultIDCounter ptvItem.hItem ptvItem.lParam
                    (ILCloneFull itemInfo.pidl)).1)],
              m_subfoldersResultIDCounter := s.m_subfoldersResultIDCounter + 1,
              m_subfoldersResults := s.m_subfoldersResults ++
                [(s.m_subfoldersResultIDCounter,
                  (CheckSubfoldersAsync env.shell s.m_subfoldersResultIDCounter ptvItem.hItem
                    pidl).1)] }) := by
      simp only [OnGetDisplayInfo, hmI, hmC, Bool.false_eq_true, if_false, if_true, hitem, hq,
        Option.map_some', hq2]
      try rfl
    have hp2 : GetItemPidl
        { s with m_iconResultIDCounter := s.m_iconResultIDCounter + 1,
                 m_iconResults := s.m_iconResults ++
                  [(s.m_iconResultIDCounter,
                    (FindIconAsync env.shell s.m_iconResultIDCounter ptvItem.hItem
                      ptvItem.lParam (ILCloneFull itemInfo.pidl)).1)] } ptvItem.hItem
        = some pidl := hpidl
    have h2 : OnGetDisplayInfo_pool env s pools ptvItem mask
        = some { pools with
            m_iconThreadPool := pools.m_iconThreadPool ++
              [{ iconResultID := s.m_iconResultIDCounter, item := ptvItem.hItem,
                 internalIndex := ptvItem.lParam, pidl := ILCloneFull itemInfo.pidl }],
            m_subfoldersThreadPool := pools.m_subfoldersThreadPool ++
              [{ subfoldersResultID := s.m_subfoldersResultIDCounter, item := ptvItem.hItem,
                 pidl := pidl }] } := by
      simp only [OnGetDisplayInfo_pool, hmI, hmC, Bool.false_eq_true, if_false, if_true, hq, hqp,
        QueueSubfoldersTask_pool, hp2]
    refine ⟨_, _, _, h1, h2, ?_, by simp, by simp, by simp, by simp, by simp, rfl⟩
    intro _ hc
    simp [hc]

theorem OnGetDisplayInfo_placeholder_witness :
    exSiblingState.m_itemInfoMap.at_ 2 = some { pidl := [2] }
    ∧ GetItemPidl exSiblingState 3 = some [2]
    ∧ exSiblingState.m_iconResults.contains exSiblingState.m_iconResultIDCounter = false
    ∧ exSiblingState.m_subfoldersResults.contains exSiblingState.m_subfoldersResultIDCounter
        = false
    ∧ (OnGetDisplayInfo (exEnv exSiblingFolders) exSiblingState
          { hItem := 3, pszText := "Alpha", iImage := -1, iSelectedImage := -1, cChildren := -1,
            lParam := 2, state := 0 } (TVIF_IMAGE ||| TVIF_CHILDREN)).map
        (fun r => (r.1.iImage, r.1.iSelectedImage, r.1.cChildren)) = some (3, 3, 1)
    ∧ (OnGetDisplayInfo (exEnv exSiblingFolders) exSiblingState
          { hItem := 3, pszText := "Alpha", iImage := -1, iSelectedImage := -1, cChildren := -1,
            lParam := 2, state := 0 } (TVIF_IMAGE ||| TVIF_CHILDREN)).map
        (fun r => (r.2.2.m_iconResults.length, r.2.2.m_iconResultIDCounter,
          r.2.2.m_subfoldersResults.length, r.2.2.m_subfoldersResultIDCounter))
      = some (1, 1, 1, 1)
    ∧ ∃ item2 s2 pools2,
        OnGetDisplayInfo (exEnv exSiblingFolders) exSiblingState
            { hItem := 3, pszText := "Alpha", iImage := -1, iSelectedImage := -1,
              cChildren := -1, lParam := 2, state := 0 } (TVIF_IMAGE ||| TVIF_CHILDREN)
          = some (item2, (TVIF_IMAGE ||| TVIF_CHILDREN) ||| TVIF_DI_SETITEM, s2)
        ∧ OnGetDisplayInfo_pool (exEnv exSiblingFolders) exSiblingState exIdleSys.pools
            { hItem := 3, pszText := "Alpha", iImage := -1, iSelectedImage := -1,
              cChildren := -1, lParam := 2, state := 0 } (TVIF_IMAGE ||| TVIF_CHILDREN)
          = some pools2 :=
  ⟨by decide, by decide, by decide, by decide, by decide, by decide,
   match OnGetDisplayInfo_placeholder (exEnv exSiblingFolders) exSiblingState exIdleSys.pools
      { hItem := 3, pszText := "Alpha", iImage := -1, iSelectedImage := -1, cChildren := -1,
        lParam := 2, state := 0 } (TVIF_IMAGE ||| TVIF_CHILDREN) { pidl := [2] } [2]
      (by decide) (by decide) (by decide) (by decide) (by decide) (by decide) with
   | ⟨item2, s2, pools2, h1, h2, _⟩ => ⟨item2, s2, pools2, h1, h2⟩⟩

/-! ## The icon result applied to a node -/

theorem and_or_and_mask (a x b m : Nat) (hx : x &&& m = 0) :
    (a &&& x ||| b &&& m) &&& m = b &&& m := by
  apply Nat.eq_of_testBit_eq
  intro i
  have hi : (x &&& m).testBit i = false := by rw [hx]; exact Nat.zero_testBit i
  simp only [Nat.testBit_and, Nat.testBit_or] at hi ⊢
  revert hi
  cases a.testBit i <;> cases x.testBit i <;> cases b.testBit i <;> cases m.testBit i <;>
    decide

theorem and_or_and_keep (a x b m : Nat) (hx : x &&& m = 0) :
    (a &&& x ||| b &&& m) &&& x = a &&& x := by
  apply Nat.eq_of_testBit_eq
  intro i
  have hi : (x &&& m).testBit i = false := by rw [hx]; exact Nat.zero_testBit i
  simp only [Nat.testBit_and, Nat.testBit_or] at hi ⊢
  revert hi
  cases a.testBit i <;> cases x.testBit i <;> cases b.testBit i <;> cases m.testBit i <;>
    decide

theorem CachedIcons.findByPath_addOrUpdateFileIcon (c : CachedIcons) (filePath : String)
    (iconIndex : Nat) :
    CachedIcons.findByPath (CachedIcons.addOrUpdateFileIcon c filePath iconIndex) filePath
      = some iconIndex := by
  simp [CachedIcons.findByPath, CachedIcons.addOrUpdateFileIcon, List.lookup]

/-- C24: when `ProcessIconResult` consumes a present result whose item record is
still in the registry, every node with the handle of the result gets the icon
index of the result as image and as selected image, its state bits under
`TVIS_OVERLAYMASK` become those of `INDEXTOOVERLAYMASK(iconIndex >> 24)` and its
other state bits stay; nodes with another handle, and the other fields of the
node, do not change; if the parsing path of the item resolves, the icon cache
maps that path to the icon index afterwards, and otherwise the cache is
unchanged. -/
theorem ProcessIconResult_applies (env : Env) (s : State) (id : Int) (result : IconResult)
    (itemInfo : ItemInfo)
    (hres : s.m_iconResults.find id = some (some result))
    (hitem : s.m_itemInfoMap.find result.internalIndex = some itemInfo) :
    (ProcessIconResult env s id).tree.items
        = s.tree.items.map (fun it =>
            if it.hItem = result.item then
              { it with iImage := result.iconIndex, iSelectedImage := result.iconIndex,
                        state := (it.state &&& (0xFFFFFFFF ^^^ TVIS_OVERLAYMASK))
                          ||| (INDEXTOOVERLAYMASK (result.iconIndex >>> 24) &&& TVIS_OVERLAYMASK) }
            else it)
    ∧ (∀ it : TVITEMEX,
        ((it.state &&& (0xFFFFFFFF ^^^ TVIS_OVERLAYMASK))
            ||| (INDEXTOOVERLAYMASK (result.iconIndex >>> 24) &&& TVIS_OVERLAYMASK))
              &&& TVIS_OVERLAYMASK
          = INDEXTOOVERLAYMASK (result.iconIndex >>> 24) &&& TVIS_OVERLAYMASK
        ∧ ((it.state &&& (0xFFFFFFFF ^^^ TVIS_OVERLAYMASK))
            ||| (INDEXTOOVERLAYMASK (result.iconIndex >>> 24) &&& TVIS_OVERLAYMASK))
              &&& (0xFFFFFFFF ^^^ TVIS_OVERLAYMASK)
          = it.state &&& (0xFFFFFFFF ^^^ TVIS_OVERLAYMASK))
    ∧ (∀ filePath, env.shell.GetDisplayName itemInfo.pidl SHGDN.FORPARSING = some filePath →
        (ProcessIconResult env s id).m_cachedIcons.findByPath filePath = some result.iconIndex)
    ∧ (env.shell.GetDisplayName itemInfo.pidl SHGDN.FORPARSING = none →
        (ProcessIconResult env s id).m_cachedIcons = s.m_cachedIcons)
    ∧ (ProcessIconResult env s id).m_iconResults = s.m_iconResults.erase id := by
  have hx : (0xFFFFFFFF ^^^ TVIS_OVERLAYMASK) &&& TVIS_OVERLAYMASK = 0 := by decide
  refine ⟨?_, ?_, ?_, ?_, ?_⟩
  · simp only [ProcessIconResult, hres, hitem]
    rw [TreeCtrl.items_mapItem]
    cases SUCCEEDED (GetDisplayName env.shell itemInfo.pidl SHGDN.FORPARSING "").1 <;> rfl
  · intro it
    exact ⟨and_or_and_mask _ _ _ _ hx, and_or_and_keep _ _ _ _ hx⟩
  · intro filePath hp
    simp only [ProcessIconResult, hres, hitem, GetDisplayName, hp]
    simp only [(by decide : SUCCEEDED S_OK = true), if_true]
    exact CachedIcons.findByPath_addOrUpdateFileIcon _ _ _
  · intro hp
    simp only [ProcessIconResult, hres, hitem, GetDisplayName, hp]
    simp only [(by decide : SUCCEEDED E_FAIL = false), Bool.false_eq_true, if_false]
  · simp only [ProcessIconResult, hres, hitem]
    cases SUCCEEDED (GetDisplayName env.shell itemInfo.pidl SHGDN.FORPARSING "").1 <;> rfl

theorem ProcessIconResult_applies_witness :
    exPendingState.m_iconResults.find 0
        = some (some { item := 1, internalIndex := 0, iconIndex := 7 })
    ∧ exPendingState.m_itemInfoMap.find 0 = some { pidl := [] }
    ∧ (exEnv exFolders).shell.GetDisplayName [] SHGDN.FORPARSING = some "Desktop"
    ∧ (ProcessIconResult (exEnv exFolders) exPendingState 0).tree.items.map
        (fun it => (it.hItem, it.iImage, it.iSelectedImage, it.state)) = [(1, 7, 7, 0)]
    ∧ (ProcessIconResult (exEnv exFolders) exPendingState 0).m_cachedIcons.findByPath "Desktop"
        = some 7 :=
  ⟨by decide, by decide, by decide, by decide,
   (ProcessIconResult_applies (exEnv exFolders) exPendingState 0
      { item := 1, internalIndex := 0, iconIndex := 7 } { pidl := [] }
      (by decide) (by decide)).2.2.1 "Desktop" (by decide)⟩

/-! ## Result stores along a run -/

theorem AddItem_stores (env : Env) (s : State) (parent : HTREEITEM) (pidl : PIDL) :
    storesOf (AddItem env s parent pidl) = storesOf s := by
  unfold AddItem
  simp only []
  split <;> rfl

theorem foldl_AddItem_stores (env : Env) (parent : HTREEITEM) (l : List PIDL) (s : State) :
    storesOf (l.foldl (fun st item => AddItem env st parent item) s) = storesOf s := by
  induction l generalizing s with
  | nil => rfl
  | cons x xs ih =>
    simp only [List.foldl_cons]
    rw [ih, AddItem_stores]

theorem addEnumerated_stores (env : Env) (s : State) (hParent : HTREEITEM)
    (pidlDirectory : PIDL) (hr : HRESULT) (pEnumIDList : List Nat) (r : HRESULT × State)
    (h : addEnumerated env s hParent pidlDirectory hr pEnumIDList = some r) :
    storesOf r.2 = storesOf s := by
  unfold addEnumerated at h
  simp only [] at h
  split at h
  · cases h
  · split at h
    · cases h
    · cases h
      exact foldl_AddItem_stores env hParent _ s

theorem ExpandDirectory_stores (env : Env) (s : State) (hParent : HTREEITEM)
    (r : HRESULT × State) (h : ExpandDirectory env s hParent = some r) :
    storesOf r.2 = storesOf s := by
  unfold ExpandDirectory at h
  cases hp : GetItemPidl s hParent with
  | none => simp [hp] at h
  | some pidlDirectory =>
    simp only [hp] at h
    by_cases hb : FAILED (env.shell.BindToIdl pidlDirectory) = true
    · simp only [hb, if_true, Option.some.injEq] at h
      subst h
      rfl
    · simp only [hb] at h
      rcases he : env.shell.EnumObjects pidlDirectory (enumFlagsOf s) with ⟨hr, _ | pEnumIDList⟩
      · simp only [he, Bool.false_eq_true, if_false, Option.some.injEq] at h
        subst h
        rfl
      · simp only [he, Bool.false_eq_true, if_false] at h
        by_cases hf : FAILED hr = true
        · simp only [hf, if_true, Option.some.injEq] at h
          subst h
          rfl
        · simp only [hf] at h
          exact addEnumerated_stores env s hParent pidlDirectory hr pEnumIDList r h

theorem OnItemExpanding_stores (env : Env) (s s2 : State) (parentItem : HTREEITEM)
    (action : Nat) (h : OnItemExpanding env s parentItem action = some s2) :
    storesOf s2 = storesOf s := by
  unfold OnItemExpanding at h
  by_cases ha : action = TVE_EXPAND
  · simp only [ha, if_true] at h
    cases he : ExpandDirectory env s parentItem with
    | none => rw [he] at h; cases h
    | some r =>
      rw [he] at h
      cases h
      exact ExpandDirectory_stores env s parentItem r he
  · simp only [ha, if_false] at h
    have key : ∀ s1 : State, storesOf s1 = storesOf s →
        (match GetItemByHandle
            { RemoveChildrenFromInternalMap s1 parentItem with
              tree := (RemoveChildrenFromInternalMap s1 parentItem).tree.deleteChildren
                parentItem } parentItem with
          | none => none
          | some _ => some
            { RemoveChildrenFromInternalMap s1 parentItem with
              tree := (RemoveChildrenFromInternalMap s1 parentItem).tree.deleteChildren
                parentItem }) = some s2 →
        storesOf s2 = storesOf s := by
      intro s1 h1 h2
      split at h2
      · cases h2
      · cases h2
        rw [← h1]
        unfold RemoveChildrenFromInternalMap
        split <;> rfl
    cases hsel : s.selection with
    | none =>
      simp only [hsel] at h
      exact key s rfl h
    | some hSelection =>
      simp only [hsel] at h
      cases hc : climbToParent s.tree parentItem (s.tree.items.length + 1) hSelection with
      | none => simp only [hc] at h; cases h
      | some hItem =>
        simp only [hc] at h
        by_cases hh : hItem = some parentItem
        · simp only [hh, if_true] at h
          refine key (TreeView_SelectItem s parentItem) ?_ h
          unfold TreeView_SelectItem
          split <;> rfl
        · simp only [hh, if_false] at h
          exact key s rfl h

theorem StdMap.mem_keys_of_find {V : Type} (m : StdMap V) (k : Int) (v : V)
    (h : StdMap.find m k = some v) : k ∈ StdMap.keys m := by
  by_contra hn
  rw [StdMap.find_eq_none_of_not_mem_keys m k hn] at h
  cases h

theorem StdMap.find_append_of_find {V : Type} (m : StdMap V) (k c : Int) (v y : V)
    (h : StdMap.find m k = some v) : StdMap.find (m ++ [(c, y)]) k = some v := by
  unfold StdMap.find at *
  rw [List.lookup_append, h]
  rfl

theorem StdMap.find_append_self {V : Type} (m : StdMap V) (c : Int) (y : V)
    (h : c ∉ StdMap.keys m) : StdMap.find (m ++ [(c, y)]) c = some y := by
  have hn := StdMap.find_eq_none_of_not_mem_keys m c h
  unfold StdMap.find at *
  rw [List.lookup_append, hn]
  simp [List.lookup]

theorem StdMap.contains_eq_false {V : Type} (m : StdMap V) (c : Int)
    (h : c ∉ StdMap.keys m) : StdMap.contains m c = false := by
  have hn := StdMap.find_eq_none_of_not_mem_keys m c h
  unfold StdMap.find at hn
  simp [StdMap.contains, hn]

theorem StdMap.insert_eq_append {V : Type} (m : StdMap V) (c : Int) (y : V)
    (h : c ∉ StdMap.keys m) : StdMap.insert m c y = m ++ [(c, y)] := by
  simp [StdMap.insert, StdMap.contains_eq_false m c h]

theorem StdMap.find_insert_of_find {V : Type} (m : StdMap V) (k c : Int) (v y : V)
    (h : StdMap.find m k = some v) : StdMap.find (StdMap.insert m c y) k = some v := by
  unfold StdMap.insert
  split
  · exact h
  · exact StdMap.find_append_of_find m k c v y h

theorem StdMap.find_erase_of_ne {V : Type} (m : StdMap V) (k k2 : Int) (hne : k ≠ k2) :
    StdMap.find (StdMap.erase m k2) k = StdMap.find m k :=
  StdMap.at_erase_of_ne m k k2 hne

theorem StdMap.keys_erase_subset {V : Type} (m : StdMap V) (i k : Int)
    (h : k ∈ StdMap.keys (StdMap.erase m i)) : k ∈ StdMap.keys m := by
  unfold StdMap.keys StdMap.erase at *
  rw [List.mem_map] at h ⊢
  obtain ⟨e, he, hk⟩ := h
  exact ⟨e, (List.mem_filter.1 he).1, hk⟩

theorem ResultsInv.append {α : Type} (store : StdMap (Option α)) (counter : Int)
    (pool : List (Int × Option α)) (posted : List Int) (y : Option α)
    (hinv : ResultsInv store counter pool posted) (hroom : counter < 2147483647) :
    ResultsInv (store.insert counter y) (toInt32 (counter + 1)) (pool ++ [(counter, y)])
      posted := by
  obtain ⟨h1, h2, h3, h4, h5⟩ := hinv
  have hfresh : counter ∉ StdMap.keys store := fun hm => lt_irrefl _ (h1 _ hm)
  have hc : toInt32 (counter + 1) = counter + 1 := toInt32_of_range _ (by omega) (by omega)
  rw [StdMap.insert_eq_append store counter y hfresh, hc]
  refine ⟨?_, ?_, ?_, ?_, by omega⟩
  · intro k hk
    simp only [StdMap.keys, List.map_append, List.map_cons, List.map_nil, List.mem_append,
      List.mem_singleton] at hk
    rcases hk with hk | hk
    · have := h1 k hk
      omega
    · omega
  · intro p hp
    rcases List.mem_append.1 hp with hp | hp
    · exact StdMap.find_append_of_find store _ _ _ _ (h2 p hp)
    · rw [List.mem_singleton] at hp
      subst hp
      exact StdMap.find_append_self store counter y hfresh
  · intro id hid
    obtain ⟨r, hr⟩ := h3 id hid
    exact ⟨r, StdMap.find_append_of_find store _ _ _ _ hr⟩
  · have hnp : counter ∉ pool.map Prod.fst ++ posted := by
      intro hm
      rcases List.mem_append.1 hm with hm | hm
      · obtain ⟨p, hp, hpe⟩ := List.mem_map.1 hm
        exact hfresh (hpe ▸ StdMap.mem_keys_of_find store _ _ (h2 p hp))
      · obtain ⟨r, hr⟩ := h3 counter hm
        exact hfresh (StdMap.mem_keys_of_find store _ _ hr)
    have hperm : List.Perm ((pool ++ [(counter, y)]).map Prod.fst ++ posted)
        (counter :: (pool.map Prod.fst ++ posted)) := by
      rw [List.map_append, List.map_singleton, List.append_assoc]
      exact (List.perm_append_comm_assoc _ _ _).trans (by simp)
    exact hperm.nodup_iff.2 (List.nodup_cons.2 ⟨hnp, h4⟩)

theorem ResultsInv.run {α : Type} (store : StdMap (Option α)) (counter : Int)
    (p : Int × Option α) (pool : List (Int × Option α)) (posted : List Int)
    (hinv : ResultsInv store counter (p :: pool) posted) :
    ResultsInv store counter pool (posted ++ (if p.2.isSome then [p.1] else [])) := by
  obtain ⟨h1, h2, h3, h4, h5⟩ := hinv
  refine ⟨h1, fun q hq => h2 q (List.mem_cons_of_mem _ hq), ?_, ?_, h5⟩
  · intro id hid
    rcases List.mem_append.1 hid with hid | hid
    · exact h3 id hid
    · cases hs : p.2 with
      | none => simp [hs] at hid
      | some r =>
        simp only [hs, Option.isSome_some, if_true, List.mem_singleton] at hid
        subst hid
        exact ⟨r, by rw [← hs]; exact h2 p (List.mem_cons_self _ _)⟩
  · have hsub : List.Sublist (pool.map Prod.fst ++ posted) ((p :: pool).map Prod.fst ++ posted) := by
      rw [List.map_cons, List.cons_append]
      exact List.sublist_cons_self _ _
    split
    · have hperm : List.Perm (pool.map Prod.fst ++ (posted ++ [p.1]))
          ((p :: pool).map Prod.fst ++ posted) := by
        rw [List.map_cons, List.cons_append, ← List.append_assoc]
        exact List.perm_append_singleton _ _
      exact hperm.nodup_iff.2 h4
    · rw [List.append_nil]
      exact List.Nodup.sublist hsub h4

theorem ResultsInv.dispatch {α : Type} (store : StdMap (Option α)) (counter : Int)
    (pool : List (Int × Option α)) (i : Int) (posted : List Int)
    (hinv : ResultsInv store counter pool (i :: posted)) :
    ResultsInv (store.erase i) counter pool posted := by
  obtain ⟨h1, h2, h3, h4, h5⟩ := hinv
  have hnd := List.nodup_append.1 h4
  have hnd2 := List.nodup_cons.1 hnd.2.1
  refine ⟨fun k hk => h1 k (StdMap.keys_erase_subset store i k hk), ?_, ?_, ?_, h5⟩
  · intro p hp
    have hne : p.1 ≠ i := by
      intro e
      exact hnd.2.2 (List.mem_map_of_mem Prod.fst hp) (e ▸ List.mem_cons_self _ _)
    rw [StdMap.find_erase_of_ne store _ _ hne]
    exact h2 p hp
  · intro id hid
    have hne : id ≠ i := by
      intro e
      exact hnd2.1 (e ▸ hid)
    rw [StdMap.find_erase_of_ne store _ _ hne]
    exact h3 id (List.mem_cons_of_mem _ hid)
  · have hsub : List.Sublist (pool.map Prod.fst ++ posted) (pool.map Prod.fst ++ i :: posted) :=
      List.Sublist.append_left (List.sublist_cons_self _ _) _
    exact List.Nodup.sublist hsub h4

theorem ResultsInv.failed_stays_dispatch {α : Type} (store : StdMap (Option α)) (counter : Int)
    (pool : List (Int × Option α)) (i : Int) (posted : List Int) (k : Int)
    (hinv : ResultsInv store counter pool (i :: posted))
    (hk : store.find k = some none) : (store.erase i).find k = some none := by
  obtain ⟨r, hr⟩ := hinv.2.2.1 i (List.mem_cons_self _ _)
  have hne : k ≠ i := by
    intro e
    rw [e, hr] at hk
    cases hk
  rw [StdMap.find_erase_of_ne store _ _ hne]
  exact hk

/-! ## Expansion -/

theorem enumStep_snd (env : Env) (pidlDirectory : PIDL) (acc : HRESULT × List PIDL)
    (pidlItem : Nat) :
    (enumStep env pidlDirectory acc pidlItem).2
      = acc.2 ++ (if survivesEnumeration env pidlDirectory pidlItem
          then [ILCombine pidlDirectory pidlItem] else []) := by
  unfold enumStep survivesEnumeration
  simp only []
  by_cases h1 : env.config.checkPinnedToNamespaceTreeProperty = true <;>
  by_cases h2 : env.shell.IsPinnedToNameSpaceTree (ILCombine pidlDirectory pidlItem) = true <;>
  by_cases h3 : env.config.hideSystemFiles = true <;>
  by_cases h4 : FAILED (env.shell.GetAttributesOf (ILCombine pidlDirectory pidlItem)
    SFGAO_SYSTEM).1 = true <;>
  by_cases h5 : WI_IsFlagSet (env.shell.GetAttributesOf (ILCombine pidlDirectory pidlItem)
    SFGAO_SYSTEM).2 SFGAO_SYSTEM = true <;>
  simp [h1, h2, h3, h4, h5]

theorem foldl_enumStep_snd (env : Env) (pidlDirectory : PIDL) (l : List Nat) :
    ∀ acc : HRESULT × List PIDL,
      (l.foldl (enumStep env pidlDirectory) acc).2
        = acc.2 ++ (l.filter (survivesEnumeration env pidlDirectory)).map
            (ILCombine pidlDirectory) := by
  induction l with
  | nil => intro acc; simp
  | cons x xs ih =>
    intro acc
    rw [List.foldl_cons, ih, enumStep_snd, List.filter_cons]
    cases survivesEnumeration env pidlDirectory x <;> simp

theorem StdMap.assign_eq_append {V : Type} (m : StdMap V) (c : Int) (v : V)
    (h : c ∉ StdMap.keys m) : StdMap.assign m c v = m ++ [(c, v)] := by
  simp [StdMap.assign, StdMap.contains_eq_false m c h]

theorem AddItem_of_name (env : Env) (s : State) (parent : HTREEITEM) (pidl : PIDL)
    (name : String) (hname : env.shell.GetDisplayName pidl SHGDN.NORMAL = some name) :
    AddItem env s parent pidl
      = { s with
          m_itemIDCounter := toInt32 (s.m_itemIDCounter + 1),
          m_itemInfoMap := s.m_itemInfoMap.assign s.m_itemIDCounter { pidl := pidl },
          tree := s.tree.insertUnder parent
            { hItem := env.newItem s.tree, pszText := name, iImage := I_IMAGECALLBACK,
              iSelectedImage := I_IMAGECALLBACK, cChildren := I_CHILDRENCALLBACK,
              lParam := s.m_itemIDCounter, state := 0 } } := by
  simp [AddItem, GetDisplayName, hname, (by decide : FAILED S_OK = false), GenerateUniqueItemId,
    TreeView_InsertItem, ILCloneFull]

theorem AddItem_of_no_name (env : Env) (s : State) (parent : HTREEITEM) (pidl : PIDL)
    (hname : env.shell.GetDisplayName pidl SHGDN.NORMAL = none) :
    AddItem env s parent pidl = s := by
  simp [AddItem, GetDisplayName, hname, (by decide : FAILED E_FAIL = true)]

/-- The node found after an insertion under `h`: the node found before, with the
new node appended to its children. -/
theorem TreeCtrl.findNode_insertUnder_self (h : HTREEITEM) (new : TVITEMEX) (t : TreeCtrl) :
    (t.insertUnder h new).findNode h
      = (t.findNode h).map (fun r => TreeCtrl.node (r.itemOf.getD new) (r.childOf.append new)
          r.nextOf) := by
  induction t with
  | nil => rfl
  | node a c n ihc ihn =>
    by_cases ha : a.hItem = h
    · simp [TreeCtrl.insertUnder, TreeCtrl.findNode, ha, TreeCtrl.itemOf, TreeCtrl.childOf,
        TreeCtrl.nextOf]
    · simp only [TreeCtrl.insertUnder, TreeCtrl.findNode, ha, if_false]
      rw [ihc, ihn]
      cases c.findNode h <;> simp

theorem TreeCtrl.toSiblings_append (new : TVITEMEX) (t : TreeCtrl) :
    (t.append new).toSiblings = t.toSiblings ++ [(new, TreeCtrl.nil)] := by
  induction t with
  | nil => rfl
  | node a c n _ ihn => simp [TreeCtrl.append, TreeCtrl.toSiblings, ihn]

theorem siblingsOf_insertUnder (h : HTREEITEM) (new : TVITEMEX) (t : TreeCtrl)
    (hf : (t.findNode h).isSome = true) :
    siblingsOf (t.insertUnder h new) h = siblingsOf t h ++ [(new, TreeCtrl.nil)]
    ∧ ((t.insertUnder h new).findNode h).isSome = true
    ∧ TreeView_GetItem (t.insertUnder h new) h = TreeView_GetItem t h := by
  obtain ⟨r, hr⟩ := Option.isSome_iff_exists.1 hf
  obtain ⟨it, c, n, rfl, _⟩ := TreeCtrl.findNode_handle h t r hr
  simp [siblingsOf, TreeView_GetItem, TreeCtrl.findNode_insertUnder_self, hr, TreeCtrl.childOf,
    TreeCtrl.itemOf, TreeCtrl.nextOf, TreeCtrl.toSiblings_append]

theorem TreeCtrl.findNode_mapChildren_self (h : HTREEITEM) (f : TreeCtrl → TreeCtrl)
    (t : TreeCtrl) :
    (t.mapChildren h f).findNode h
      = (t.findNode h).map (fun r => match r with
          | TreeCtrl.nil => TreeCtrl.nil
          | TreeCtrl.node it c n => TreeCtrl.node it (f c) (n.mapChildren h f)) := by
  induction t with
  | nil => rfl
  | node a c n ihc ihn =>
    by_cases ha : a.hItem = h
    · simp [TreeCtrl.mapChildren, TreeCtrl.findNode, ha]
    · simp only [TreeCtrl.mapChildren, TreeCtrl.findNode, ha, if_false]
      rw [ihc, ihn]
      cases c.findNode h <;> simp

theorem TreeCtrl.toSiblings_ofSiblings (l : List (TVITEMEX × TreeCtrl)) :
    (TreeCtrl.ofSiblings l).toSiblings = l := by
  induction l with
  | nil => rfl
  | cons p rest ih => simp [TreeCtrl.ofSiblings, TreeCtrl.toSiblings, ih]

theorem siblingsOf_SortChildrenCB (t t2 : TreeCtrl) (hParent : HTREEITEM)
    (cmp : Int → Int → Option Int) (hf : (t.findNode hParent).isSome = true)
    (h : TreeView_SortChildrenCB t hParent cmp = some t2) :
    sortSiblings cmp (siblingsOf t hParent) = some (siblingsOf t2 hParent)
    ∧ TreeView_GetItem t2 hParent = TreeView_GetItem t hParent := by
  obtain ⟨r, hr⟩ := Option.isSome_iff_exists.1 hf
  obtain ⟨it, c, n, rfl, _⟩ := TreeCtrl.findNode_handle hParent t r hr
  unfold TreeView_SortChildrenCB at h
  simp only [hr, TreeCtrl.childOf] at h
  cases hs : sortSiblings cmp c.toSiblings with
  | none => rw [hs] at h; cases h
  | some sorted =>
    rw [hs] at h
    simp only [Option.map_some', Option.some.injEq] at h
    subst h
    simp [siblingsOf, TreeView_GetItem, hr, TreeCtrl.childOf, hs,
      TreeCtrl.findNode_mapChildren_self, TreeCtrl.toSiblings_ofSiblings, TreeCtrl.itemOf]

theorem foldl_AddItem_materialises (env : Env) (P : HTREEITEM) (pidls : List PIDL) :
    ∀ s : State, (s.tree.findNode P).isSome = true →
      (∀ k ∈ s.m_itemInfoMap.keys, k < s.m_itemIDCounter) →
      -2147483648 ≤ s.m_itemIDCounter →
      s.m_itemIDCounter + pidls.length < 2147483648 →
      (pidls.foldl (fun st item => AddItem env st P item) s).m_itemInfoMap
          = s.m_itemInfoMap ++ expectedRecords s.m_itemIDCounter
              (pidls.filter (fun pidl => (env.shell.GetDisplayName pidl SHGDN.NORMAL).isSome))
      ∧ (pidls.foldl (fun st item => AddItem env st P item) s).m_itemIDCounter
          = s.m_itemIDCounter
            + (pidls.filter
                (fun pidl => (env.shell.GetDisplayName pidl SHGDN.NORMAL).isSome)).length
      ∧ ((pidls.foldl (fun st item => AddItem env st P item) s).tree.findNode P).isSome = true
      ∧ TreeView_GetItem (pidls.foldl (fun st item => AddItem env st P item) s).tree P
          = TreeView_GetItem s.tree P
      ∧ ∃ newNodes : List TVITEMEX,
          siblingsOf (pidls.foldl (fun st item => AddItem env st P item) s).tree P
            = siblingsOf s.tree P ++ newNodes.map (fun it => (it, TreeCtrl.nil))
          ∧ newNodes.map (fun it =>
                (it.lParam, it.pszText, it.iImage, it.iSelectedImage, it.cChildren, it.state))
              = expectedNodes env s.m_itemIDCounter
                  (pidls.filter
                    (fun pidl => (env.shell.GetDisplayName pidl SHGDN.NORMAL).isSome)) := by
  induction pidls with
  | nil =>
    intro s hP _ _ _
    simp only [List.foldl_nil, List.filter_nil, expectedRecords, List.append_nil,
      List.length_nil, Nat.cast_zero, add_zero, true_and, hP]
    exact ⟨[], by simp, by simp [expectedNodes]⟩
  | cons p ps ih =>
    intro s hP hkeys hlow hroom
    simp only [List.length_cons, Nat.cast_add, Nat.cast_one] at hroom
    rw [List.foldl_cons, List.filter_cons]
    cases hname : env.shell.GetDisplayName p SHGDN.NORMAL with
    | none =>
      rw [AddItem_of_no_name env s P p hname]
      simp only [Option.isSome_none, Bool.false_eq_true, if_false]
      exact ih s hP hkeys hlow (by omega)
    | some name =>
      rw [AddItem_of_name env s P p name hname]
      simp only [Option.isSome_some, if_true]
      have hfresh : s.m_itemIDCounter ∉ StdMap.keys s.m_itemInfoMap :=
        fun hm => lt_irrefl _ (hkeys _ hm)
      have hc : toInt32 (s.m_itemIDCounter + 1) = s.m_itemIDCounter + 1 :=
        toInt32_of_range _ (by omega) (by omega)
      rw [hc, StdMap.assign_eq_append _ _ _ hfresh]
      obtain ⟨hs1, hs2, hs3⟩ := siblingsOf_insertUnder P
        { hItem := env.newItem s.tree, pszText := name, iImage := I_IMAGECALLBACK,
          iSelectedImage := I_IMAGECALLBACK, cChildren := I_CHILDRENCALLBACK,
          lParam := s.m_itemIDCounter, state := 0 } s.tree hP
      have hkeys1 : ∀ k ∈ StdMap.keys (s.m_itemInfoMap ++ [(s.m_itemIDCounter, { pidl := p })]),
          k < s.m_itemIDCounter + 1 := by
        intro k hk
        simp only [StdMap.keys, List.map_append, List.map_cons, List.map_nil, List.mem_append,
          List.mem_singleton] at hk
        rcases hk with hk | hk
        · have := hkeys k hk
          omega
        · omega
      obtain ⟨i1, i2, i3, i4, newNodes, i5, i6⟩ := ih
        { s with
          m_itemIDCounter := s.m_itemIDCounter + 1,
          m_itemInfoMap := s.m_itemInfoMap ++ [(s.m_itemIDCounter, { pidl := p })],
          tree := s.tree.insertUnder P
            { hItem := env.newItem s.tree, pszText := name, iImage := I_IMAGECALLBACK,
              iSelectedImage := I_IMAGECALLBACK, cChildren := I_CHILDRENCALLBACK,
              lParam := s.m_itemIDCounter, state := 0 } }
        hs2 hkeys1 (by simp only []; omega) (by simp only []; omega)
      simp only [] at i1 i2 i3 i4 i5 i6
      refine ⟨?_, ?_, i3, i4.trans hs3, ?_⟩
      · rw [i1, List.append_assoc]
        rfl
      · rw [i2, List.length_cons]
        push_cast
        ring
      · refine ⟨{ hItem := env.newItem s.tree, pszText := name, iImage := I_IMAGECALLBACK,
                  iSelectedImage := I_IMAGECALLBACK, cChildren := I_CHILDRENCALLBACK,
                  lParam := s.m_itemIDCounter, state := 0 } :: newNodes, ?_, ?_⟩
        · rw [i5, hs1, List.append_assoc]
          rfl
        · simp only [List.map_cons, i6, expectedNodes, GetDisplayName, hname]

theorem insertSorted_sorted (cmp : Int → Int → Option Int) (K : Int → Prop)
    (htot : ∀ a b, K a → K b →
      ∃ ab ba, cmp a b = some ab ∧ cmp b a = some ba ∧ Int.sign ab = - Int.sign ba)
    (htrans : ∀ a b c ab bc, K a → K b → K c → cmp a b = some ab → cmp b c = some bc →
      ab ≤ 0 → bc ≤ 0 → ∃ ac, cmp a c = some ac ∧ ac ≤ 0)
    (x : TVITEMEX × TreeCtrl) (hx : K x.1.lParam) (l : List (TVITEMEX × TreeCtrl))
    (hl : ∀ y ∈ l, K y.1.lParam)
    (hs : l.Pairwise (fun a b => ∃ c, cmp a.1.lParam b.1.lParam = some c ∧ c ≤ 0)) :
    ∃ r, insertSorted cmp x l = some r
      ∧ r.Pairwise (fun a b => ∃ c, cmp a.1.lParam b.1.lParam = some c ∧ c ≤ 0) := by
  induction l with
  | nil => exact ⟨[x], rfl, List.pairwise_singleton _ _⟩
  | cons y ys ih =>
    have hy : K y.1.lParam := hl y (List.mem_cons_self _ _)
    have hys : ∀ z ∈ ys, K z.1.lParam := fun z hz => hl z (List.mem_cons_of_mem _ hz)
    obtain ⟨hyall, hsys⟩ := List.pairwise_cons.1 hs
    obtain ⟨c, ba, hc, hba, hsign⟩ := htot _ _ hx hy
    by_cases hle : c ≤ 0
    · refine ⟨x :: y :: ys, by simp [insertSorted, hc, hle], ?_⟩
      refine List.pairwise_cons.2 ⟨?_, hs⟩
      intro z hz
      rcases List.mem_cons.1 hz with rfl | hz
      · exact ⟨c, hc, hle⟩
      · obtain ⟨d, hd, hdle⟩ := hyall z hz
        exact htrans _ _ _ c d hx hy (hys z hz) hc hd hle hdle
    · obtain ⟨r, hr, hrs⟩ := ih hys hsys
      refine ⟨y :: r, by simp [insertSorted, hc, hle, hr], ?_⟩
      refine List.pairwise_cons.2 ⟨?_, hrs⟩
      intro z hz
      rcases mem_of_insertSorted cmp x ys r hr z hz with rfl | hz
      · refine ⟨ba, hba, ?_⟩
        have hpos : 0 < c := by omega
        rw [Int.sign_eq_one_of_pos hpos] at hsign
        have hneg : Int.sign ba = -1 := by omega
        exact le_of_lt (Int.sign_eq_neg_one_iff_neg.1 hneg)
      · exact hyall z hz

theorem sortSiblings_sorted (cmp : Int → Int → Option Int) (K : Int → Prop)
    (htot : ∀ a b, K a → K b →
      ∃ ab ba, cmp a b = some ab ∧ cmp b a = some ba ∧ Int.sign ab = - Int.sign ba)
    (htrans : ∀ a b c ab bc, K a → K b → K c → cmp a b = some ab → cmp b c = some bc →
      ab ≤ 0 → bc ≤ 0 → ∃ ac, cmp a c = some ac ∧ ac ≤ 0)
    (l : List (TVITEMEX × TreeCtrl)) (hl : ∀ y ∈ l, K y.1.lParam) :
    ∃ r, sortSiblings cmp l = some r
      ∧ r.Pairwise (fun a b => ∃ c, cmp a.1.lParam b.1.lParam = some c ∧ c ≤ 0) := by
  induction l with
  | nil => exact ⟨[], rfl, List.Pairwise.nil⟩
  | cons x xs ih =>
    obtain ⟨r, hr, hrs⟩ := ih (fun y hy => hl y (List.mem_cons_of_mem _ hy))
    have hrK : ∀ y ∈ r, K y.1.lParam := fun y hy =>
      hl y (List.mem_cons_of_mem _ (mem_of_sortSiblings cmp xs r hr y hy))
    obtain ⟨r2, hr2, hrs2⟩ := insertSorted_sorted cmp K htot htrans x
      (hl x (List.mem_cons_self _ _)) r hrK hrs
    exact ⟨r2, by simp [sortSiblings, hr, hr2], hrs2⟩

theorem threeTierOrder_sign (sh : Shell) (u : Bool)
    (hl : ConsistentComparison sh.lstrcmpi) (hn : ConsistentComparison sh.StrCmpLogicalW)
    (hi : ConsistentComparison sh.StrCmpIW) (p1 p2 : String) (f1 f2 : Bool) (n1 n2 : String) :
    Int.sign (threeTierOrder sh u p1 p2 f1 f2 n1 n2)
      = - Int.sign (threeTierOrder sh u p2 p1 f2 f1 n2 n1) := by
  unfold threeTierOrder
  cases sh.PathIsRoot p1 <;> cases sh.PathIsRoot p2 <;> cases f1 <;> cases f2 <;> cases u <;>
    simp only [Bool.false_eq_true, if_true, if_false] <;>
    first
      | exact hl.1 _ _
      | exact hn.1 _ _
      | exact hi.1 _ _
      | decide

theorem threeTierOrder_trans (sh : Shell) (u : Bool)
    (hl : ConsistentComparison sh.lstrcmpi) (hn : ConsistentComparison sh.StrCmpLogicalW)
    (hi : ConsistentComparison sh.StrCmpIW) (p1 p2 p3 : String) (f1 f2 f3 : Bool)
    (n1 n2 n3 : String) :
    threeTierOrder sh u p1 p2 f1 f2 n1 n2 ≤ 0 → threeTierOrder sh u p2 p3 f2 f3 n2 n3 ≤ 0 →
      threeTierOrder sh u p1 p3 f1 f3 n1 n3 ≤ 0 := by
  unfold threeTierOrder
  cases sh.PathIsRoot p1 <;> cases sh.PathIsRoot p2 <;> cases sh.PathIsRoot p3 <;>
    cases f1 <;> cases f2 <;> cases f3 <;> cases u <;>
    simp only [Bool.false_eq_true, if_true, if_false] <;>
    first
      | exact hl.2 _ _ _
      | exact hn.2 _ _ _
      | exact hi.2 _ _ _
      | (intro h1 h2
         first
           | exact absurd h1 (by decide)
           | exact absurd h2 (by decide)
           | decide)

theorem expectedNodes_fst (env : Env) (pidls : List PIDL) :
    ∀ counter : Int, (expectedNodes env counter pidls).map (fun e => e.1)
      = (expectedRecords counter pidls).map (fun e => e.1) := by
  induction pidls with
  | nil => intro counter; rfl
  | cons p ps ih =>
    intro counter
    simp only [expectedNodes, expectedRecords, List.map_cons, ih]

theorem expectedRecords_ge (pidls : List PIDL) :
    ∀ counter : Int, ∀ e ∈ expectedRecords counter pidls, counter ≤ e.1 := by
  induction pidls with
  | nil => intro counter e he; simp [expectedRecords] at he
  | cons p ps ih =>
    intro counter e he
    simp only [expectedRecords, List.mem_cons] at he
    rcases he with rfl | he
    · exact le_refl _
    · have := ih (counter + 1) e he
      omega

theorem expectedRecords_length (pidls : List PIDL) :
    ∀ counter : Int, (expectedRecords counter pidls).length = pidls.length := by
  induction pidls with
  | nil => intro counter; rfl
  | cons p ps ih =>
    intro counter
    simp only [expectedRecords, List.length_cons, ih]

theorem StdMap.at_of_mem_keys {V : Type} (m : StdMap V) (k : Int) (h : k ∈ StdMap.keys m) :
    ∃ v, StdMap.at_ m k = some v := by
  apply Option.isSome_iff_exists.1
  unfold StdMap.at_
  rw [List.lookup_isSome_iff]
  obtain ⟨e, he, hk⟩ := List.mem_map.1 h
  exact ⟨e, he, by simp [hk]⟩

theorem StdMap.at_append_of_at {V : Type} (m m2 : StdMap V) (k : Int) (v : V)
    (h : StdMap.at_ m k = some v) : StdMap.at_ (m ++ m2) k = some v := by
  unfold StdMap.at_ at *
  rw [List.lookup_append, h]
  rfl

theorem foldl_AddItem_count (env : Env) (hfresh : ∀ t, env.newItem t ∉ t.handles)
    (P : HTREEITEM) (pidls : List PIDL) :
    ∀ s : State, s.tree.handles.Nodup → P ∈ s.tree.handles →
      (pidls.foldl (fun st item => AddItem env st P item) s).tree.items.length
          = s.tree.items.length
            + (pidls.filter
                (fun pidl => (env.shell.GetDisplayName pidl SHGDN.NORMAL).isSome)).length
      ∧ (pidls.foldl (fun st item => AddItem env st P item) s).tree.handles.Nodup := by
  induction pidls with
  | nil => intro s hnd _; exact ⟨by simp, hnd⟩
  | cons p ps ih =>
    intro s hnd hP
    rw [List.foldl_cons, List.filter_cons]
    have hnd1 := AddItem_handles_nodup env hfresh s P p hnd
    cases hname : env.shell.GetDisplayName p SHGDN.NORMAL with
    | none =>
      rw [AddItem_of_no_name env s P p hname]
      simp only [Option.isSome_none, Bool.false_eq_true, if_false]
      exact ih s hnd hP
    | some name =>
      rw [AddItem_of_name env s P p name hname] at hnd1 ⊢
      simp only [Option.isSome_some, if_true]
      have hperm := TreeCtrl.handles_insertUnder P
        { hItem := env.newItem s.tree, pszText := name, iImage := I_IMAGECALLBACK,
          iSelectedImage := I_IMAGECALLBACK, cChildren := I_CHILDRENCALLBACK,
          lParam := s.m_itemIDCounter, state := 0 } s.tree hnd hP
      obtain ⟨i1, i2⟩ := ih _ hnd1
        (hperm.mem_iff.2 (List.mem_cons_of_mem _ hP))
      refine ⟨?_, i2⟩
      rw [i1]
      have hlen := hperm.length_eq
      simp only [TreeCtrl.handles, List.length_map, List.length_cons] at hlen
      simp only [List.length_cons]
      omega

theorem GetItemPidl_some (s : State) (h : HTREEITEM) (pidl : PIDL)
    (hp : GetItemPidl s h = some pidl) :
    ∃ it, TreeView_GetItem s.tree h = some it
      ∧ s.m_itemInfoMap.at_ it.lParam = some { pidl := pidl }
      ∧ (s.tree.findNode h).isSome = true := by
  unfold GetItemPidl GetItemByHandle GetItemInternalIndex at hp
  cases hg : TreeView_GetItem s.tree h with
  | none => simp [hg] at hp
  | some it =>
    simp only [hg, Option.map_some', Option.some_bind] at hp
    cases ha : s.m_itemInfoMap.at_ it.lParam with
    | none => simp [ha] at hp
    | some info =>
      simp only [ha, Option.map_some', Option.some.injEq, ILCloneFull] at hp
      refine ⟨it, rfl, ?_, ?_⟩
      · rw [← hp]
        exact ha
      · unfold TreeView_GetItem at hg
        cases hf : s.tree.findNode h with
        | none => simp [hf] at hg
        | some r => rfl

theorem CompareItems_preorder (env : Env) (s : State)
    (hl : ConsistentComparison env.shell.lstrcmpi)
    (hn : ConsistentComparison env.shell.StrCmpLogicalW)
    (hi : ConsistentComparison env.shell.StrCmpIW) :
    (∀ a b, a ∈ s.m_itemInfoMap.keys → b ∈ s.m_itemInfoMap.keys →
      ∃ ab ba, CompareItems env s a b = some ab ∧ CompareItems env s b a = some ba
        ∧ Int.sign ab = - Int.sign ba)
    ∧ (∀ a b c ab bc, a ∈ s.m_itemInfoMap.keys → b ∈ s.m_itemInfoMap.keys →
        c ∈ s.m_itemInfoMap.keys →
        CompareItems env s a b = some ab → CompareItems env s b c = some bc →
        ab ≤ 0 → bc ≤ 0 → ∃ ac, CompareItems env s a c = some ac ∧ ac ≤ 0) := by
  refine ⟨?_, ?_⟩
  · intro a b ha hb
    obtain ⟨ia, hia⟩ := StdMap.at_of_mem_keys _ _ ha
    obtain ⟨ib, hib⟩ := StdMap.at_of_mem_keys _ _ hb
    exact ⟨_, _, CompareItems_of_registered env s a b ia ib hia hib,
      CompareItems_of_registered env s b a ib ia hib hia,
      threeTierOrder_sign env.shell _ hl hn hi _ _ _ _ _ _⟩
  · intro a b c ab bc ha hb hc hab hbc h1 h2
    obtain ⟨ia, hia⟩ := StdMap.at_of_mem_keys _ _ ha
    obtain ⟨ib, hib⟩ := StdMap.at_of_mem_keys _ _ hb
    obtain ⟨ic, hic⟩ := StdMap.at_of_mem_keys _ _ hc
    rw [CompareItems_of_registered env s a b ia ib hia hib, Option.some.injEq] at hab
    rw [CompareItems_of_registered env s b c ib ic hib hic, Option.some.injEq] at hbc
    refine ⟨_, CompareItems_of_registered env s a c ia ic hia hic, ?_⟩
    rw [← hab] at h1
    rw [← hbc] at h2
    exact threeTierOrder_trans env.shell _ hl hn hi _ _ _ _ _ _ _ _ _ h1 h2

theorem addEnumerated_materialises (env : Env) (s : State) (P : HTREEITEM) (pidlDirectory : PIDL)
    (hr0 : HRESULT) (l : List Nat) (it : TVITEMEX)
    (hget : TreeView_GetItem s.tree P = some it)
    (hreg : s.m_itemInfoMap.at_ it.lParam = some { pidl := pidlDirectory })
    (hf : (s.tree.findNode P).isSome = true)
    (hkeys : ∀ k ∈ s.m_itemInfoMap.keys, k < s.m_itemIDCounter)
    (hlow : -2147483648 ≤ s.m_itemIDCounter)
    (hroom : s.m_itemIDCounter + l.length < 2147483648)
    (hold : ∀ p ∈ siblingsOf s.tree P, p.1.lParam ∈ s.m_itemInfoMap.keys)
    (hl : ConsistentComparison env.shell.lstrcmpi)
    (hn : ConsistentComparison env.shell.StrCmpLogicalW)
    (hi : ConsistentComparison env.shell.StrCmpIW) :
    ∃ (hr : HRESULT) (s2 : State) (newNodes : List TVITEMEX),
      addEnumerated env s P pidlDirectory hr0 l = some (hr, s2)
      ∧ GetItemByHandle s2 P = some { pidl := pidlDirectory }
      ∧ s2.m_itemInfoMap
          = s.m_itemInfoMap
            ++ expectedRecords s.m_itemIDCounter (survivingItems env pidlDirectory l)
      ∧ s2.m_itemIDCounter = s.m_itemIDCounter + (survivingItems env pidlDirectory l).length
      ∧ newNodes.map (fun it =>
            (it.lParam, it.pszText, it.iImage, it.iSelectedImage, it.cChildren, it.state))
          = expectedNodes env s.m_itemIDCounter (survivingItems env pidlDirectory l)
      ∧ sortSiblings (CompareItems env s2)
            (siblingsOf s.tree P ++ newNodes.map (fun it => (it, TreeCtrl.nil)))
          = some (siblingsOf s2.tree P)
      ∧ (siblingsOf s2.tree P).Pairwise
          (fun a b => ∃ c, CompareItems env s2 a.1.lParam b.1.lParam = some c ∧ c ≤ 0)
      ∧ TreeView_SortChildrenCB
          (((l.filter (survivesEnumeration env pidlDirectory)).map
              (ILCombine pidlDirectory)).foldl (fun st item => AddItem env st P item) s).tree
          P (CompareItems env s2) = some s2.tree := by
  have hitems : (l.foldl (enumStep env pidlDirectory) (hr0, [])).2
      = (l.filter (survivesEnumeration env pidlDirectory)).map (ILCombine pidlDirectory) := by
    rw [foldl_enumStep_snd]
    rfl
  have hlen : ((l.filter (survivesEnumeration env pidlDirectory)).map
      (ILCombine pidlDirectory)).length ≤ l.length := by
    rw [List.length_map]
    exact List.length_filter_le _ _
  obtain ⟨m1, m2, m3, m4, newNodes, m5, m6⟩ := foldl_AddItem_materialises env P
    ((l.filter (survivesEnumeration env pidlDirectory)).map (ILCombine pidlDirectory))
    s hf hkeys hlow (by omega)
  generalize hs1 : ((l.filter (survivesEnumeration env pidlDirectory)).map
    (ILCombine pidlDirectory)).foldl (fun st item => AddItem env st P item) s = s1
    at m1 m2 m3 m4 m5 m6
  have hK : ∀ y ∈ siblingsOf s1.tree P, y.1.lParam ∈ s1.m_itemInfoMap.keys := by
    intro y hy
    rw [m5] at hy
    rw [m1]
    simp only [StdMap.keys, List.map_append, List.mem_append]
    rcases List.mem_append.1 hy with hy | hy
    · exact Or.inl (hold y hy)
    · right
      obtain ⟨node, hnode, rfl⟩ := List.mem_map.1 hy
      have h1 : node.lParam ∈ (expectedNodes env s.m_itemIDCounter
          (survivingItems env pidlDirectory l)).map (fun e => e.1) := by
        rw [← show newNodes.map (fun it =>
            (it.lParam, it.pszText, it.iImage, it.iSelectedImage, it.cChildren, it.state))
          = expectedNodes env s.m_itemIDCounter (survivingItems env pidlDirectory l) from m6]
        rw [List.map_map]
        exact List.mem_map.2 ⟨node, hnode, rfl⟩
      rw [expectedNodes_fst] at h1
      exact h1
  obtain ⟨htot, htrans⟩ := CompareItems_preorder env s1 hl hn hi
  obtain ⟨sorted, hsorted, hpair⟩ := sortSiblings_sorted (CompareItems env s1)
    (fun k => k ∈ s1.m_itemInfoMap.keys) htot htrans (siblingsOf s1.tree P) hK
  obtain ⟨r, hr⟩ := Option.isSome_iff_exists.1 m3
  have hsib : siblingsOf s1.tree P = r.childOf.toSiblings := by
    simp [siblingsOf, hr]
  have hsort : TreeView_SortChildrenCB s1.tree P (CompareItems env s1)
      = some (s1.tree.mapChildren P (fun _ => TreeCtrl.ofSiblings sorted)) := by
    simp only [TreeView_SortChildrenCB, hr]
    rw [← hsib, hsorted]
    rfl
  obtain ⟨q1, q2⟩ := siblingsOf_SortChildrenCB s1.tree _ P (CompareItems env s1) m3 hsort
  rw [hsorted, Option.some.injEq] at q1
  have hbh : GetItemByHandle
      { s1 with tree := s1.tree.mapChildren P (fun _ => TreeCtrl.ofSiblings sorted) } P
      = some { pidl := pidlDirectory } := by
    simp only [GetItemByHandle, GetItemInternalIndex, q2, m4, hget, Option.map_some',
      Option.some_bind, m1]
    exact StdMap.at_append_of_at _ _ _ _ hreg
  refine ⟨(l.foldl (enumStep env pidlDirectory) (hr0, [])).1,
    { s1 with tree := s1.tree.mapChildren P (fun _ => TreeCtrl.ofSiblings sorted) },
    newNodes, ?_, hbh, m1, m2, m6, ?_, ?_, hsort⟩
  · simp only [addEnumerated, hitems, hs1, hsort, hbh]
  · rw [← m5, ← q1]
    exact hsorted
  · rw [← q1]
    exact hpair

theorem map_fst_pair_nil (nodes : List TVITEMEX) :
    nodes.map ((fun p : TVITEMEX × TreeCtrl => p.1) ∘ fun it => (it, TreeCtrl.nil)) = nodes := by
  induction nodes with
  | nil => rfl
  | cons x xs ih => rw [List.map_cons, ih]; rfl

/-- C25: for a registered parent `P` in a tree with distinct handles, whose item
ids in use are below the counter and leave room for the enumerated children,
when binding and enumeration succeed `ExpandDirectory` returns, having asked the
enumerator for hidden items exactly when `m_bShowHidden` is set and started the
monitoring of the parent.  The nodes it adds under `P` are, one for one and in
order, the enumerated children that pass the pinned test (when checked), whose
attributes are read without `SFGAO_SYSTEM` (when system files are hidden) and
whose display name resolves: node `i` carries the id `counter + i`, an id not in
the registry before, and the registry gets for it the record of the identity of
the parent combined with the child.  The children of `P` afterwards are those it
had and the new nodes, in the order the sort by `CompareItems` gives, which is
sorted when the three string comparisons are consistent. -/
theorem ExpandDirectory_materialises (env : Env) (s : State) (P : HTREEITEM)
    (pidlDirectory : PIDL) (hr0 : HRESULT) (l : List Nat)
    (hpidl : GetItemPidl s P = some pidlDirectory)
    (hbind : FAILED (env.shell.BindToIdl pidlDirectory) = false)
    (henum : env.shell.EnumObjects pidlDirectory (enumFlagsOf s) = (hr0, some l))
    (hhr : FAILED hr0 = false)
    (hkeys : ∀ k ∈ s.m_itemInfoMap.keys, k < s.m_itemIDCounter)
    (hlow : -2147483648 ≤ s.m_itemIDCounter)
    (hroom : s.m_itemIDCounter + l.length < 2147483648)
    (hold : ∀ it ∈ childrenOf s.tree P, it.lParam ∈ s.m_itemInfoMap.keys)
    (hnd : s.tree.handles.Nodup) (hfresh : ∀ t, env.newItem t ∉ t.handles)
    (hl : ConsistentComparison env.shell.lstrcmpi)
    (hn : ConsistentComparison env.shell.StrCmpLogicalW)
    (hi : ConsistentComparison env.shell.StrCmpIW) :
    ∃ (hr : HRESULT) (s2 : State) (newNodes : List TVITEMEX),
      ExpandDirectory env s P = some (hr, s2)
      ∧ ExpandDirectory_calls env s P
          = some [ExpandCall.BindToIdl pidlDirectory,
                  ExpandCall.EnumObjects pidlDirectory (enumFlagsOf s),
                  ExpandCall.StartDirectoryMonitoringForItem { pidl := pidlDirectory }]
      ∧ WI_IsFlagSet (enumFlagsOf s) SHCONTF_INCLUDEHIDDEN = s.m_bShowHidden
      ∧ newNodes.map (fun it =>
            (it.lParam, it.pszText, it.iImage, it.iSelectedImage, it.cChildren, it.state))
          = expectedNodes env s.m_itemIDCounter (survivingItems env pidlDirectory l)
      ∧ List.Perm (childrenOf s2.tree P) (childrenOf s.tree P ++ newNodes)
      ∧ s2.tree.items.length
          = s.tree.items.length + (survivingItems env pidlDirectory l).length
      ∧ s2.tree.handles.Nodup
      ∧ s2.m_itemInfoMap
          = s.m_itemInfoMap
            ++ expectedRecords s.m_itemIDCounter (survivingItems env pidlDirectory l)
      ∧ (∀ e ∈ expectedRecords s.m_itemIDCounter (survivingItems env pidlDirectory l),
          e.1 ∉ s.m_itemInfoMap.keys)
      ∧ s2.m_itemIDCounter = s.m_itemIDCounter + (survivingItems env pidlDirectory l).length
      ∧ sortSiblings (CompareItems env s2)
            (siblingsOf s.tree P ++ newNodes.map (fun it => (it, TreeCtrl.nil)))
          = some (siblingsOf s2.tree P)
      ∧ (childrenOf s2.tree P).Pairwise
          (fun a b => ∃ c, CompareItems env s2 a.lParam b.lParam = some c ∧ c ≤ 0) := by
  obtain ⟨it, hget, hreg, hf⟩ := GetItemPidl_some s P pidlDirectory hpidl
  have hold2 : ∀ p ∈ siblingsOf s.tree P, p.1.lParam ∈ s.m_itemInfoMap.keys := by
    intro p hp
    exact hold p.1 (List.mem_map.2 ⟨p, hp, rfl⟩)
  obtain ⟨hr, s2, newNodes, a1, a2, a3, a4, a5, a6, a7, a8⟩ :=
    addEnumerated_materialises env s P pidlDirectory hr0 l it hget hreg hf hkeys hlow hroom
      hold2 hl hn hi
  obtain ⟨r, hfr⟩ := Option.isSome_iff_exists.1 hf
  have hP : P ∈ s.tree.handles := TreeCtrl.mem_handles_of_findNode P s.tree r hfr
  obtain ⟨c1, c2⟩ := foldl_AddItem_count env hfresh P
    ((l.filter (survivesEnumeration env pidlDirectory)).map (ILCombine pidlDirectory))
    s hnd hP
  have hperm := handles_of_SortChildrenCB _ s2.tree P (CompareItems env s2) c2 a8
  refine ⟨hr, s2, newNodes, ?_, ?_, ?_, a5, ?_, ?_, ?_, a3, ?_, a4, a6, ?_⟩
  · simp only [ExpandDirectory, hpidl, hbind, henum, hhr, Bool.false_eq_true, if_false]
    exact a1
  · simp only [ExpandDirectory_calls, hpidl, hbind, henum, hhr, Bool.false_eq_true, if_false,
      a1, a2, Option.map_some']
  · unfold enumFlagsOf
    cases s.m_bShowHidden <;> decide
  · have hp2 := perm_of_sortSiblings _ _ _ a6
    have hp3 := hp2.map (fun p => p.1)
    simp only [List.map_append, List.map_map, map_fst_pair_nil] at hp3
    exact hp3
  · have hlen := hperm.length_eq
    simp only [TreeCtrl.handles, List.length_map] at hlen
    rw [hlen, c1]
    rfl
  · exact hperm.nodup_iff.2 c2
  · intro e he hk
    have h1 := expectedRecords_ge _ _ e he
    have h2 := hkeys _ hk
    omega
  · unfold childrenOf
    rw [List.pairwise_map]
    exact a7

theorem ExpandDirectory_materialises_witness :
    GetItemPidl exRootState 1 = some []
    ∧ FAILED (exFilterEnv.shell.BindToIdl []) = false
    ∧ exFilterEnv.shell.EnumObjects [] (enumFlagsOf exRootState) = (S_OK, some [1, 2, 3, 4, 7])
    ∧ survivingItems exFilterEnv [] [1, 2, 3, 4, 7] = [[2], [3]]
    ∧ (ExpandDirectory exFilterEnv exRootState 1).map
        (fun r => (childrenOf r.2.tree 1).map (fun it => (it.lParam, it.pszText)))
      = some [(2, "Local Disk (C:)"), (1, "Alpha")]
    ∧ (ExpandDirectory exFilterEnv exRootState 1).map (fun r => r.2.m_itemInfoMap)
      = some [(0, { pidl := [] }), (1, { pidl := [2] }), (2, { pidl := [3] })]
    ∧ ∃ (hr : HRESULT) (s2 : State),
        ExpandDirectory exFilterEnv exRootState 1 = some (hr, s2)
        ∧ s2.m_itemIDCounter
          = exRootState.m_itemIDCounter
            + (survivingItems exFilterEnv [] [1, 2, 3, 4, 7]).length :=
  ⟨by decide, by decide, by decide, by decide, by decide, by decide,
   match ExpandDirectory_materialises exFilterEnv exRootState 1 [] S_OK [1, 2, 3, 4, 7]
      (by decide) (by decide) (by decide) (by decide) (by decide) (by decide) (by decide)
      (by decide) (by decide) exNewItem_fresh exCompare_consistent exCompare_consistent
      exCompare_consistent with
   | ⟨hr, s2, _, h1, _, _, _, _, _, _, _, _, h2, _⟩ => ⟨hr, s2, h1, h2⟩⟩

/-! ## Expansion that fails -/

/-- C26: for a registered parent, when binding to the folder fails, or the
enumeration fails or gives no enumerator, `ExpandDirectory` returns the result
code of that call and the state it was called in: no node and no registry
record is added or removed.  It has then called `BindToIdl` once and
`EnumObjects` at most once, and has not called
`StartDirectoryMonitoringForItem`. -/
theorem ExpandDirectory_failure_unchanged (env : Env) (s : State) (hParent : HTREEITEM)
    (pidlDirectory : PIDL) (hpidl : GetItemPidl s hParent = some pidlDirectory) :
    (FAILED (env.shell.BindToIdl pidlDirectory) = true →
        ExpandDirectory env s hParent = some (env.shell.BindToIdl pidlDirectory, s)
        ∧ ExpandDirectory_calls env s hParent = some [ExpandCall.BindToIdl pidlDirectory])
    ∧ (FAILED (env.shell.BindToIdl pidlDirectory) = false →
        (FAILED (env.shell.EnumObjects pidlDirectory (enumFlagsOf s)).1 = true
          ∨ (env.shell.EnumObjects pidlDirectory (enumFlagsOf s)).2 = none) →
        ExpandDirectory env s hParent
          = some ((env.shell.EnumObjects pidlDirectory (enumFlagsOf s)).1, s)
        ∧ ExpandDirectory_calls env s hParent
          = some [ExpandCall.BindToIdl pidlDirectory,
                  ExpandCall.EnumObjects pidlDirectory (enumFlagsOf s)]) := by
  refine ⟨?_, ?_⟩
  · intro hb
    simp [ExpandDirectory, ExpandDirectory_calls, hpidl, hb]
  · intro hb he
    rcases hen : env.shell.EnumObjects pidlDirectory (enumFlagsOf s) with ⟨hr, e⟩
    rw [hen] at he
    cases e with
    | none => simp [ExpandDirectory, ExpandDirectory_calls, hpidl, hb, hen]
    | some l =>
      rcases he with he | he
      · simp only at he
        simp [ExpandDirectory, ExpandDirectory_calls, hpidl, hb, hen, he]
      · cases he

theorem ExpandDirectory_failure_unchanged_witness :
    GetItemPidl exOrphanState 1 = some [9]
    ∧ FAILED ((exEnv exFolders).shell.BindToIdl [9]) = true
    ∧ ExpandDirectory (exEnv exFolders) exOrphanState 1 = some (E_FAIL, exOrphanState)
    ∧ ExpandDirectory_calls (exEnv exFolders) exOrphanState 1 = some [ExpandCall.BindToIdl [9]] :=
  ⟨by decide, by decide,
   ((ExpandDirectory_failure_unchanged (exEnv exFolders) exOrphanState 1 [9] (by decide)).1
      (by decide)).1,
   by decide⟩

/-! ## The image index on the two paths -/

/-- C27 (the code breaks it): the shell resolves the icon of `Alpha` to the index
0x01000003 (icon 3 with overlay 1).  `ProcessIconResult` sets the image of the
node to 16777219 and caches that index under the path of the item; a later
`OnGetDisplayInfo` for the same item takes the cached index and returns the
image 3. -/
theorem icon_paths_disagree :
    exOverlayRun.map (fun s =>
        (TreeView_GetItem s.tree 3).map (fun it => (it.lParam, it.iImage, it.iSelectedImage)))
      = some (some (2, 16777219, 16777219))
    ∧ exOverlayRun.map (fun s => s.m_cachedIcons) = some [("C:\\Users\\Alpha", 16777219)]
    ∧ exOverlayRun.bind (fun s =>
        (TreeView_GetItem s.tree 3).bind (fun stored =>
          (OnGetDisplayInfo exOverlayEnv s stored TVIF_IMAGE).map
            (fun r => (r.1.iImage, r.1.iSelectedImage))))
      = some (3, 3)
    ∧ (16777219 &&& 0x0FFF : Nat) = 3 := by
  refine ⟨by decide, by decide, by decide, by decide⟩

/-! ## Background tasks along a run -/

/-- What a display-information request does to the two stores, their counters
and the pools: for each kind either nothing, or one task pushed whose id is the
counter, with one entry inserted under that id holding what the task yields. -/
theorem OnGetDisplayInfo_stores (env : Env) (s : State) (pools : Pools) (ptvItem : TVITEMEX)
    (mask : Nat) (r : TVITEMEX × Nat × State) (pools1 : Pools)
    (h : OnGetDisplayInfo env s ptvItem mask = some r)
    (hp : OnGetDisplayInfo_pool env s pools ptvItem mask = some pools1) :
    ((r.2.2.m_iconResults = s.m_iconResults
        ∧ r.2.2.m_iconResultIDCounter = s.m_iconResultIDCounter
        ∧ pools1.m_iconThreadPool = pools.m_iconThreadPool)
      ∨ ∃ task : IconTask, task.iconResultID = s.m_iconResultIDCounter
        ∧ r.2.2.m_iconResults
            = s.m_iconResults.insert s.m_iconResultIDCounter (task.run env.shell).1
        ∧ r.2.2.m_iconResultIDCounter = toInt32 (s.m_iconResultIDCounter + 1)
        ∧ pools1.m_iconThreadPool = pools.m_iconThreadPool ++ [task])
    ∧ ((r.2.2.m_subfoldersResults = s.m_subfoldersResults
        ∧ r.2.2.m_subfoldersResultIDCounter = s.m_subfoldersResultIDCounter
        ∧ pools1.m_subfoldersThreadPool = pools.m_subfoldersThreadPool)
      ∨ ∃ task : SubfoldersTask, task.subfoldersResultID = s.m_subfoldersResultIDCounter
        ∧ r.2.2.m_subfoldersResults
            = s.m_subfoldersResults.insert s.m_subfoldersResultIDCounter (task.run env.shell).1
        ∧ r.2.2.m_subfoldersResultIDCounter = toInt32 (s.m_subfoldersResultIDCounter + 1)
        ∧ pools1.m_subfoldersThreadPool = pools.m_subfoldersThreadPool ++ [task]) := by
  cases hmI : WI_IsFlagSet mask TVIF_IMAGE <;> cases hmC : WI_IsFlagSet mask TVIF_CHILDREN
  · simp only [OnGetDisplayInfo, hmI, hmC, Bool.false_eq_true, if_false, Option.some.injEq] at h
    simp only [OnGetDisplayInfo_pool, hmI, hmC, Bool.false_eq_true, if_false,
      Option.some.injEq] at hp
    subst h
    subst hp
    exact ⟨Or.inl ⟨rfl, rfl, rfl⟩, Or.inl ⟨rfl, rfl, rfl⟩⟩
  · cases hpidl : GetItemPidl s ptvItem.hItem with
    | none =>
      simp [OnGetDisplayInfo_pool, hmI, hmC, QueueSubfoldersTask_pool, hpidl] at hp
    | some pidl =>
      have hq2 := QueueSubfoldersTask_eq env s ptvItem.hItem pidl hpidl
      simp only [OnGetDisplayInfo, hmI, hmC, Bool.false_eq_true, if_false, if_true, hq2,
        Option.map_some', Option.some.injEq] at h
      simp only [OnGetDisplayInfo_pool, hmI, hmC, Bool.false_eq_true, if_false, if_true,
        QueueSubfoldersTask_pool, hpidl, Option.some.injEq] at hp
      subst h
      subst hp
      exact ⟨Or.inl ⟨rfl, rfl, rfl⟩,
        Or.inr ⟨{ subfoldersResultID := s.m_subfoldersResultIDCounter, item := ptvItem.hItem,
                  pidl := pidl }, rfl, rfl, rfl, rfl⟩⟩
  · cases hitem : s.m_itemInfoMap.at_ ptvItem.lParam with
    | none => simp [OnGetDisplayInfo, hmI, hitem] at h
    | some itemInfo =>
      have hq := QueueIconTask_eq env s ptvItem.hItem ptvItem.lParam itemInfo hitem
      simp only [OnGetDisplayInfo, hmI, hmC, Bool.false_eq_true, if_false, if_true, hitem, hq,
        Option.map_some', Option.some.injEq] at h
      simp only [OnGetDisplayInfo_pool, hmI, hmC, Bool.false_eq_true, if_false, if_true, hq,
        QueueIconTask_pool, hitem, Option.some.injEq] at hp
      subst h
      subst hp
      exact ⟨Or.inr
          ⟨{ iconResultID := s.m_iconResultIDCounter, item := ptvItem.hItem,
             internalIndex := ptvItem.lParam, pidl := ILCloneFull itemInfo.pidl },
            rfl, rfl, rfl, rfl⟩,
        Or.inl ⟨rfl, rfl, rfl⟩⟩
  · cases hitem : s.m_itemInfoMap.at_ ptvItem.lParam with
    | none => simp [OnGetDisplayInfo, hmI, hitem] at h
    | some itemInfo =>
      have hq := QueueIconTask_eq env s ptvItem.hItem ptvItem.lParam itemInfo hitem
      cases hpidl : GetItemPidl s ptvItem.hItem with
      | none =>
        have hp2 : GetItemPidl
            { s with m_iconResultIDCounter := toInt32 (s.m_iconResultIDCounter + 1),
                     m_iconResults := s.m_iconResults.insert s.m_iconResultIDCounter
                      (FindIconAsync env.shell s.m_iconResultIDCounter ptvItem.hItem
                        ptvItem.lParam (ILCloneFull itemInfo.pidl)).1 } ptvItem.hItem
            = none := hpidl
        simp [OnGetDisplayInfo_pool, hmI, hmC, hq, QueueIconTask_pool, hitem,
          QueueSubfoldersTask_pool, hp2] at hp
      | some pidl =>
        have hp2 : GetItemPidl
            { s with m_iconResultIDCounter := toInt32 (s.m_iconResultIDCounter + 1),
                     m_iconResults := s.m_iconResults.insert s.m_iconResultIDCounter
                      (FindIconAsync env.shell s.m_iconResultIDCounter ptvItem.hItem
                        ptvItem.lParam (ILCloneFull itemInfo.pidl)).1 } ptvItem.hItem
            = some pidl := hpidl
        have hq2 := QueueSubfoldersTask_eq env _ ptvItem.hItem pidl hp2
        simp only [OnGetDisplayInfo, hmI, hmC, Bool.false_eq_true, if_false, if_true, hitem, hq,
          Option.map_some', hq2, Option.some.injEq] at h
        simp only [OnGetDisplayInfo_pool, hmI, hmC, Bool.false_eq_true, if_false, if_true, hq,
          QueueIconTask_pool, hitem, QueueSubfoldersTask_pool, hp2, Option.some.injEq] at hp
        subst h
        subst hp
        exact ⟨Or.inr
            ⟨{ iconResultID := s.m_iconResultIDCounter, item := ptvItem.hItem,
               internalIndex := ptvItem.lParam, pidl := ILCloneFull itemInfo.pidl },
              rfl, rfl, rfl, rfl⟩,
          Or.inr
            ⟨{ subfoldersResultID := s.m_subfoldersResultIDCounter, item := ptvItem.hItem,
               pidl := pidl }, rfl, rfl, rfl, rfl⟩⟩

theorem TVN_GETDISPINFO_stores (env : Env) (s s1 : State) (pools pools1 : Pools)
    (hItem : HTREEITEM) (mask : Nat)
    (h : TVN_GETDISPINFO env s hItem mask = some s1)
    (hp : TVN_GETDISPINFO_pool env s pools hItem mask = some pools1) :
    ((s1.m_iconResults = s.m_iconResults
        ∧ s1.m_iconResultIDCounter = s.m_iconResultIDCounter
        ∧ pools1.m_iconThreadPool = pools.m_iconThreadPool)
      ∨ ∃ task : IconTask, task.iconResultID = s.m_iconResultIDCounter
        ∧ s1.m_iconResults
            = s.m_iconResults.insert s.m_iconResultIDCounter (task.run env.shell).1
        ∧ s1.m_iconResultIDCounter = toInt32 (s.m_iconResultIDCounter + 1)
        ∧ pools1.m_iconThreadPool = pools.m_iconThreadPool ++ [task])
    ∧ ((s1.m_subfoldersResults = s.m_subfoldersResults
        ∧ s1.m_subfoldersResultIDCounter = s.m_subfoldersResultIDCounter
        ∧ pools1.m_subfoldersThreadPool = pools.m_subfoldersThreadPool)
      ∨ ∃ task : SubfoldersTask, task.subfoldersResultID = s.m_subfoldersResultIDCounter
        ∧ s1.m_subfoldersResults
            = s.m_subfoldersResults.insert s.m_subfoldersResultIDCounter (task.run env.shell).1
        ∧ s1.m_subfoldersResultIDCounter = toInt32 (s.m_subfoldersResultIDCounter + 1)
        ∧ pools1.m_subfoldersThreadPool = pools.m_subfoldersThreadPool ++ [task]) := by
  unfold TVN_GETDISPINFO at h
  unfold TVN_GETDISPINFO_pool at hp
  cases hg : TreeView_GetItem s.tree hItem with
  | none =>
    simp only [hg, Option.some.injEq] at h hp
    subst h
    subst hp
    exact ⟨Or.inl ⟨rfl, rfl, rfl⟩, Or.inl ⟨rfl, rfl, rfl⟩⟩
  | some stored =>
    simp only [hg] at h hp
    cases ho : OnGetDisplayInfo env s stored mask with
    | none => rw [ho] at h; cases h
    | some r =>
      rw [ho] at h
      simp only [Option.map_some', Option.some.injEq] at h
      subst h
      exact OnGetDisplayInfo_stores env s pools stored mask r pools1 ho hp

theorem ProcessIconResult_stores (env : Env) (s : State) (i : Int) :
    (ProcessIconResult env s i).m_iconResultIDCounter = s.m_iconResultIDCounter
    ∧ (ProcessIconResult env s i).m_subfoldersResults = s.m_subfoldersResults
    ∧ (ProcessIconResult env s i).m_subfoldersResultIDCounter = s.m_subfoldersResultIDCounter
    ∧ ((s.m_iconResults.find i).isSome = true →
        (ProcessIconResult env s i).m_iconResults = s.m_iconResults.erase i) := by
  unfold ProcessIconResult
  cases hf : s.m_iconResults.find i with
  | none => simp
  | some result =>
    cases result with
    | none => simp
    | some result =>
      simp only []
      cases hm : s.m_itemInfoMap.find result.internalIndex with
      | none => simp
      | some itemInfo =>
        simp only []
        cases SUCCEEDED (GetDisplayName env.shell itemInfo.pidl SHGDN.FORPARSING "").1 <;> simp

theorem ProcessSubfoldersResult_stores (s : State) (i : Int) :
    (ProcessSubfoldersResult s i).m_subfoldersResultIDCounter = s.m_subfoldersResultIDCounter
    ∧ (ProcessSubfoldersResult s i).m_iconResults = s.m_iconResults
    ∧ (ProcessSubfoldersResult s i).m_iconResultIDCounter = s.m_iconResultIDCounter
    ∧ ((s.m_subfoldersResults.find i).isSome = true →
        (ProcessSubfoldersResult s i).m_subfoldersResults = s.m_subfoldersResults.erase i) := by
  unfold ProcessSubfoldersResult
  cases hf : s.m_subfoldersResults.find i with
  | none => simp
  | some result =>
    cases result with
    | none => simp
    | some result =>
      simp only []
      cases result.hasSubfolder <;> simp

theorem IconTask.run_posted_icon (sh : Shell) (task : IconTask) :
    (task.run sh).2.filterMap Message.iconId
        = (if (task.run sh).1.isSome then [task.iconResultID] else [])
    ∧ (task.run sh).2.filterMap Message.subfoldersId = [] := by
  unfold IconTask.run FindIconAsync
  cases sh.SHGetFileInfo task.pidl <;> simp [Message.iconId, Message.subfoldersId]

theorem SubfoldersTask.run_posted_subfolders (sh : Shell) (task : SubfoldersTask) :
    (task.run sh).2.filterMap Message.subfoldersId
        = (if (task.run sh).1.isSome then [task.subfoldersResultID] else [])
    ∧ (task.run sh).2.filterMap Message.iconId = [] := by
  unfold SubfoldersTask.run CheckSubfoldersAsync
  by_cases h1 : FAILED (sh.SHBindToParent task.pidl) = true
  · simp [h1]
  · by_cases h2 : FAILED (sh.GetAttributesOf task.pidl SFGAO_HASSUBFOLDER).1 = true
    · simp [h1, h2]
    · simp [h1, h2, Message.iconId, Message.subfoldersId]

theorem ResultsInv.step {α : Type} (store : StdMap (Option α)) (counter : Int)
    (pool : List (Int × Option α)) (posted : List Int)
    (store2 : StdMap (Option α)) (counter2 : Int)
    (pool2 : List (Int × Option α)) (posted2 : List Int)
    (hinv : ResultsInv store counter pool posted) (hroom : counter < 2147483647)
    (hstep : ResultsStep store counter pool posted store2 counter2 pool2 posted2) :
    ResultsInv store2 counter2 pool2 posted2
    ∧ counter2 ≤ counter + 1
    ∧ ∀ k, store.find k = some none → store2.find k = some none := by
  rcases hstep with ⟨e1, e2, e3, e4⟩ | ⟨y, e1, e2, e3, e4⟩ | ⟨p, e1, e2, e3, e4⟩
    | ⟨i, e1, e2, e3, e4⟩
  · rw [e1, e2, e3, e4]
    exact ⟨hinv, by omega, fun _ hk => hk⟩
  · rw [e1, e2, e3, e4]
    refine ⟨ResultsInv.append store counter pool posted y hinv hroom, ?_, ?_⟩
    · rw [toInt32_of_range _ (by have := hinv.2.2.2.2; omega) (by omega)]
    · intro k hk
      exact StdMap.find_insert_of_find store k counter _ y hk
  · rw [e2, e3, e4]
    rw [e1] at hinv
    exact ⟨ResultsInv.run store counter p pool2 posted hinv, by omega, fun _ hk => hk⟩
  · rw [e2, e3, e4]
    rw [e1] at hinv
    exact ⟨ResultsInv.dispatch store counter pool i posted2 hinv, by omega,
      fun k hk => ResultsInv.failed_stays_dispatch store counter pool i posted2 k hinv hk⟩

theorem sysStep_steps (env : Env) (sys sys2 : Sys) (e : TaskEvent) (hinv : SysInv env sys)
    (h : sysStep env sys e = some sys2) :
    ResultsStep sys.s.m_iconResults sys.s.m_iconResultIDCounter
        (sys.pools.m_iconThreadPool.map (fun task => (task.iconResultID, (task.run env.shell).1)))
        (sys.posted.filterMap Message.iconId)
        sys2.s.m_iconResults sys2.s.m_iconResultIDCounter
        (sys2.pools.m_iconThreadPool.map
          (fun task => (task.iconResultID, (task.run env.shell).1)))
        (sys2.posted.filterMap Message.iconId)
    ∧ ResultsStep sys.s.m_subfoldersResults sys.s.m_subfoldersResultIDCounter
        (sys.pools.m_subfoldersThreadPool.map
          (fun task => (task.subfoldersResultID, (task.run env.shell).1)))
        (sys.posted.filterMap Message.subfoldersId)
        sys2.s.m_subfoldersResults sys2.s.m_subfoldersResultIDCounter
        (sys2.pools.m_subfoldersThreadPool.map
          (fun task => (task.subfoldersResultID, (task.run env.shell).1)))
        (sys2.posted.filterMap Message.subfoldersId) := by
  cases e with
  | getDispInfo hItem mask =>
    simp only [sysStep] at h
    cases h1 : TVN_GETDISPINFO env sys.s hItem mask with
    | none => simp [h1] at h
    | some s1 =>
      cases h2 : TVN_GETDISPINFO_pool env sys.s sys.pools hItem mask with
      | none => simp [h1, h2] at h
      | some pools1 =>
        simp only [h1, h2, Option.some.injEq] at h
        subst h
        obtain ⟨hI, hS⟩ := TVN_GETDISPINFO_stores env sys.s s1 sys.pools pools1 hItem mask h1 h2
        refine ⟨?_, ?_⟩
        · rcases hI with ⟨e1, e2, e3⟩ | ⟨task, ht, e1, e2, e3⟩
          · exact Or.inl ⟨e1, e2, by simp only [e3], rfl⟩
          · refine Or.inr (Or.inl ⟨(task.run env.shell).1, e1, e2, ?_, rfl⟩)
            simp only [e3, List.map_append, List.map_cons, List.map_nil, ht]
        · rcases hS with ⟨e1, e2, e3⟩ | ⟨task, ht, e1, e2, e3⟩
          · exact Or.inl ⟨e1, e2, by simp only [e3], rfl⟩
          · refine Or.inr (Or.inl ⟨(task.run env.shell).1, e1, e2, ?_, rfl⟩)
            simp only [e3, List.map_append, List.map_cons, List.map_nil, ht]
  | expanding hItem action =>
    simp only [sysStep] at h
    cases h1 : OnItemExpanding env sys.s hItem action with
    | none => simp [h1] at h
    | some s1 =>
      simp only [h1, Option.map_some', Option.some.injEq] at h
      subst h
      have hst := OnItemExpanding_stores env sys.s s1 hItem action h1
      simp only [storesOf, Prod.mk.injEq] at hst
      exact ⟨Or.inl ⟨hst.1, hst.2.1, rfl, rfl⟩, Or.inl ⟨hst.2.2.1, hst.2.2.2, rfl, rfl⟩⟩
  | runIconTask =>
    simp only [sysStep] at h
    cases hq : sys.pools.m_iconThreadPool with
    | nil =>
      simp only [hq, Option.some.injEq] at h
      subst h
      exact ⟨Or.inl ⟨rfl, rfl, by simp [hq], by simp [hq]⟩,
        Or.inl ⟨rfl, rfl, by simp [hq], by simp [hq]⟩⟩
    | cons task rest =>
      simp only [hq, Option.some.injEq] at h
      subst h
      obtain ⟨hp1, hp2⟩ := IconTask.run_posted_icon env.shell task
      refine ⟨Or.inr (Or.inr (Or.inl ⟨(task.iconResultID, (task.run env.shell).1), ?_, ?_,
        rfl, rfl⟩)), Or.inl ⟨rfl, rfl, rfl, ?_⟩⟩
      · simp only [List.map_cons]
      · simp only [List.filterMap_append, hp1]
      · simp only [List.filterMap_append, hp2, List.append_nil]
  | runSubfoldersTask =>
    simp only [sysStep] at h
    cases hq : sys.pools.m_subfoldersThreadPool with
    | nil =>
      simp only [hq, Option.some.injEq] at h
      subst h
      exact ⟨Or.inl ⟨rfl, rfl, by simp [hq], by simp [hq]⟩,
        Or.inl ⟨rfl, rfl, by simp [hq], by simp [hq]⟩⟩
    | cons task rest =>
      simp only [hq, Option.some.injEq] at h
      subst h
      obtain ⟨hp1, hp2⟩ := SubfoldersTask.run_posted_subfolders env.shell task
      refine ⟨Or.inl ⟨rfl, rfl, rfl, ?_⟩,
        Or.inr (Or.inr (Or.inl ⟨(task.subfoldersResultID, (task.run env.shell).1), ?_, ?_,
          rfl, rfl⟩))⟩
      · simp only [List.filterMap_append, hp2, List.append_nil]
      · simp only [List.map_cons]
      · simp only [List.filterMap_append, hp1]
  | dispatch =>
    simp only [sysStep] at h
    cases hq : sys.posted with
    | nil =>
      simp only [hq, Option.some.injEq] at h
      subst h
      exact ⟨Or.inl ⟨rfl, rfl, by simp [hq], by simp [hq]⟩,
        Or.inl ⟨rfl, rfl, by simp [hq], by simp [hq]⟩⟩
    | cons msg rest =>
      simp only [hq, Option.some.injEq] at h
      subst h
      cases msg with
      | WM_APP_ICON_RESULT_READY i =>
        obtain ⟨r, hr⟩ := hinv.1.2.2.1 i (by simp [hq, Message.iconId])
        obtain ⟨c1, c2, c3, c4⟩ := ProcessIconResult_stores env sys.s i
        refine ⟨Or.inr (Or.inr (Or.inr ⟨i, ?_, ?_, ?_, rfl⟩)), Or.inl ⟨?_, ?_, rfl, ?_⟩⟩
        · simp [Message.iconId]
        · exact c4 (by rw [hr]; rfl)
        · exact c1
        · exact c2
        · exact c3
        · simp [Message.subfoldersId]
      | WM_APP_SUBFOLDERS_RESULT_READY i =>
        obtain ⟨r, hr⟩ := hinv.2.2.2.1 i (by simp [hq, Message.subfoldersId])
        obtain ⟨c1, c2, c3, c4⟩ := ProcessSubfoldersResult_stores sys.s i
        refine ⟨Or.inl ⟨?_, ?_, rfl, ?_⟩, Or.inr (Or.inr (Or.inr ⟨i, ?_, ?_, ?_, rfl⟩))⟩
        · exact c2
        · exact c3
        · simp [Message.iconId]
        · simp [Message.subfoldersId]
        · exact c4 (by rw [hr]; rfl)
        · exact c1

theorem runSys_inv (env : Env) (events : List TaskEvent) :
    ∀ (sys sys2 : Sys), SysInv env sys →
      sys.s.m_iconResultIDCounter + events.length < 2147483648 →
      sys.s.m_subfoldersResultIDCounter + events.length < 2147483648 →
      runSys env sys events = some sys2 →
      SysInv env sys2
      ∧ (∀ k, sys.s.m_iconResults.find k = some none →
          sys2.s.m_iconResults.find k = some none)
      ∧ (∀ k, sys.s.m_subfoldersResults.find k = some none →
          sys2.s.m_subfoldersResults.find k = some none) := by
  induction events with
  | nil =>
    intro sys sys2 hinv _ _ h
    simp only [runSys, Option.some.injEq] at h
    subst h
    exact ⟨hinv, fun _ hk => hk, fun _ hk => hk⟩
  | cons e rest ih =>
    intro sys sys2 hinv hI hS h
    simp only [runSys] at h
    cases h1 : sysStep env sys e with
    | none => simp [h1] at h
    | some sys1 =>
      simp only [h1, Option.some_bind] at h
      simp only [List.length_cons, Nat.cast_add, Nat.cast_one] at hI hS
      obtain ⟨stI, stS⟩ := sysStep_steps env sys sys1 e hinv h1
      obtain ⟨iI, cI, tI⟩ := ResultsInv.step _ _ _ _ _ _ _ _ hinv.1 (by omega) stI
      obtain ⟨iS, cS, tS⟩ := ResultsInv.step _ _ _ _ _ _ _ _ hinv.2 (by omega) stS
      obtain ⟨inv2, t2I, t2S⟩ := ih sys1 sys2 ⟨iI, iS⟩ (by omega) (by omega) h
      exact ⟨inv2, fun k hk => t2I k (tI k hk), fun k hk => t2S k (tS k hk)⟩

/-- C28: `FindIconAsync` and `CheckSubfoldersAsync` return an absent result and
post nothing when their query fails, and post one message, carrying the result
id they were given, when it succeeds.  In a system whose stores, pools and
posted messages fit together (`SysInv`, which holds when nothing is queued), as
long as the counters stay below the largest `int`, every run of requests,
expansions, task runs and dispatches keeps them fitting together, and an entry
of either store whose task has failed is still there at the end of the run. -/
theorem task_posts_iff_succeeds (env : Env) (sys sys2 : Sys) (events : List TaskEvent)
    (hinv : SysInv env sys)
    (hroomI : sys.s.m_iconResultIDCounter + events.length < 2147483648)
    (hroomS : sys.s.m_subfoldersResultIDCounter + events.length < 2147483648)
    (hrun : runSys env sys events = some sys2) :
    (∀ (iconResultId : Int) (item : HTREEITEM) (internalIndex : Int) (pidl : PIDL),
        (env.shell.SHGetFileInfo pidl = none →
          FindIconAsync env.shell iconResultId item internalIndex pidl = (none, []))
        ∧ (∀ iIcon, env.shell.SHGetFileInfo pidl = some iIcon →
          FindIconAsync env.shell iconResultId item internalIndex pidl
            = (some { item := item, internalIndex := internalIndex, iconIndex := iIcon },
               [Message.WM_APP_ICON_RESULT_READY iconResultId])))
    ∧ (∀ (subfoldersResultId : Int) (item : HTREEITEM) (pidl : PIDL),
        ((FAILED (env.shell.SHBindToParent pidl) = true
            ∨ FAILED (env.shell.GetAttributesOf pidl SFGAO_HASSUBFOLDER).1 = true) →
          CheckSubfoldersAsync env.shell subfoldersResultId item pidl = (none, []))
        ∧ (FAILED (env.shell.SHBindToParent pidl) = false →
          FAILED (env.shell.GetAttributesOf pidl SFGAO_HASSUBFOLDER).1 = false →
          CheckSubfoldersAsync env.shell subfoldersResultId item pidl
            = (some { item := item,
                      hasSubfolder := WI_IsFlagSet
                        (env.shell.GetAttributesOf pidl SFGAO_HASSUBFOLDER).2
                        SFGAO_HASSUBFOLDER },
               [Message.WM_APP_SUBFOLDERS_RESULT_READY subfoldersResultId])))
    ∧ SysInv env sys2
    ∧ (∀ k, sys.s.m_iconResults.find k = some none →
        sys2.s.m_iconResults.find k = some none)
    ∧ (∀ k, sys.s.m_subfoldersResults.find k = some none →
        sys2.s.m_subfoldersResults.find k = some none) := by
  refine ⟨?_, ?_, runSys_inv env events sys sys2 hinv hroomI hroomS hrun⟩
  · intro iconResultId item internalIndex pidl
    refine ⟨?_, ?_⟩
    · intro h
      simp [FindIconAsync, h]
    · intro iIcon h
      simp [FindIconAsync, h]
  · intro subfoldersResultId item pidl
    refine ⟨?_, ?_⟩
    · intro h
      unfold CheckSubfoldersAsync
      by_cases h1 : FAILED (env.shell.SHBindToParent pidl) = true
      · simp [h1]
      · rcases h with h | h
        · exact absurd h h1
        · simp [h1, h]
    · intro h1 h2
      simp [CheckSubfoldersAsync, h1, h2]

theorem exIdleSys_inv (env : Env) : SysInv env exIdleSys := by
  refine ⟨⟨?_, ?_, ?_, ?_, ?_⟩, ⟨?_, ?_, ?_, ?_, ?_⟩⟩ <;>
    simp [exIdleSys, exSiblingState, StdMap.keys]

theorem task_posts_iff_succeeds_witness :
    runSys exFailEnv exIdleSys
        [TaskEvent.getDispInfo 3 (TVIF_IMAGE ||| TVIF_CHILDREN), TaskEvent.runIconTask,
         TaskEvent.runSubfoldersTask] = some exFailedSys
    ∧ runSys exFailEnv exFailedSys exLaterEvents = some exLaterSys
    ∧ exFailedSys.s.m_iconResults.find 0 = some none
    ∧ exFailedSys.s.m_subfoldersResults.find 0 = some none
    ∧ exFailedSys.posted = []
    ∧ exLaterSys.s.m_iconResults.keys = [0]
    ∧ exLaterSys.s.m_subfoldersResults.keys = [0]
    ∧ exLaterSys.s.m_iconResultIDCounter = 2
    ∧ exLaterSys.posted = []
    ∧ exLaterSys.s.m_iconResults.find 0 = some none
    ∧ exLaterSys.s.m_subfoldersResults.find 0 = some none :=
  ⟨by decide, by decide, by decide, by decide, by decide, by decide, by decide, by decide,
   by decide,
   (task_posts_iff_succeeds exFailEnv exFailedSys exLaterSys exLaterEvents
      (task_posts_iff_succeeds exFailEnv exIdleSys exFailedSys
        [TaskEvent.getDispInfo 3 (TVIF_IMAGE ||| TVIF_CHILDREN), TaskEvent.runIconTask,
         TaskEvent.runSubfoldersTask]
        (exIdleSys_inv exFailEnv) (by decide) (by decide) (by decide)).2.2.1
      (by decide) (by decide) (by decide)).2.2.2.1 0 (by decide),
   (task_posts_iff_succeeds exFailEnv exFailedSys exLaterSys exLaterEvents
      (task_posts_iff_succeeds exFailEnv exIdleSys exFailedSys
        [TaskEvent.getDispInfo 3 (TVIF_IMAGE ||| TVIF_CHILDREN), TaskEvent.runIconTask,
         TaskEvent.runSubfoldersTask]
        (exIdleSys_inv exFailEnv) (by decide) (by decide) (by decide)).2.2.1
      (by decide) (by decide) (by decide)).2.2.2.2 0 (by decide)⟩

/-! ## The search for an item -/

theorem TreeCtrl.findNode_items_sublist (h : HTREEITEM) (t r : TreeCtrl)
    (hf : t.findNode h = some r) : List.Sublist r.items t.items := by
  induction t with
  | nil => simp [TreeCtrl.findNode] at hf
  | node a c n ihc ihn =>
    simp only [TreeCtrl.findNode] at hf
    by_cases ha : a.hItem = h
    · rw [if_pos ha] at hf
      cases hf
      exact List.Sublist.refl _
    · rw [if_neg ha] at hf
      cases hc : c.findNode h with
      | some r2 =>
        rw [hc] at hf
        cases hf
        exact List.Sublist.cons _ ((ihc hc).trans (List.sublist_append_left _ _))
      | none =>
        rw [hc] at hf
        exact List.Sublist.cons _ ((ihn hf).trans (List.sublist_append_right _ _))

theorem TreeCtrl.findNode_handles_nodup (h : HTREEITEM) (t r : TreeCtrl)
    (hnd : t.handles.Nodup) (hf : t.findNode h = some r) : r.handles.Nodup :=
  List.Nodup.sublist ((TreeCtrl.findNode_items_sublist h t r hf).map _) hnd

theorem TreeCtrl.findNode_trans (t : TreeCtrl) (hnd : t.handles.Nodup) (h x : HTREEITEM)
    (r q : TreeCtrl) (hf : t.findNode h = some r) (hq : r.findNode x = some q) :
    t.findNode x = some q := by
  induction t with
  | nil => simp [TreeCtrl.findNode] at hf
  | node a c n ihc ihn =>
    rw [TreeCtrl.handles_node] at hnd
    have hnd2 := List.nodup_cons.1 hnd
    have happ := List.nodup_append.1 hnd2.2
    simp only [TreeCtrl.findNode] at hf
    by_cases ha : a.hItem = h
    · rw [if_pos ha] at hf
      cases hf
      exact hq
    · rw [if_neg ha] at hf
      cases hc : c.findNode h with
      | some r2 =>
        rw [hc] at hf
        cases hf
        have hx := ihc happ.1 hc
        have hxm : x ∈ c.handles := TreeCtrl.mem_handles_of_findNode x c q hx
        have hax : a.hItem ≠ x := by
          intro e
          exact hnd2.1 (e ▸ List.mem_append_left _ hxm)
        simp only [TreeCtrl.findNode, if_neg hax, hx]
      | none =>
        rw [hc] at hf
        have hx := ihn happ.2.1 hf
        have hxm : x ∈ n.handles := TreeCtrl.mem_handles_of_findNode x n q hx
        have hax : a.hItem ≠ x := by
          intro e
          exact hnd2.1 (e ▸ List.mem_append_right _ hxm)
        have hxc : c.findNode x = none :=
          TreeCtrl.findNode_eq_none x c (fun hm => happ.2.2 hm hxm)
        simp only [TreeCtrl.findNode, if_neg hax, hxc, hx]

theorem TreeCtrl.findNode_head (it : TVITEMEX) (c n : TreeCtrl) :
    (TreeCtrl.node it c n).findNode it.hItem = some (TreeCtrl.node it c n) := by
  simp [TreeCtrl.findNode]

/-- A node found in a tree with distinct handles is found again from the handle
of its first child, and from the handle of its next sibling. -/
theorem TreeCtrl.findNode_child_next (t : TreeCtrl) (hnd : t.handles.Nodup) (it : TVITEMEX)
    (c n : TreeCtrl) (hf : t.findNode it.hItem = some (TreeCtrl.node it c n)) :
    (∀ ic cc cn, c = TreeCtrl.node ic cc cn → t.findNode ic.hItem = some c)
    ∧ (∀ i2 c2 n2, n = TreeCtrl.node i2 c2 n2 → t.findNode i2.hItem = some n) := by
  have hr := TreeCtrl.findNode_handles_nodup _ t _ hnd hf
  rw [TreeCtrl.handles_node] at hr
  have hr2 := List.nodup_cons.1 hr
  have happ := List.nodup_append.1 hr2.2
  refine ⟨?_, ?_⟩
  · intro ic cc cn hc
    subst hc
    apply TreeCtrl.findNode_trans t hnd it.hItem ic.hItem _ _ hf
    have hne : it.hItem ≠ ic.hItem := by
      intro e
      apply hr2.1
      rw [e, TreeCtrl.handles_node]
      exact List.mem_append_left _ (List.mem_cons_self _ _)
    simp [TreeCtrl.findNode, hne]
  · intro i2 c2 n2 hn
    subst hn
    apply TreeCtrl.findNode_trans t hnd it.hItem i2.hItem _ _ hf
    have hm : i2.hItem ∈ (TreeCtrl.node i2 c2 n2).handles := by
      rw [TreeCtrl.handles_node]
      exact List.mem_cons_self _ _
    have hne : it.hItem ≠ i2.hItem := by
      intro e
      apply hr2.1
      rw [e]
      exact List.mem_append_right _ hm
    have hcn : c.findNode i2.hItem = none :=
      TreeCtrl.findNode_eq_none _ c (fun hmc => happ.2.2 hmc hm)
    simp [TreeCtrl.findNode, hne, hcn]

theorem locateLoop_existing (env : Env) (api : PidlApi) (pidlDirectory : PIDL) (s : State)
    (hnd : s.tree.handles.Nodup)
    (hreg : ∀ it ∈ s.tree.items, (s.m_itemInfoMap.at_ it.lParam).isSome = true)
    (r : TreeCtrl) :
    (∀ it c n, r = TreeCtrl.node it c n → s.tree.findNode it.hItem = some r) →
    ∀ fuel, r.items.length ≤ fuel →
      ∃ res, locateLoop env api pidlDirectory true fuel s r.head? = some (res, s)
        ∧ (res = none
          ∨ ∃ h itemInfo, res = some h ∧ GetItemByHandle s h = some itemInfo
              ∧ api.ArePidlsEquivalent itemInfo.pidl pidlDirectory = true) := by
  induction r with
  | nil =>
    intro _ fuel _
    refine ⟨none, ?_, Or.inl rfl⟩
    cases fuel <;> rfl
  | node it c n ihc ihn =>
    intro hE fuel hfuel
    have hf := hE it c n rfl
    have hsub := TreeCtrl.findNode_child_next s.tree hnd it c n hf
    obtain ⟨fuel, rfl⟩ : ∃ f, fuel = f + 1 := by
      cases fuel with
      | zero => simp [TreeCtrl.items] at hfuel
      | succ f => exact ⟨f, rfl⟩
    have hlen : c.items.length + n.items.length ≤ fuel := by
      simp only [TreeCtrl.items, List.length_cons, List.length_append] at hfuel
      omega
    have hget : TreeView_GetItem s.tree it.hItem = some it := by
      simp [TreeView_GetItem, hf, TreeCtrl.itemOf]
    have hmem : it ∈ s.tree.items :=
      TreeCtrl.mem_items_of_findNode it.hItem s.tree _ hf it (by simp [TreeCtrl.items])
    obtain ⟨itemInfo, hinfo⟩ := Option.isSome_iff_exists.1 (hreg it hmem)
    have hchild : TreeView_GetChild s.tree it.hItem = c.head? := by
      simp [TreeView_GetChild, hf, TreeCtrl.childOf]
    have hnext : TreeView_GetNextSibling s.tree it.hItem = n.head? := by
      simp [TreeView_GetNextSibling, hf, TreeCtrl.nextOf]
    have hhead : (TreeCtrl.node it c n).head? = some it.hItem := rfl
    rw [hhead]
    simp only [locateLoop, hget, hinfo, hchild, hnext]
    by_cases heq : api.ArePidlsEquivalent itemInfo.pidl pidlDirectory = true
    · rw [if_pos heq]
      refine ⟨some it.hItem, rfl, Or.inr ⟨it.hItem, itemInfo, rfl, ?_, heq⟩⟩
      simp [GetItemByHandle, GetItemInternalIndex, hget, hinfo]
    · rw [if_neg heq]
      by_cases hpar : api.ILIsParent itemInfo.pidl pidlDirectory false = true
      · rw [if_pos hpar]
        by_cases hc : c.head? = none
        · rw [if_pos hc]
          exact ⟨none, by simp, Or.inl rfl⟩
        · rw [if_neg hc]
          exact ihc hsub.1 fuel (by omega)
      · rw [if_neg hpar]
        exact ihn hsub.2 fuel (by omega)

theorem locateLoop_found_both (env : Env) (api : PidlApi) (pidlDirectory : PIDL) :
    ∀ (fuel : Nat) (s s2 : State) (hItem : Option HTREEITEM) (h : HTREEITEM),
      locateLoop env api pidlDirectory true fuel s hItem = some (some h, s2) →
      locateLoop env api pidlDirectory false fuel s hItem = some (some h, s2) := by
  intro fuel
  induction fuel with
  | zero =>
    intro s s2 hItem h hl
    cases hItem with
    | none => simp [locateLoop] at hl
    | some x => simp [locateLoop] at hl
  | succ fuel ih =>
    intro s s2 hItem h hl
    cases hItem with
    | none => simp [locateLoop] at hl
    | some x =>
      simp only [locateLoop] at hl ⊢
      cases hg : TreeView_GetItem s.tree x with
      | none => rw [hg] at hl; cases hl
      | some item =>
        rw [hg] at hl
        simp only at hl ⊢
        cases hi : s.m_itemInfoMap.at_ item.lParam with
        | none => rw [hi] at hl; cases hl
        | some itemInfo =>
          rw [hi] at hl
          simp only at hl ⊢
          by_cases heq : api.ArePidlsEquivalent itemInfo.pidl pidlDirectory = true
          · rw [if_pos heq] at hl ⊢
            exact hl
          · rw [if_neg heq] at hl ⊢
            by_cases hpar : api.ILIsParent itemInfo.pidl pidlDirectory false = true
            · rw [if_pos hpar] at hl ⊢
              by_cases hch : TreeView_GetChild s.tree x = none
              · rw [if_pos hch] at hl
                simp at hl
              · rw [if_neg hch] at hl ⊢
                exact ih _ _ _ _ hl
            · rw [if_neg hpar] at hl ⊢
              exact ih _ _ _ _ hl

/-- C29: on a tree with distinct handles whose nodes are all registered,
`LocateExistingItem` returns whenever its loop may take as many turns as the
tree has nodes; it leaves the state as it was (no node is expanded, the tree
and the registry are unchanged) and returns null or a node whose registered
identity is equivalent to the target; a node it finds is also what `LocateItem`
returns, in the same state.  At an ancestor of the target without child nodes
`LocateExistingItem` returns null at once, while `LocateItem` expands that node
and goes on with its first child; at every other node the two take the same
step, to the first child of an ancestor or else to the next sibling. -/
theorem LocateExistingItem_read_only (env : Env) (api : PidlApi) (s : State)
    (pidlDirectory : PIDL) (hnd : s.tree.handles.Nodup)
    (hreg : ∀ it ∈ s.tree.items, (s.m_itemInfoMap.at_ it.lParam).isSome = true) :
    (∀ fuel, s.tree.items.length ≤ fuel →
      ∃ res, LocateExistingItem env api s pidlDirectory fuel = some (res, s)
        ∧ (res = none
          ∨ ∃ h itemInfo, res = some h ∧ GetItemByHandle s h = some itemInfo
              ∧ api.ArePidlsEquivalent itemInfo.pidl pidlDirectory = true)
        ∧ (∀ h, res = some h → LocateItem env api s pidlDirectory fuel = some (some h, s)))
    ∧ (∀ (fuel : Nat) (hItem : HTREEITEM) (item : TVITEMEX) (itemInfo : ItemInfo),
        TreeView_GetItem s.tree hItem = some item →
        s.m_itemInfoMap.at_ item.lParam = some itemInfo →
        api.ArePidlsEquivalent itemInfo.pidl pidlDirectory = false →
        api.ILIsParent itemInfo.pidl pidlDirectory false = true →
        TreeView_GetChild s.tree hItem = none →
        locateLoop env api pidlDirectory true (fuel + 1) s (some hItem) = some (none, s)
        ∧ locateLoop env api pidlDirectory false (fuel + 1) s (some hItem)
          = (OnItemExpanding env s hItem TVE_EXPAND).bind (fun s1 =>
              locateLoop env api pidlDirectory false fuel s1 (TreeView_GetChild s1.tree hItem)))
    ∧ (∀ (b : Bool) (fuel : Nat) (hItem : HTREEITEM) (item : TVITEMEX) (itemInfo : ItemInfo),
        TreeView_GetItem s.tree hItem = some item →
        s.m_itemInfoMap.at_ item.lParam = some itemInfo →
        api.ArePidlsEquivalent itemInfo.pidl pidlDirectory = false →
        (api.ILIsParent itemInfo.pidl pidlDirectory false = false
          ∨ TreeView_GetChild s.tree hItem ≠ none) →
        locateLoop env api pidlDirectory b (fuel + 1) s (some hItem)
          = locateLoop env api pidlDirectory b fuel s
              (if api.ILIsParent itemInfo.pidl pidlDirectory false
                then TreeView_GetChild s.tree hItem
                else TreeView_GetNextSibling s.tree hItem)) := by
  refine ⟨?_, ?_, ?_⟩
  · intro fuel hfuel
    have hE : ∀ it c n, s.tree = TreeCtrl.node it c n → s.tree.findNode it.hItem = some s.tree := by
      intro it c n ht
      rw [ht]
      exact TreeCtrl.findNode_head it c n
    obtain ⟨res, hl, hres⟩ :=
      locateLoop_existing env api pidlDirectory s hnd hreg s.tree hE fuel hfuel
    refine ⟨res, hl, hres, ?_⟩
    intro h hh
    subst hh
    exact locateLoop_found_both env api pidlDirectory fuel s s _ h hl
  · intro fuel hItem item itemInfo hg hi heq hpar hch
    refine ⟨?_, ?_⟩
    · simp [locateLoop, hg, hi, heq, hpar, hch]
    · simp only [locateLoop, hg, hi, heq, hpar, hch, Bool.false_eq_true, if_false, if_true]
      cases OnItemExpanding env s hItem TVE_EXPAND <;> rfl
  · intro b fuel hItem item itemInfo hg hi heq hor
    simp only [locateLoop, hg, hi, heq, Bool.false_eq_true, if_false]
    cases hpar : api.ILIsParent itemInfo.pidl pidlDirectory false with
    | false => simp
    | true =>
      rcases hor with hor | hor
      · rw [hpar] at hor
        cases hor
      · simp [hor]

theorem LocateExistingItem_read_only_witness :
    exDeepState.tree.handles.Nodup
    ∧ (∀ it ∈ exDeepState.tree.items, (exDeepState.m_itemInfoMap.at_ it.lParam).isSome = true)
    ∧ exDeepState.tree.items.length ≤ 3
    ∧ LocateExistingItem (exEnv exFoldersGrown) exPidlApi exDeepState [1, 2] 3
        = some (some 3, exDeepState)
    ∧ LocateExistingItem (exEnv exFoldersGrown) exPidlApi exDeepState [1, 2, 5] 3
        = some (none, exDeepState)
    ∧ ∃ res, LocateExistingItem (exEnv exFoldersGrown) exPidlApi exDeepState [1, 2] 3
        = some (res, exDeepState) :=
  ⟨by decide, by decide, by decide, by decide, by decide,
   match (LocateExistingItem_read_only (exEnv exFoldersGrown) exPidlApi exDeepState [1, 2]
      (by decide) (by decide)).1 3 (by decide) with
   | ⟨res, h, _⟩ => ⟨res, h⟩⟩

end ShellTreeView
